import Mathlib

/-!
# Flow-Maker: the steps, the executor and the catalog codec

A shallow embedding of `FlowMaker.cpp`: the step classes with their `reset` and
`execute`, `CalculusStep<T>::performCalculation`, `FlowExecutor::executeFlow` with
all its branches, and the catalog functions `saveFlowToCSV`, `loadFlowFromCSV`,
`readExistingFlowNames` and `deleteFlowFromCSV`.

* Numbers (`double` in the program, the only instantiation of the
  `CalculusStep<T>` template) are the elements of a type `T`.
  `performCalculation` and its loops use only the operations of `T` and assume no
  law of them, so that what is proved of the Addition and Multiplication cases
  holds of the rounding operations of `double` too. The executor and the theorems
  on the other cases take `T` to be a linearly ordered field; rounding and the
  special floating-point values are outside that part of the model.
* A `FlowStep*` is a value of the sum type `FlowStep`; the pointers a Calculus
  step keeps to earlier NumberInput steps are indices into the owning flow.
* Streams (`cin`, `ifstream`, `stringstream`) are the list of characters still
  to be read; a file is its content, `none` when it cannot be opened.
* A function that reads the console returns `none` when the input ends at a read.
* What the library does with a `double` on the console, and whether a file opens
  for writing, is a parameter (`Runtime`).
* Of the text written to `cout` and `cerr` the complete lines are kept.
-/

set_option autoImplicit false

namespace FlowMaker

/-! ## Definitions -/

/-- The `enum class ArithmeticOperation`. -/
inductive ArithmeticOperation where
  | Addition
  | Subtraction
  | Multiplication
  | Division
  | Minimum
  | Maximum
  deriving DecidableEq, Repr

/-- The class `NumberInputStep`: the creator's description (with the
constructor's default argument) and the number typed by the operator (with its
member initialiser `0.0`). -/
structure NumberInputStep (T : Type) [Zero T] where
  description : String := "Default Number Input Description"
  userInput : T := 0
  deriving DecidableEq, Repr

/-- The getter `NumberInputStep::getUserInput`. -/
def NumberInputStep.getUserInput {T : Type} [Zero T] (s : NumberInputStep T) : T :=
  s.userInput

/-! ### The step classes -/

/-- The class `TitleStep`, with the constructor's default arguments and the
member initialiser of `complete`. -/
structure TitleStep where
  title : String := "Default Title for TitleStep"
  subtitle : String := "Default Subtitle for TitleStep"
  complete : Bool := false
  deriving DecidableEq, Repr

/-- The class `TextStep`. The constructor leaves `stepNumber` uninitialised:
`none` stands for that state, `some i` for an index stored by the executor. -/
structure TextStep where
  title : String := "Default Title for TextStep"
  text : String := "Default text for TextStep"
  complete : Bool := false
  stepNumber : Option Nat := none
  deriving DecidableEq, Repr

/-- The class `TextInputStep`. -/
structure TextInputStep where
  description : String := "Default Description"
  deriving DecidableEq, Repr

/-- The class `CalculusStep<T>`: its constructor has no default arguments. The
vector of `NumberInputStep*` is the list of the flow indices of the steps pointed
to. -/
structure CalculusStep where
  operation : ArithmeticOperation
  numberInputs : List Nat
  operationSymbol : Char
  deriving DecidableEq, Repr

/-- The class `TextFileInputStep`. -/
structure TextFileInputStep where
  description : String := "Default Description"
  fileName : String := ""
  fileImported : Bool := false
  fileContent : String := ""
  deriving DecidableEq, Repr

/-- The class `CSVFileInputStep`. -/
structure CSVFileInputStep where
  description : String := "Default Description"
  fileName : String := ""
  fileImported : Bool := false
  csvData : List (List String) := []
  deriving DecidableEq, Repr

/-- The class `OutputStep`, with the constructor's default arguments. -/
structure OutputStep where
  filename : String := "Default File Name"
  title : String := "Default File Title"
  description : String := "Default File Description"
  outputData : List String := []
  deriving DecidableEq, Repr

/-- A `FlowStep*`: an object of one of the ten concrete classes. `DisplayStep`
and `EndStep` have no members. -/
inductive FlowStep (T : Type) [Zero T] where
  | titleStep (s : TitleStep)
  | textStep (s : TextStep)
  | textInputStep (s : TextInputStep)
  | numberInputStep (s : NumberInputStep T)
  | calculusStep (s : CalculusStep)
  | displayStep
  | textFileInputStep (s : TextFileInputStep)
  | csvFileInputStep (s : CSVFileInputStep)
  | outputStep (s : OutputStep)
  | endStep
  deriving DecidableEq, Repr

/-- The method `TitleStep::reset`. -/
def TitleStep.reset (s : TitleStep) : TitleStep :=
  { s with
    complete := false
    title := "Default Title for TitleStep"
    subtitle := "Default Subtitle for TitleStep" }

/-- The method `TextStep::reset`: it does not assign `stepNumber`. -/
def TextStep.reset (s : TextStep) : TextStep :=
  { s with
    complete := false
    title := "Default Title for TextStep"
    text := "Default text for TextStep" }

/-- The method `TextInputStep::reset`. -/
def TextInputStep.reset (s : TextInputStep) : TextInputStep :=
  { s with description := "Default Description" }

/-- The method `NumberInputStep::reset`. -/
def NumberInputStep.reset {T : Type} [Zero T] (s : NumberInputStep T) : NumberInputStep T :=
  { s with
    description := "Default Number Input Description"
    userInput := 0 }

/-- The method `CalculusStep<T>::reset`. -/
def CalculusStep.reset (s : CalculusStep) : CalculusStep :=
  { s with
    operation := ArithmeticOperation.Addition
    operationSymbol := '+'
    numberInputs := [] }

/-- The method `TextFileInputStep::reset`. -/
def TextFileInputStep.reset (s : TextFileInputStep) : TextFileInputStep :=
  { s with
    fileImported := false
    fileContent := ""
    fileName := ""
    description := "Default Description" }

/-- The method `CSVFileInputStep::reset`. -/
def CSVFileInputStep.reset (s : CSVFileInputStep) : CSVFileInputStep :=
  { s with
    description := "Default Description"
    fileName := ""
    fileImported := false
    csvData := [] }

/-- The method `OutputStep::reset`. -/
def OutputStep.reset (s : OutputStep) : OutputStep :=
  { s with
    description := "Default Description"
    title := "Default Title"
    filename := "Default File Name"
    outputData := [] }

/-- The virtual method `getType`. -/
def FlowStep.getType {T : Type} [Zero T] : FlowStep T → String
  | .titleStep _ => "TitleStep"
  | .textStep _ => "TextStep"
  | .textInputStep _ => "TextInputStep"
  | .numberInputStep _ => "NumberInputStep"
  | .calculusStep _ => "CalculusStep"
  | .displayStep => "DisplayStep"
  | .textFileInputStep _ => "TextFileInputStep"
  | .csvFileInputStep _ => "CSVFileInputStep"
  | .outputStep _ => "OutputStep"
  | .endStep => "EndStep"

/-- The virtual method `reset`: `DisplayStep` and `EndStep` inherit the empty body
of `FlowStep::reset`. -/
def FlowStep.reset {T : Type} [Zero T] : FlowStep T → FlowStep T
  | .titleStep s => .titleStep s.reset
  | .textStep s => .textStep s.reset
  | .textInputStep s => .textInputStep s.reset
  | .numberInputStep s => .numberInputStep s.reset
  | .calculusStep s => .calculusStep s.reset
  | .displayStep => .displayStep
  | .textFileInputStep s => .textFileInputStep s.reset
  | .csvFileInputStep s => .csvFileInputStep s.reset
  | .outputStep s => .outputStep s.reset
  | .endStep => .endStep

/-- The object `new K()` makes for each class `K` that has a default constructor
(every class but `CalculusStep<T>`), by the class's type tag. -/
def FlowStep.defaultConstructed {T : Type} [Zero T] : FlowStep T → Option (FlowStep T)
  | .titleStep _ => some (.titleStep {})
  | .textStep _ => some (.textStep {})
  | .textInputStep _ => some (.textInputStep {})
  | .numberInputStep _ => some (.numberInputStep {})
  | .calculusStep _ => none
  | .displayStep => some .displayStep
  | .textFileInputStep _ => some (.textFileInputStep {})
  | .csvFileInputStep _ => some (.csvFileInputStep {})
  | .outputStep _ => some (.outputStep {})
  | .endStep => some .endStep

/-- The class `Flow`: a name and the steps it owns, in order. -/
structure Flow (T : Type) [Zero T] where
  name : String
  steps : List (FlowStep T)
  deriving DecidableEq, Repr

/-- The method `Flow::addStep`. -/
def Flow.addStep {T : Type} [Zero T] (flow : Flow T) (step : FlowStep T) : Flow T :=
  { flow with steps := flow.steps ++ [step] }

/-! ### The console and the Calculus and End branches of `FlowExecutor::executeFlow` -/

/-- The classification `std::isspace` of the classic locale, which formatted
extraction uses to skip leading whitespace. -/
def isSpace (c : Char) : Bool :=
  c = ' ' || c = '\t' || c = '\n' || c = '\x0b' || c = '\x0c' || c = '\r'

/-- The extraction `cin >> c` of one `char`: leading whitespace is skipped and the
next character is delivered. `none` when the input ends first; the variable is
then left as it was, which for the executor's variables is no value at all. -/
def cinChar : List Char → Option (Char × List Char)
  | [] => none
  | c :: rest => if isSpace c then cinChar rest else some (c, rest)

/-- The call `cin.ignore(numeric_limits<streamsize>::max(), '\n')`: the rest of the
line and its newline are discarded. -/
def ignoreLine : List Char → List Char
  | [] => []
  | c :: rest => if c = '\n' then rest else ignoreLine rest

/-- The call `cin.ignore()`: one character is discarded. -/
def ignoreOne (cin : List Char) : List Char :=
  cin.drop 1

/-- The test `c == 'Y' || c == 'y'` applied to every answer. -/
def isYes (c : Char) : Bool :=
  c = 'Y' || c = 'y'

/-- The method `CalculusStep<T>::addNumberInput`, for a non-null pointer. -/
def CalculusStep.addNumberInput (s : CalculusStep) (inputStep : Nat) : CalculusStep :=
  { s with numberInputs := s.numberInputs ++ [inputStep] }

/-- The NumberInput steps the pointers of a Calculus step refer to, in the order of
the pointers. -/
def derefNumberInputs {T : Type} [Zero T] (steps : List (FlowStep T)) :
    List Nat → List (NumberInputStep T)
  | [] => []
  | j :: rest =>
    match steps[j]? with
    | some (.numberInputStep s) => s :: derefNumberInputs steps rest
    | _ => derefNumberInputs steps rest

/-- The operand selection loop `for (size_t j = 0; j < i; ++j)` of the Calculus
branch. The state is the loop index, `selectedInputs`, `verifyExistanceNumbers` and
the console input; an accepted first operand sets `j = -1`, so the scan goes on from
index 0. The first argument bounds the number of iterations. `none`: the input ended
at a question. -/
def selectLoop {T : Type} [Zero T] (steps : List (FlowStep T)) (i : Nat) :
    Nat → Nat → List Nat → Bool → List Char → Option (List Nat × Bool × List Char)
  | 0, _, _, _, _ => none
  | fuel + 1, j, selectedInputs, verifyExistanceNumbers, cin =>
    if j < i then
      match steps[j]? with
      | some (.numberInputStep _) =>
        match cinChar cin with
        | none => none
        | some (selectInput, cin1) =>
          if isYes selectInput then
            if (selectedInputs ++ [j]).length ≥ 2 then
              some (selectedInputs ++ [j], true, ignoreLine cin1)
            else
              selectLoop steps i fuel 0 (selectedInputs ++ [j]) true (ignoreLine cin1)
          else
            selectLoop steps i fuel (j + 1) selectedInputs true (ignoreLine cin1)
      | _ => selectLoop steps i fuel (j + 1) selectedInputs verifyExistanceNumbers cin
    else
      some (selectedInputs, verifyExistanceNumbers, cin)

/-- The whole operand selection of the Calculus branch at index `i`, from `j = 0`
with nothing selected. At most `2 * i + 1` iterations take place. -/
def selectNumberInputs {T : Type} [Zero T] (steps : List (FlowStep T)) (i : Nat)
    (cin : List Char) : Option (List Nat × Bool × List Char) :=
  selectLoop steps i (2 * i + 2) 0 [] false cin

/-- The loop `for (int selectedInput : selectedInputs)` that hands the selected
steps to `addNumberInput`. -/
def addSelectedInputs {T : Type} [Zero T] (steps : List (FlowStep T)) :
    List Nat → CalculusStep → CalculusStep
  | [], calculusStep => calculusStep
  | selectedInput :: rest, calculusStep =>
    match steps[selectedInput]? with
    | some (.numberInputStep _) =>
      addSelectedInputs steps rest (calculusStep.addNumberInput selectedInput)
    | _ => addSelectedInputs steps rest calculusStep

/-- The symbols accepted by the first `switch` on the operation symbol. -/
def isOperationSymbol (c : Char) : Bool :=
  c = '+' || c = '-' || c = '*' || c = '/' || c = 'm' || c = 'M'

/-- The loop `while (!validOperation)`: `cin >> operationSymbol; cin.ignore();`
until a valid symbol arrives. Every round consumes a character, so the first
argument, one more than the length of the input, is never used up. `none`: the
input ended before a valid symbol, and the loop does not end. -/
def operationSymbolLoop : Nat → List Char → Option (Char × List Char)
  | 0, _ => none
  | fuel + 1, cin =>
    match cinChar cin with
    | none => none
    | some (operationSymbol, cin1) =>
      if isOperationSymbol operationSymbol then some (operationSymbol, ignoreOne cin1)
      else operationSymbolLoop fuel (ignoreOne cin1)

/-- The second `switch` on the operation symbol: `setOperation` and
`setOperationSymbol`. -/
def CalculusStep.setOperationBySymbol (s : CalculusStep) (operationSymbol : Char) :
    CalculusStep :=
  if operationSymbol = '+' then
    { s with operation := ArithmeticOperation.Addition, operationSymbol := '+' }
  else if operationSymbol = '-' then
    { s with operation := ArithmeticOperation.Subtraction, operationSymbol := '-' }
  else if operationSymbol = '*' then
    { s with operation := ArithmeticOperation.Multiplication, operationSymbol := '*' }
  else if operationSymbol = '/' then
    { s with operation := ArithmeticOperation.Division, operationSymbol := '/' }
  else if operationSymbol = 'm' then
    { s with operation := ArithmeticOperation.Minimum, operationSymbol := 'm' }
  else if operationSymbol = 'M' then
    { s with operation := ArithmeticOperation.Maximum, operationSymbol := 'M' }
  else
    { s with operation := ArithmeticOperation.Addition, operationSymbol := '+' }

/-- What the Calculus branch leaves behind: the steps of the flow, the console
input not yet read, and what was reported: nothing (`none`, the step was not
completed), `Calculation Result: r` (`Except.ok r`) or `Error: msg`
(`Except.error msg`, the caught `runtime_error`). -/
structure CalculusRun (T : Type) [Zero T] where
  steps : List (FlowStep T)
  cin : List Char
  report : Option (Except String T)

/-- The message thrown when no NumberInput step precedes the Calculus step. -/
def noNumberInputMessage : String :=
  "No number input step from previous steps. Cancelling calculation."

/-- The message thrown when the number of selected inputs is not two. -/
def invalidSelectionMessage : String :=
  "Invalid number of selected inputs. Cancelling calculation."

/-! ### The catalog codec -/

/-- The characters one call `getline(stream, x, delim)` stores in `x`: those before
the first delimiter, or all of them when there is none. -/
def getlineText (delim : Char) : List Char → List Char
  | [] => []
  | c :: rest => if c = delim then [] else c :: getlineText delim rest

/-- The stream one call `getline(stream, x, delim)` leaves: the delimiter that ended
the extraction is consumed too. -/
def getlineRest (delim : Char) : List Char → List Char
  | [] => []
  | c :: rest => if c = delim then rest else getlineRest delim rest

/-- The call `getline(stream, x, delim)`: `none` when it fails, which it does
exactly when nothing is left to read; otherwise the text stored and the stream left. -/
def getline (delim : Char) (stream : List Char) : Option (List Char × List Char) :=
  match stream with
  | [] => none
  | _ :: _ => some (getlineText delim stream, getlineRest delim stream)

/-- The texts delivered by the rounds of `while (getline(stream, x, delim))`, in
order (`getlineAll_eq_getline` states it by the single calls). -/
def getlineAll (delim : Char) : List Char → List (List Char)
  | [] => []
  | c :: rest =>
    if c = delim then [] :: getlineAll delim rest
    else
      match getlineAll delim rest with
      | [] => [[c]]
      | x :: more => (c :: x) :: more

/-- The local variables of one round of the line loops of the codec, once the line
has been read: the two leading fields and the step types the inner `while` reads. -/
structure ParsedLine where
  csvFlowName : List Char
  timestamp : List Char
  stepTypes : List (List Char)
  deriving DecidableEq, Repr

/-- The reads on `stringstream ss(line)`: `getline(ss, csvFlowName, ',')`,
`getline(ss, timestamp, ',')` and the rounds of `while (getline(ss, stepType, ','))`.
A string whose read fails stays empty, and a failed stream fails every later read. -/
def parseLine (line : List Char) : ParsedLine :=
  match getline ',' line with
  | none => { csvFlowName := [], timestamp := [], stepTypes := [] }
  | some (csvFlowName, ss1) =>
    match getline ',' ss1 with
    | none => { csvFlowName := csvFlowName, timestamp := [], stepTypes := [] }
    | some (timestamp, ss2) =>
      { csvFlowName := csvFlowName, timestamp := timestamp, stepTypes := getlineAll ',' ss2 }

/-- The chain of comparisons on `stepType` in `loadFlowFromCSV`, with the object
each branch constructs; `none` is the final `else` (a warning, no step). -/
def makeStep {T : Type} [Zero T] (stepType : List Char) : Option (FlowStep T) :=
  if stepType = "TitleStep".data then some (.titleStep {})
  else if stepType = "TextStep".data then some (.textStep {})
  else if stepType = "TextInputStep".data then
    some (.textInputStep { description := "Input title, subtitle, title text and text" })
  else if stepType = "NumberInputStep".data then
    some (.numberInputStep { description := "Input a number" })
  else if stepType = "CalculusStep".data then
    some (.calculusStep
      { operation := ArithmeticOperation.Addition, numberInputs := [], operationSymbol := '+' })
  else if stepType = "DisplayStep".data then some .displayStep
  else if stepType = "TextFileInputStep".data then
    some (.textFileInputStep { description := "Input a .txt file" })
  else if stepType = "CSVFileInputStep".data then
    some (.csvFileInputStep { description := "Input a .csv file" })
  else if stepType = "OutputStep".data then some (.outputStep {})
  else if stepType = "EndStep".data then some .endStep
  else none

/-- The inner loop of `loadFlowFromCSV` over the step types of the matching line. -/
def addLoadedSteps {T : Type} [Zero T] (loadedFlow : Flow T) : List (List Char) → Flow T
  | [] => loadedFlow
  | stepType :: rest =>
    match makeStep stepType with
    | some step => addLoadedSteps (loadedFlow.addStep step) rest
    | none => addLoadedSteps loadedFlow rest

/-- The outer loop of `loadFlowFromCSV` over the lines of the catalog: the first line
whose name matches is used and ends the loop (`break`). -/
def loadLines {T : Type} [Zero T] (flowName : String) (loadedFlow : Flow T) :
    List (List Char) → Flow T
  | [] => loadedFlow
  | line :: rest =>
    if (parseLine line).csvFlowName = flowName.data then
      addLoadedSteps loadedFlow (parseLine line).stepTypes
    else
      loadLines flowName loadedFlow rest

/-- The function `loadFlowFromCSV`. The catalog is the content `ifstream` offers,
`none` when the file cannot be opened. -/
def loadFlowFromCSV {T : Type} [Zero T] (flowName : String) (csvFile : Option (List Char)) :
    Flow T :=
  match csvFile with
  | some content => loadLines flowName { name := flowName, steps := [] } (getlineAll '\n' content)
  | none => { name := flowName, steps := [] }

/-- The broken-down time `struct tm` read by `strftime`. -/
structure Tm where
  tm_sec : Nat
  tm_min : Nat
  tm_hour : Nat
  tm_mday : Nat
  tm_mon : Nat
  tm_year : Nat
  deriving DecidableEq, Repr

/-- A number in two decimal digits, as `%m`, `%d`, `%H`, `%M` and `%S` print it. -/
def twoDigits (n : Nat) : List Char :=
  [Nat.digitChar (n / 10 % 10), Nat.digitChar (n % 10)]

/-- A number in four decimal digits, as `%Y` prints the years 1000 to 9999, the
ones for which the text fits `char timestamp[20]`. -/
def fourDigits (n : Nat) : List Char :=
  [Nat.digitChar (n / 1000 % 10), Nat.digitChar (n / 100 % 10),
   Nat.digitChar (n / 10 % 10), Nat.digitChar (n % 10)]

/-- The call `strftime(timestamp, sizeof(timestamp), "%Y-%m-%d %H:%M:%S", timeInfo)`. -/
def strftime (timeInfo : Tm) : List Char :=
  fourDigits (timeInfo.tm_year + 1900) ++ ['-'] ++ twoDigits (timeInfo.tm_mon + 1) ++ ['-']
    ++ twoDigits timeInfo.tm_mday ++ [' '] ++ twoDigits timeInfo.tm_hour ++ [':']
    ++ twoDigits timeInfo.tm_min ++ [':'] ++ twoDigits timeInfo.tm_sec

/-- The loop of `saveFlowToCSV` over the steps: `csvFile << step->getType() << ","`. -/
def writeStepTypes {T : Type} [Zero T] : List (FlowStep T) → List Char
  | [] => []
  | step :: rest => step.getType.data ++ [','] ++ writeStepTypes rest

/-- The line `saveFlowToCSV` writes for a flow at a given time. -/
def catalogLine {T : Type} [Zero T] (flow : Flow T) (timeInfo : Tm) : List Char :=
  flow.name.data ++ [','] ++ strftime timeInfo ++ [','] ++ writeStepTypes flow.steps ++ ['\n']

/-- The function `saveFlowToCSV`, on the content of the catalog file (`none`: there
is no such file yet; opening in append mode creates it), the local time and
whether `ofstream` opens the file. When it does not, the exception is caught and
nothing is written. -/
def saveFlowToCSV {T : Type} [Zero T] (flow : Flow T) (timeInfo : Tm) (isOpen : Bool)
    (csvFile : Option (List Char)) : Option (List Char) :=
  if isOpen then some (csvFile.getD [] ++ catalogLine flow timeInfo)
  else csvFile

/-- The ten step types written by `getType` and recognised by `loadFlowFromCSV`. -/
def validStepTypes : List String :=
  ["TitleStep", "TextStep", "TextInputStep", "NumberInputStep", "CalculusStep",
   "DisplayStep", "TextFileInputStep", "CSVFileInputStep", "OutputStep", "EndStep"]

section Calculation

variable {T : Type}

/-- The library function `std::min(a, b)`: `b` when `b < a`, otherwise `a`. -/
def stdMin [LT T] [∀ a b : T, Decidable (a < b)] (a b : T) : T :=
  if b < a then b else a

/-- The library function `std::max(a, b)`: `b` when `a < b`, otherwise `a`. -/
def stdMax [LT T] [∀ a b : T, Decidable (a < b)] (a b : T) : T :=
  if a < b then b else a

/-- The message of the `runtime_error` thrown by the Division case. -/
def divisionByZeroMessage : String :=
  "Division by zero detected. Skipping."

/-- The loop of the Addition case: `result += step->getUserInput()` for every
operand. -/
def additionLoop [Zero T] [Add T] : T → List (NumberInputStep T) → T
  | result, [] => result
  | result, step :: rest => additionLoop (result + step.getUserInput) rest

/-- The loop of the Subtraction case over the operands from index 1 on. -/
def subtractionLoop [Zero T] [Sub T] : T → List (NumberInputStep T) → T
  | result, [] => result
  | result, step :: rest => subtractionLoop (result - step.getUserInput) rest

/-- The loop of the Multiplication case: `result *= step->getUserInput()` for
every operand. -/
def multiplicationLoop [Zero T] [Mul T] : T → List (NumberInputStep T) → T
  | result, [] => result
  | result, step :: rest => multiplicationLoop (result * step.getUserInput) rest

/-- The loop of the Division case over the operands from index 1 on: a zero
operand throws, any other divides the running result. -/
def divisionLoop [Zero T] [Div T] [DecidableEq T] :
    T → List (NumberInputStep T) → Except String T
  | result, [] => Except.ok result
  | result, step :: rest =>
    if step.getUserInput ≠ 0 then divisionLoop (result / step.getUserInput) rest
    else Except.error divisionByZeroMessage

/-- The loop of the Minimum case over the operands from index 1 on. -/
def minimumLoop [Zero T] [LT T] [∀ a b : T, Decidable (a < b)] :
    T → List (NumberInputStep T) → T
  | result, [] => result
  | result, step :: rest => minimumLoop (stdMin result step.getUserInput) rest

/-- The loop of the Maximum case over the operands from index 1 on. -/
def maximumLoop [Zero T] [LT T] [∀ a b : T, Decidable (a < b)] :
    T → List (NumberInputStep T) → T
  | result, [] => result
  | result, step :: rest => maximumLoop (stdMax result step.getUserInput) rest

/-- The method `CalculusStep<T>::performCalculation`, on the step's operation and
the NumberInput steps its pointers refer to. `Except.error` is the thrown
`runtime_error`. It uses the operations `+`, `-`, `*`, `/`, `<`, `!=` and the
constants 0 and 1 of the number type and assumes no law of them: for `double`
they are the rounding operations of the machine. -/
def performCalculation [Zero T] [One T] [Add T] [Sub T] [Mul T] [Div T] [LT T]
    [DecidableEq T] [∀ a b : T, Decidable (a < b)] (operation : ArithmeticOperation)
    (numberInputs : List (NumberInputStep T)) : Except String T :=
  match operation with
  | .Addition => Except.ok (additionLoop 0 numberInputs)
  | .Subtraction =>
    match numberInputs with
    | [] => Except.ok 0
    | first :: rest => Except.ok (subtractionLoop first.getUserInput rest)
  | .Multiplication => Except.ok (multiplicationLoop 1 numberInputs)
  | .Division =>
    match numberInputs with
    | [] => Except.ok 0
    | first :: rest => divisionLoop first.getUserInput rest
  | .Minimum =>
    match numberInputs with
    | [] => Except.ok 0
    | first :: rest => Except.ok (minimumLoop first.getUserInput rest)
  | .Maximum =>
    match numberInputs with
    | [] => Except.ok 0
    | first :: rest => Except.ok (maximumLoop first.getUserInput rest)

/-- The branch of `FlowExecutor::executeFlow` for a step of type `CalculusStep` at
index `i`, whose object is `calculusStep`: the completion question, the operand
selection, the `try` block with the two checks, `addNumberInput`, the choice of
the operation and `performCalculation`. `none`: the console input ended at a
question. -/
def executeCalculusStep [LinearOrderedField T] (steps : List (FlowStep T)) (i : Nat)
    (calculusStep : CalculusStep) (cin : List Char) : Option (CalculusRun T) :=
  match cinChar cin with
  | none => none
  | some (completeStep, cin0) =>
    if isYes completeStep then
      match selectNumberInputs steps i (ignoreLine cin0) with
      | none => none
      | some (selectedInputs, verifyExistanceNumbers, cin2) =>
        if !verifyExistanceNumbers then
          some { steps := steps, cin := cin2, report := some (Except.error noNumberInputMessage) }
        else if selectedInputs.length ≠ 2 then
          some { steps := steps, cin := cin2,
                 report := some (Except.error invalidSelectionMessage) }
        else
          match operationSymbolLoop (cin2.length + 1) cin2 with
          | none => none
          | some (operationSymbol, cin3) =>
            let calculusStep1 :=
              (addSelectedInputs steps selectedInputs calculusStep).setOperationBySymbol
                operationSymbol
            some { steps := steps.set i (.calculusStep calculusStep1), cin := cin3,
                   report := some (performCalculation calculusStep1.operation
                     (derefNumberInputs steps calculusStep1.numberInputs)) }
    else
      some { steps := steps, cin := ignoreLine cin0, report := none }

end Calculation

/-- The branch of `FlowExecutor::executeFlow` for a step of type `EndStep`: every
step of the flow is reset. The branch asks nothing. -/
def executeEndStep {T : Type} [Zero T] (steps : List (FlowStep T)) : List (FlowStep T) :=
  steps.map FlowStep.reset

/-! ### The file system, listing and deleting in the catalog -/

/-- The constant `FLOWS_CSV_FILE`. -/
def FLOWS_CSV_FILE : String :=
  "flows.csv"

/-- The files the program can open, by name: `read` is the content an `ifstream`
on that name delivers, `none` when it cannot be opened. -/
structure FileSystem where
  read : String → Option (List Char)

/-- A file is created or replaced: what a closed `ofstream` leaves. -/
def FileSystem.write (fs : FileSystem) (path : String) (content : List Char) : FileSystem :=
  { read := fun p => if p = path then some content else fs.read p }

/-- The library function `remove`, when it succeeds. -/
def FileSystem.remove (fs : FileSystem) (path : String) : FileSystem :=
  { read := fun p => if p = path then none else fs.read p }

/-- The library function `rename`, when it succeeds. -/
def FileSystem.rename (fs : FileSystem) (oldPath newPath : String) : FileSystem :=
  { read := fun p => if p = newPath then fs.read oldPath
                     else if p = oldPath then none else fs.read p }

/-- The name read by `getline(ss, flowName, ',')` from `stringstream ss(line)` into
a fresh string: it stays empty when the read fails. -/
def readFlowName (line : List Char) : List Char :=
  match getline ',' line with
  | none => []
  | some (flowName, _) => flowName

/-- The loop of `readExistingFlowNames` over the lines of the catalog. -/
def readNamesLoop : List (List Char) → List (List Char)
  | [] => []
  | line :: rest => readFlowName line :: readNamesLoop rest

/-- The function `readExistingFlowNames`, on the content of the catalog (`none`: it
cannot be opened, the exception is caught and the empty vector returned). -/
def readExistingFlowNames (csvFile : Option (List Char)) : List (List Char) :=
  match csvFile with
  | none => []
  | some content => readNamesLoop (getlineAll '\n' content)

/-- The loop of `deleteFlowFromCSV` over the lines of the catalog: the text written
to the temporary file, `line << endl` for every line whose name is not the one to
delete. -/
def deleteLoop (flowNameToDelete : String) : List (List Char) → List Char
  | [] => []
  | line :: rest =>
    if readFlowName line = flowNameToDelete.data then deleteLoop flowNameToDelete rest
    else line ++ ['\n'] ++ deleteLoop flowNameToDelete rest

/-- What the system answers to the file operations of `deleteFlowFromCSV` other than
reading: whether `ofstream outputFile("temp.csv")` opens, whether `remove` and
whether `rename` succeed. -/
structure DeleteFaults where
  openTemp : Bool
  removeOk : Bool
  renameOk : Bool
  deriving DecidableEq, Repr

/-- The message of the failure to open. -/
def deleteOpenMessage : String :=
  "Error: Unable to open the CSV file for reading or writing."

/-- The message of the failure to remove the catalog. -/
def deleteRemoveMessage : String :=
  "Error: Unable to delete the original CSV file."

/-- The message of the failure to rename the temporary file. -/
def deleteRenameMessage : String :=
  "Error: Unable to rename the temporary file to the original name."

/-- The function `deleteFlowFromCSV`: the file system it leaves and the message it
writes to `cerr`, if any. Opening `temp.csv` for writing empties it, also when the
catalog cannot be read. -/
def deleteFlowFromCSV (flowNameToDelete : String) (faults : DeleteFaults) (fs : FileSystem) :
    FileSystem × Option String :=
  match fs.read FLOWS_CSV_FILE, faults.openTemp with
  | some content, true =>
    let written := fs.write "temp.csv" (deleteLoop flowNameToDelete (getlineAll '\n' content))
    if faults.removeOk then
      if faults.renameOk then
        ((written.remove FLOWS_CSV_FILE).rename "temp.csv" FLOWS_CSV_FILE, none)
      else
        (written.remove FLOWS_CSV_FILE, some deleteRenameMessage)
    else
      (written, some deleteRemoveMessage)
  | _, true => (fs.write "temp.csv" [], some deleteOpenMessage)
  | _, false => (fs, some deleteOpenMessage)

/-- A catalog with two lines for `A` around one line for `B`. -/
def exampleCatalog : List Char :=
  "A,2024-03-08 09:00:00,TitleStep,EndStep,\nB,2024-03-08 10:00:00,EndStep,\nA,2024-03-08 11:00:00,EndStep,\n".data

/-- A file system whose only file is the catalog `exampleCatalog`. -/
def exampleFiles : FileSystem :=
  { read := fun path => if path = "flows.csv" then some exampleCatalog else none }

/-! ### The Output step: name conflicts and the report -/

/-- The text `filename.substr(pos)` for `pos = filename.find_last_of(".")`: the part
of the name from its last dot on; `none` when the name has no dot (`npos`). -/
def lastDotSuffix : List Char → Option (List Char)
  | [] => none
  | c :: rest =>
    match lastDotSuffix rest with
    | some suffix => some suffix
    | none => if c = '.' then some (c :: rest) else none

/-- The test and assignment `if (pos == string::npos || fileName.substr(pos) != ext)
fileName += ext`, shared by the Output step (`.txt`) and the two file input steps. -/
def ensureExtension (extension : String) (fileName : String) : String :=
  if lastDotSuffix fileName.data = some extension.data then fileName
  else fileName ++ extension

/-- The loop `while (file)` of `OutputStep::handleFilenameConflict`. `fileOpen` and
`fileFail` are the state of the stream `file`: `file.close()` closes an open
stream, and on a stream that is not open it fails and sets `failbit`, which ends
the loop at its next test. The result is the value of `filename` after the loop.
The first argument bounds the rounds; three are never exceeded. -/
def conflictLoop (fs : FileSystem) (filename : String) :
    Nat → Bool → Bool → Nat → String
  | 0, _, _, _ => filename
  | fuel + 1, fileOpen, fileFail, suffix =>
    if fileFail then filename
    else if (fs.read (toString suffix ++ "_" ++ filename)).isNone then
      toString suffix ++ "_" ++ filename
    else
      conflictLoop fs filename fuel false (!fileOpen) (suffix + 1)

/-- The method `OutputStep::handleFilenameConflict`: the extension is ensured,
`ifstream file(filename)` is opened (it fails when there is no such file) and the
loop looks for a name not in use. -/
def OutputStep.handleFilenameConflict (s : OutputStep) (fs : FileSystem) : OutputStep :=
  { s with
    filename :=
      conflictLoop fs (ensureExtension ".txt" s.filename) 3
        (fs.read (ensureExtension ".txt" s.filename)).isSome
        (fs.read (ensureExtension ".txt" s.filename)).isNone 0 }

/-- The loop of `OutputStep::execute` over the collected data:
`outputFile << data << endl`. -/
def writeOutputData : List String → List Char
  | [] => []
  | data :: rest => data.data ++ ['\n'] ++ writeOutputData rest

/-- The text `OutputStep::execute` writes to the output file. -/
def OutputStep.reportText (s : OutputStep) : List Char :=
  "Title of the output file: ".data ++ s.title.data ++ ['\n']
    ++ "Description of the output file: ".data ++ s.description.data ++ ['\n']
    ++ "\n\n".data ++ writeOutputData s.outputData

/-- What `OutputStep::execute` leaves: the step, the files and the line it writes to
`cout` or `cerr`. -/
structure OutputRun where
  step : OutputStep
  fs : FileSystem
  message : String

/-- The method `OutputStep::execute`. `canWrite` tells whether `ofstream` opens a
name for writing; when it does not, the exception is caught and reported. -/
def OutputStep.execute (s : OutputStep) (canWrite : String → Bool) (fs : FileSystem) :
    OutputRun :=
  if canWrite (s.handleFilenameConflict fs).filename then
    { step := s.handleFilenameConflict fs,
      fs := fs.write (s.handleFilenameConflict fs).filename
        (s.handleFilenameConflict fs).reportText,
      message := "Output file '" ++ (s.handleFilenameConflict fs).filename
        ++ "' created successfully." }
  else
    { step := s.handleFilenameConflict fs,
      fs := fs,
      message := "Error: Unable to open the output file for writing." }

/-- The files `report.txt`, `0_report.txt` and `1_report.txt`, all empty. -/
def exampleReports : FileSystem :=
  { read := fun path =>
      if path = "report.txt" ∨ path = "0_report.txt" ∨ path = "1_report.txt" then some []
      else none }

/-- The files `report.txt` and `0_report.txt`, both empty. -/
def exampleTwoReports : FileSystem :=
  { read := fun path =>
      if path = "report.txt" ∨ path = "0_report.txt" then some [] else none }

/-! ### The executor: what it runs in, and the file input steps -/

/-- The virtual method `getDescription`. -/
def FlowStep.getDescription {T : Type} [Zero T] : FlowStep T → String
  | .titleStep _ => "Step with a title and subtitle."
  | .textStep _ => "Step with a title for the text and text."
  | .textInputStep s =>
    "Step to input the text.\nDescription of the user that created the step: " ++ s.description
  | .numberInputStep s =>
    "Step to input a number.\nDescription of the user that created this step: "
      ++ s.description
  | .calculusStep _ => "Step to perform arithmetic operations. (+, -, *, /, m (min), M (max))"
  | .displayStep => "Displaying the flow."
  | .textFileInputStep s =>
    "Step to input a text file (.txt).\nDescription of the user that created the step: "
      ++ s.description
  | .csvFileInputStep s =>
    "Step to input a CSV file (.csv).\nDescription of the user that created the step: "
      ++ s.description
  | .outputStep _ => "Step to output a text file (.txt)."
  | .endStep => "End of the flow."

/-- The function `isValidFileName`: none of the characters `\/:*?"<>|`, not empty
and not made of blanks and tabs only. -/
def isValidFileName (fileName : List Char) : Bool :=
  fileName.all (fun ch => !("\\/:*?\"<>|".data.contains ch))
    && !(fileName.isEmpty || fileName.all (fun ch => ch = ' ' || ch = '\t'))

/-- The parts of the run that are not the program's own: how the library reads and
prints a `double` and whether a file opens for writing; and the value the
uninitialised `bool verify` of the TextInput branch happens to have.
`readNumber` is `cin >> userInput`: the number, if one is read, and the input left. -/
structure Runtime (T : Type) where
  readNumber : List Char → Option T × List Char
  showNumber : T → String
  toStringNumber : T → String
  canWrite : String → Bool
  verifyUnset : Bool

/-- The state of a run of `FlowExecutor::executeFlow`: the steps of the flow, the
console input left, the files, the local vector `outputData`, the complete lines
written to `cout` and `cerr` so far (text written without a line end, as the
questions are, is not recorded), and the message of an exception on its way to the
outer `catch`. -/
structure ExecutorState (T : Type) [Zero T] where
  steps : List (FlowStep T)
  cin : List Char
  fs : FileSystem
  outputData : List String
  out : List String
  thrown : Option String

/-- The loop `while (true)` of the file input steps that asks for a file name until
`isValidFileName` accepts it, and then ensures the extension. Every round reads a
line, so the first argument, one more than the length of the input, is not used up.
`none`: the input ended first. -/
def fileNameLoop (extension invalidMessage : String) :
    Nat → List Char → List String → Option (String × List Char × List String)
  | 0, _, _ => none
  | fuel + 1, cin, out =>
    match getline '\n' cin with
    | none => none
    | some (fileName, cin1) =>
      if isValidFileName fileName then
        some (ensureExtension extension (String.mk fileName), cin1, out)
      else
        fileNameLoop extension invalidMessage fuel cin1 (out ++ [invalidMessage])

/-- The loop `while (getline(inputFile, line)) fileContent += line + "\n"`. -/
def readTextLines (fileContent : String) : List (List Char) → String
  | [] => fileContent
  | line :: rest => readTextLines (fileContent ++ String.mk line ++ "\n") rest

/-- What a file input step leaves: the step, the console input left and the lines
written. -/
structure FileInputRun (Step : Type) where
  step : Step
  cin : List Char
  out : List String

/-- The method `TextFileInputStep::execute`. The name typed is stored in the member
`fileName` at once. When the file does not open, `fileImported` and `fileContent`
are not assigned. -/
def TextFileInputStep.execute (s : TextFileInputStep) (cin : List Char) (fs : FileSystem)
    (out : List String) : Option (FileInputRun TextFileInputStep) :=
  match fileNameLoop ".txt" "Invalid file name. Please enter a valid file name."
      (cin.length + 1) cin out with
  | none => none
  | some (fileName, cin1, out1) =>
    match fs.read fileName with
    | some content =>
      some { step := { s with
                       fileName := fileName
                       fileImported := true
                       fileContent := readTextLines s.fileContent (getlineAll '\n' content) },
             cin := cin1,
             out := out1 ++ ["Entered File Name: " ++ fileName, "File imported successfully."] }
    | none =>
      some { step := { s with fileName := fileName },
             cin := cin1,
             out := out1 ++ ["Entered File Name: " ++ fileName,
                             "File not found or unable to open."] }

/-- The loop `while (getline(inputFile, line))` of `CSVFileInputStep::execute`: one
row of cells per line. -/
def readCsvRows : List (List Char) → List (List String)
  | [] => []
  | line :: rest => (getlineAll ',' line).map String.mk :: readCsvRows rest

/-- The method `CSVFileInputStep::execute`. When the file does not open the method
returns before `fileImported` and `csvData` are assigned. -/
def CSVFileInputStep.execute (s : CSVFileInputStep) (cin : List Char) (fs : FileSystem)
    (out : List String) : Option (FileInputRun CSVFileInputStep) :=
  match fileNameLoop ".csv" "Invalid file name. Please enter a valid CSV file name."
      (cin.length + 1) cin out with
  | none => none
  | some (fileName, cin1, out1) =>
    match fs.read fileName with
    | some content =>
      some { step := { s with
                       fileName := fileName
                       fileImported := true
                       csvData := readCsvRows (getlineAll '\n' content) },
             cin := cin1,
             out := out1 ++ ["Entered File Name: " ++ fileName,
                             "CSV file imported successfully."] }
    | none =>
      some { step := { s with fileName := fileName },
             cin := cin1,
             out := out1 ++ ["Entered File Name: " ++ fileName,
                             "File not found or unable to open."] }

/-! ### The executor: the Title, Text, TextInput, NumberInput and Display branches -/

section Executor

variable {T : Type} [LinearOrderedField T]

/-- The first line of every branch:
`cout << i + 1 << ". " << getType() << ": " << getDescription() << endl`. -/
def stepHeader (i : Nat) (step : FlowStep T) : String :=
  toString (i + 1) ++ ". " ++ step.getType ++ ": " ++ step.getDescription

/-- The branch for a step of type `TitleStep` after its header: the completion
question, then `setCompleteTitleStep(true)` or the line `Step skipped.`. -/
def executeTitleStep (i : Nat) (titleStep : TitleStep) (st : ExecutorState T) :
    Option (ExecutorState T) :=
  match cinChar st.cin with
  | none => none
  | some (completeStep, cin0) =>
    if isYes completeStep then
      some { st with
             cin := ignoreLine cin0
             steps := st.steps.set i (.titleStep { titleStep with complete := true }) }
    else
      some { st with cin := ignoreLine cin0, out := st.out ++ ["Step skipped."] }

/-- The branch for a step of type `TextStep` after its header: the completion
question, then `setCompleteTextStep(true)` and `setStepNumberTextStep(i)`, or the
line `Step skipped.`. -/
def executeTextStep (i : Nat) (textStep : TextStep) (st : ExecutorState T) :
    Option (ExecutorState T) :=
  match cinChar st.cin with
  | none => none
  | some (completeStep, cin0) =>
    if isYes completeStep then
      some { st with
             cin := ignoreLine cin0
             steps := st.steps.set i
               (.textStep { textStep with complete := true, stepNumber := some i }) }
    else
      some { st with cin := ignoreLine cin0, out := st.out ++ ["Step skipped."] }

/-- The loop `for (size_t j = 0; j < i; j++)` of the TextInput branch; the first
argument counts the rounds left. For a completed Title or Text step it makes
`cin.ignore()` and two `getline(cin, input)`, and stores the two lines. `none`: the
input ended first. -/
def textInputLoop :
    Nat → Nat → List (FlowStep T) → Bool → List Char →
      Option (List (FlowStep T) × Bool × List Char)
  | 0, _, steps, verify, cin => some (steps, verify, cin)
  | n + 1, j, steps, verify, cin =>
    match steps[j]? with
    | some (.titleStep titleStep) =>
      if titleStep.complete then
        match getline '\n' (ignoreOne cin) with
        | none => none
        | some (title, cin1) =>
          match getline '\n' cin1 with
          | none => none
          | some (subtitle, cin2) =>
            textInputLoop n (j + 1)
              (steps.set j (.titleStep
                { titleStep with title := String.mk title, subtitle := String.mk subtitle }))
              true cin2
      else textInputLoop n (j + 1) steps verify cin
    | some (.textStep textStep) =>
      if textStep.complete then
        match getline '\n' (ignoreOne cin) with
        | none => none
        | some (title, cin1) =>
          match getline '\n' cin1 with
          | none => none
          | some (text, cin2) =>
            textInputLoop n (j + 1)
              (steps.set j (.textStep
                { textStep with title := String.mk title, text := String.mk text }))
              true cin2
      else textInputLoop n (j + 1) steps verify cin
    | _ => textInputLoop n (j + 1) steps verify cin

/-- The branch for a step of type `TextInputStep` after its header. The variable
`verify` starts with the value it happens to have. -/
def executeTextInputStep (rt : Runtime T) (i : Nat) (st : ExecutorState T) :
    Option (ExecutorState T) :=
  match cinChar st.cin with
  | none => none
  | some (completeStep, cin0) =>
    if isYes completeStep then
      match textInputLoop i 0 st.steps rt.verifyUnset (ignoreLine cin0) with
      | none => none
      | some (steps, verify, cin1) =>
        some { st with
               steps := steps
               cin := cin1
               out := st.out ++ ["The text you need to complete:"]
                 ++ (if verify then [] else ["No step to input"]) }
    else
      some { st with cin := ignoreLine cin0 }

/-- The loop `while (!validInput)` of the NumberInput branch: a failed read clears
the stream, discards the rest of the line and reports; a good one ends the loop.
The first argument bounds the rounds. `none`: no number arrives. -/
def numberInputLoop (rt : Runtime T) :
    Nat → List Char → List String → Option (T × List Char × List String)
  | 0, _, _ => none
  | fuel + 1, cin, out =>
    match rt.readNumber cin with
    | (some userInput, cin1) =>
      some (userInput, cin1, out ++ ["Number entered is: " ++ rt.showNumber userInput])
    | (none, cin1) =>
      numberInputLoop rt fuel (ignoreLine cin1)
        (out ++ ["Invalid input. Please enter a valid number."])

/-- The branch for a step of type `NumberInputStep` after its header. -/
def executeNumberInputStep (rt : Runtime T) (i : Nat) (numberInputStep : NumberInputStep T)
    (st : ExecutorState T) : Option (ExecutorState T) :=
  match cinChar st.cin with
  | none => none
  | some (completeStep, cin0) =>
    if isYes completeStep then
      match numberInputLoop rt ((ignoreLine cin0).length + 1) (ignoreLine cin0) st.out with
      | none => none
      | some (userInput, cin1, out1) =>
        some { st with
               steps := st.steps.set i
                 (.numberInputStep { numberInputStep with userInput := userInput })
               cin := cin1
               out := out1 }
    else
      some { st with cin := ignoreLine cin0 }

/-- The test `operationSymbol == 'm' || operationSymbol == 'M'`. -/
def isMinMaxSymbol (operationSymbol : Char) : Bool :=
  operationSymbol = 'm' || operationSymbol = 'M'

/-- The operands of a Calculus step as the Display and Output branches write them:
each value, and between two values `, ` for Min and Max and else the separator of
the branch. -/
def renderOperands (render : T → String) (separator : String) (operationSymbol : Char) :
    List (NumberInputStep T) → String
  | [] => ""
  | [last] => render last.getUserInput
  | step :: next :: rest =>
    render step.getUserInput
      ++ (if isMinMaxSymbol operationSymbol then ", " else separator)
      ++ renderOperands render separator operationSymbol (next :: rest)

/-- The text the Display branch writes for a Calculus step before the result:
the label, `min(` or `max(` for those symbols, the operands, and `) = ` or ` = `. -/
def displayCalculusText (rt : Runtime T) (numberCalculus : Nat) (calculusStep : CalculusStep)
    (operands : List (NumberInputStep T)) : String :=
  "Calculus Step " ++ toString (numberCalculus + 1) ++ ": "
    ++ (if isMinMaxSymbol calculusStep.operationSymbol then
          (if calculusStep.operationSymbol = 'm' then "min" else "max") ++ "("
        else "")
    ++ renderOperands rt.showNumber
        (" " ++ String.singleton calculusStep.operationSymbol ++ " ")
        calculusStep.operationSymbol operands
    ++ (if isMinMaxSymbol calculusStep.operationSymbol then ") = " else " = ")

/-- The six counters of the Display and Output branches. -/
structure StepCounters where
  title : Nat
  text : Nat
  number : Nat
  calculus : Nat
  textFile : Nat
  csvFile : Nat
  deriving DecidableEq, Repr

/-- What the scan of the Display branch leaves: the lines written, `verify`, and
the message of the exception `performCalculation` threw, if it did. -/
structure DisplayRun where
  out : List String
  verify : Bool
  thrown : Option String

/-- The row of a CSV file as the Display and Output branches write it: every cell
followed by `, `. -/
def renderCsvRow : List String → String
  | [] => ""
  | cell :: rest => cell ++ ", " ++ renderCsvRow rest

/-- The loop `for (size_t k = 0; k < i; k++)` of the Display branch, over the steps
before the Display step; `steps` is the whole flow, which the operands of a Calculus
step point into. An exception of `performCalculation` ends the loop. -/
def displayLoop (rt : Runtime T) (steps : List (FlowStep T)) :
    List (FlowStep T) → StepCounters → Bool → List String → DisplayRun
  | [], _, verify, out => { out := out, verify := verify, thrown := none }
  | previousStep :: rest, n, verify, out =>
    match previousStep with
    | .titleStep titleStep =>
      displayLoop rt steps rest { n with title := n.title + 1 } true
        (out ++ ["Title " ++ toString (n.title + 1) ++ ": " ++ titleStep.title,
                 "Subtitle " ++ toString (n.title + 1) ++ ": " ++ titleStep.subtitle])
    | .textStep textStep =>
      displayLoop rt steps rest { n with text := n.text + 1 } true
        (out ++ ["Text title " ++ toString (n.text + 1) ++ ": " ++ textStep.title,
                 "Text " ++ toString (n.text + 1) ++ ": " ++ textStep.text])
    | .numberInputStep numberInputStep =>
      displayLoop rt steps rest { n with number := n.number + 1 } true
        (out ++ ["Number Input " ++ toString (n.number + 1) ++ ": "
                  ++ rt.showNumber numberInputStep.getUserInput])
    | .calculusStep calculusStep =>
      match performCalculation calculusStep.operation
          (derefNumberInputs steps calculusStep.numberInputs) with
      | Except.ok result =>
        displayLoop rt steps rest { n with calculus := n.calculus + 1 } true
          (out ++ [displayCalculusText rt n.calculus calculusStep
                    (derefNumberInputs steps calculusStep.numberInputs)
                    ++ rt.showNumber result])
      | Except.error what => { out := out, verify := verify, thrown := some what }
    | .textFileInputStep textFileInputStep =>
      if textFileInputStep.fileImported then
        displayLoop rt steps rest { n with textFile := n.textFile + 1 } true
          (out ++ ["Text File " ++ toString (n.textFile + 1) ++ " name: "
                    ++ textFileInputStep.fileName,
                   "Text File " ++ toString (n.textFile + 1) ++ " content: \n"
                    ++ textFileInputStep.fileContent])
      else
        displayLoop rt steps rest { n with textFile := n.textFile + 1 } true
          (out ++ ["Text File " ++ toString (n.textFile + 1)
                    ++ " was not imported successfully."])
    | .csvFileInputStep csvFileInputStep =>
      if csvFileInputStep.fileImported then
        displayLoop rt steps rest { n with csvFile := n.csvFile + 1 } true
          (out ++ ["CSV File " ++ toString (n.csvFile + 1) ++ " name: "
                    ++ csvFileInputStep.fileName,
                   "CSV File " ++ toString (n.csvFile + 1) ++ " content: \n"]
               ++ csvFileInputStep.csvData.map renderCsvRow)
      else
        displayLoop rt steps rest { n with csvFile := n.csvFile + 1 } true
          (out ++ ["CSV File " ++ toString (n.csvFile + 1)
                    ++ " was not imported successfully."])
    | _ => displayLoop rt steps rest n verify out

/-- The counters at the start of a scan. -/
def StepCounters.zero : StepCounters :=
  { title := 0, text := 0, number := 0, calculus := 0, textFile := 0, csvFile := 0 }

/-- The branch for a step of type `DisplayStep` after its header: the completion
question and, when accepted, the scan of the steps before index `i`, followed by
`Nothing to display.` when `verify` is still false. -/
def executeDisplayStep (rt : Runtime T) (i : Nat) (st : ExecutorState T) :
    Option (ExecutorState T) :=
  match cinChar st.cin with
  | none => none
  | some (completeStep, cin0) =>
    if isYes completeStep then
      match displayLoop rt st.steps (st.steps.take i) StepCounters.zero false
          (st.out ++ ["Display of the input so far:"]) with
      | { out := out, verify := _, thrown := some what } =>
        some { st with cin := ignoreLine cin0, out := out, thrown := some what }
      | { out := out, verify := verify, thrown := none } =>
        some { st with
               cin := ignoreLine cin0
               out := out ++ (if verify then [] else ["Nothing to display."]) }
    else
      some { st with cin := ignoreLine cin0 }

end Executor

/-! ### The executor: the Output branch, the dispatch and the loop over the steps -/

section ExecutorLoop

variable {T : Type} [LinearOrderedField T]

/-- The text the Output branch collects for a Calculus step before the result: the
label, `min(` or `max(` for those symbols, the operands written with `to_string`
(between two of them `, ` for Min and Max, and else `to_string(operationSymbol)`,
the number of the character, between blanks), and `)` or ` = `. -/
def outputCalculusText (rt : Runtime T) (numberCalculus : Nat) (calculusStep : CalculusStep)
    (operands : List (NumberInputStep T)) : String :=
  "Calculus Result " ++ toString (numberCalculus + 1) ++ ": "
    ++ (if isMinMaxSymbol calculusStep.operationSymbol then
          (if calculusStep.operationSymbol = 'm' then "min" else "max") ++ "("
        else "")
    ++ renderOperands rt.toStringNumber
        (" " ++ toString calculusStep.operationSymbol.toNat ++ " ")
        calculusStep.operationSymbol operands
    ++ (if isMinMaxSymbol calculusStep.operationSymbol then ")" else " = ")

/-- What the collection of the Output branch leaves: the vector `outputData`, the
console input left, and the message of the exception `performCalculation` threw,
if it did. -/
structure CollectRun where
  outputData : List String
  cin : List Char
  thrown : Option String

/-- The loop `for (size_t m = 0; m < i; ++m)` of the Output branch, over the steps
before the Output step; `steps` is the whole flow. For every step of the six kinds
it asks whether to output it and, on `Y` or `y`, appends its lines. `none`: the
input ended at a question. -/
def collectLoop (rt : Runtime T) (steps : List (FlowStep T)) :
    List (FlowStep T) → StepCounters → List String → List Char → Option CollectRun
  | [], _, outputData, cin => some { outputData := outputData, cin := cin, thrown := none }
  | previousStep :: rest, n, outputData, cin =>
    match previousStep with
    | .titleStep titleStep =>
      match cinChar cin with
      | none => none
      | some (answer, cin0) =>
        collectLoop rt steps rest { n with title := n.title + 1 }
          (if isYes answer then
             outputData ++ ["Title " ++ toString (n.title + 1) ++ ": " ++ titleStep.title,
                            "Subtitle " ++ toString (n.title + 1) ++ ": " ++ titleStep.subtitle]
           else outputData)
          (ignoreLine cin0)
    | .textStep textStep =>
      match cinChar cin with
      | none => none
      | some (answer, cin0) =>
        collectLoop rt steps rest { n with text := n.text + 1 }
          (if isYes answer then
             outputData ++ ["Text Title " ++ toString (n.text + 1) ++ ": " ++ textStep.title,
                            "Text " ++ toString (n.text + 1) ++ ": " ++ textStep.text]
           else outputData)
          (ignoreLine cin0)
    | .numberInputStep numberInputStep =>
      match cinChar cin with
      | none => none
      | some (answer, cin0) =>
        collectLoop rt steps rest { n with number := n.number + 1 }
          (if isYes answer then
             outputData ++ ["Number Input " ++ toString (n.number + 1) ++ ": "
                             ++ rt.toStringNumber numberInputStep.getUserInput]
           else outputData)
          (ignoreLine cin0)
    | .calculusStep calculusStep =>
      match cinChar cin with
      | none => none
      | some (answer, cin0) =>
        if isYes answer then
          match performCalculation calculusStep.operation
              (derefNumberInputs steps calculusStep.numberInputs) with
          | Except.ok result =>
            collectLoop rt steps rest { n with calculus := n.calculus + 1 }
              (outputData ++ [outputCalculusText rt n.calculus calculusStep
                                (derefNumberInputs steps calculusStep.numberInputs)
                                ++ rt.toStringNumber result])
              (ignoreLine cin0)
          | Except.error what =>
            some { outputData := outputData, cin := ignoreLine cin0, thrown := some what }
        else
          collectLoop rt steps rest { n with calculus := n.calculus + 1 } outputData
            (ignoreLine cin0)
    | .textFileInputStep textFileInputStep =>
      match cinChar cin with
      | none => none
      | some (answer, cin0) =>
        collectLoop rt steps rest { n with textFile := n.textFile + 1 }
          (if isYes answer then
             outputData ++ ["Name of the Text File Input " ++ toString (n.textFile + 1) ++ ": "
                              ++ textFileInputStep.fileName,
                            "Content of the Text File Input " ++ toString (n.textFile + 1)
                              ++ ": ",
                            textFileInputStep.fileContent]
           else outputData)
          (ignoreLine cin0)
    | .csvFileInputStep csvFileInputStep =>
      match cinChar cin with
      | none => none
      | some (answer, cin0) =>
        collectLoop rt steps rest { n with csvFile := n.csvFile + 1 }
          (if isYes answer then
             outputData ++ ["Name of the CSV File Input " ++ toString (n.csvFile + 1) ++ ": "
                              ++ csvFileInputStep.fileName,
                            "Content of the CSV File Input " ++ toString (n.csvFile + 1)
                              ++ ": "]
               ++ csvFileInputStep.csvData.map renderCsvRow
           else outputData)
          (ignoreLine cin0)
    | _ => collectLoop rt steps rest n outputData cin

/-- The loop `while (!validFileName)` of the Output branch: a name is read with
`getline`; after an invalid one the error is reported and one more line of input is
discarded. The first argument bounds the rounds. `none`: the input ended first. -/
def outputFilenameLoop :
    Nat → List Char → List String → Option (List Char × List Char × List String)
  | 0, _, _ => none
  | fuel + 1, cin, out =>
    match getline '\n' cin with
    | none => none
    | some (filenameOutput, cin1) =>
      if isValidFileName filenameOutput then some (filenameOutput, cin1, out)
      else
        outputFilenameLoop fuel (ignoreLine cin1)
          (out ++ ["Error: Invalid filename. Please enter a valid filename."])

/-- The branch for a step of type `OutputStep` after its header: the completion
question; the file name, the title and the description; the collection; then the
setters and `OutputStep::execute`. An exception thrown in the collection leaves the
step as it was. -/
def executeOutputStep (rt : Runtime T) (i : Nat) (outputStep : OutputStep)
    (st : ExecutorState T) : Option (ExecutorState T) :=
  match cinChar st.cin with
  | none => none
  | some (completeStep, cin0) =>
    if isYes completeStep then
      match outputFilenameLoop ((ignoreLine cin0).length + 1) (ignoreLine cin0) st.out with
      | none => none
      | some (filenameOutput, cin1, out1) =>
        match getline '\n' cin1 with
        | none => none
        | some (titleOutput, cin2) =>
          match getline '\n' cin2 with
          | none => none
          | some (descriptionOutput, cin3) =>
            match collectLoop rt st.steps (st.steps.take i) StepCounters.zero [] cin3 with
            | none => none
            | some { outputData := outputData, cin := cin4, thrown := some what } =>
              some { st with cin := cin4, out := out1, outputData := outputData,
                             thrown := some what }
            | some { outputData := outputData, cin := cin4, thrown := none } =>
              some { st with
                     cin := cin4
                     outputData := outputData
                     steps := st.steps.set i (.outputStep
                       (OutputStep.execute
                         { outputStep with
                           filename := String.mk filenameOutput
                           title := String.mk titleOutput
                           description := String.mk descriptionOutput
                           outputData := outputData }
                         rt.canWrite st.fs).step)
                     fs := (OutputStep.execute
                         { outputStep with
                           filename := String.mk filenameOutput
                           title := String.mk titleOutput
                           description := String.mk descriptionOutput
                           outputData := outputData }
                         rt.canWrite st.fs).fs
                     out := out1 ++ [(OutputStep.execute
                         { outputStep with
                           filename := String.mk filenameOutput
                           title := String.mk titleOutput
                           description := String.mk descriptionOutput
                           outputData := outputData }
                         rt.canWrite st.fs).message] }
    else
      some { st with cin := ignoreLine cin0, out := st.out ++ ["Output step skipped."] }

/-- The lines the Calculus branch writes after its header, by what
`executeCalculusStep` reports. -/
def calculusLines (rt : Runtime T) : Option (Except String T) → List String
  | none => []
  | some (Except.ok result) =>
    ["Choose two number inputs for the calculation:",
     "Calculation Result: " ++ rt.showNumber result]
  | some (Except.error what) =>
    ["Choose two number inputs for the calculation:", "Error: " ++ what]

/-- One round of the loop of `FlowExecutor::executeFlow`: the chain of tests on
`currentStep->getType()`, each branch after the header line. `none`: the console
input ended at a read. -/
def executeStep (rt : Runtime T) (i : Nat) (st : ExecutorState T) :
    Option (ExecutorState T) :=
  match st.steps[i]? with
  | none => some st
  | some currentStep =>
    match currentStep with
    | .titleStep titleStep =>
      executeTitleStep i titleStep { st with out := st.out ++ [stepHeader i currentStep] }
    | .textStep textStep =>
      executeTextStep i textStep { st with out := st.out ++ [stepHeader i currentStep] }
    | .textInputStep _ =>
      executeTextInputStep rt i { st with out := st.out ++ [stepHeader i currentStep] }
    | .displayStep =>
      executeDisplayStep rt i { st with out := st.out ++ [stepHeader i currentStep] }
    | .numberInputStep numberInputStep =>
      executeNumberInputStep rt i numberInputStep
        { st with out := st.out ++ [stepHeader i currentStep] }
    | .calculusStep calculusStep =>
      match executeCalculusStep st.steps i calculusStep st.cin with
      | none => none
      | some run =>
        some { st with
               steps := run.steps
               cin := run.cin
               out := st.out ++ [stepHeader i currentStep] ++ calculusLines rt run.report }
    | .textFileInputStep textFileInputStep =>
      match cinChar st.cin with
      | none => none
      | some (completeStep, cin0) =>
        if isYes completeStep then
          match textFileInputStep.execute (ignoreLine cin0) st.fs
              (st.out ++ [stepHeader i currentStep]) with
          | none => none
          | some run =>
            some { st with
                   steps := st.steps.set i (.textFileInputStep run.step)
                   cin := run.cin
                   out := run.out }
        else
          some { st with cin := ignoreLine cin0, out := st.out ++ [stepHeader i currentStep] }
    | .csvFileInputStep csvFileInputStep =>
      match cinChar st.cin with
      | none => none
      | some (completeStep, cin0) =>
        if isYes completeStep then
          match csvFileInputStep.execute (ignoreLine cin0) st.fs
              (st.out ++ [stepHeader i currentStep]) with
          | none => none
          | some run =>
            some { st with
                   steps := st.steps.set i (.csvFileInputStep run.step)
                   cin := run.cin
                   out := run.out }
        else
          some { st with cin := ignoreLine cin0, out := st.out ++ [stepHeader i currentStep] }
    | .outputStep outputStep =>
      executeOutputStep rt i outputStep { st with out := st.out ++ [stepHeader i currentStep] }
    | .endStep =>
      some { st with
             out := st.out ++ [stepHeader i currentStep, "Flow Completed!"]
             steps := executeEndStep st.steps }

/-- The loop `for (size_t i = 0; i < steps.size(); ++i)` inside the outer `try`; the
first argument counts the rounds left. An exception that leaves a branch ends the
loop in the outer `catch`, which reports it. -/
def executeLoop (rt : Runtime T) : Nat → Nat → ExecutorState T → Option (ExecutorState T)
  | 0, _, st => some st
  | n + 1, i, st =>
    match executeStep rt i st with
    | none => none
    | some st1 =>
      match st1.thrown with
      | some what => some { st1 with out := st1.out ++ ["Error: " ++ what] }
      | none => executeLoop rt n (i + 1) st1

/-- The method `FlowExecutor::executeFlow` on a flow, the console input and the
files: the state at its return. `none`: the console input ended at a read. -/
def executeFlow (rt : Runtime T) (flow : Flow T) (cin : List Char) (fs : FileSystem) :
    Option (ExecutorState T) :=
  executeLoop rt flow.steps.length 0
    { steps := flow.steps, cin := cin, fs := fs, outputData := [], out := [], thrown := none }

end ExecutorLoop

/-- The value of a string of decimal digits read from the left. -/
def digitsValue : Nat → List Char → Nat
  | value, [] => value
  | value, c :: rest => digitsValue (10 * value + (c.toNat - '0'.toNat)) rest

/-- A reader for the examples: after the whitespace, an unsigned whole number in
decimal digits; it fails, reading nothing more, when no digit comes. -/
def exampleReadNumber : List Char → Option ℚ × List Char
  | [] => (none, [])
  | c :: rest =>
    if isSpace c then exampleReadNumber rest
    else if c.isDigit then
      (some (digitsValue 0 ((c :: rest).takeWhile Char.isDigit) : ℕ),
        (c :: rest).dropWhile Char.isDigit)
    else (none, c :: rest)

/-- A printer for the examples: the numerator, and the denominator when it is not 1. -/
def exampleShowNumber (value : ℚ) : String :=
  if value.den = 1 then toString value.num
  else toString value.num ++ "/" ++ toString value.den

/-- A printer for the examples in the manner of `std::to_string(double)`, which
writes six decimals: the value rounded to a whole number of millionths. -/
def exampleToString (value : ℚ) : String :=
  let scaled : ℤ := Rat.floor (value * 1000000 + 1 / 2)
  let digits := toString (scaled.natAbs % 1000000)
  (if scaled < 0 then "-" else "") ++ toString (scaled.natAbs / 1000000) ++ "."
    ++ String.mk (List.replicate (6 - digits.length) '0') ++ digits

/-- The runtime of the examples: every file opens for writing and `verify` starts
false. -/
def exampleRuntime : Runtime ℚ :=
  { readNumber := exampleReadNumber
    showNumber := exampleShowNumber
    toStringNumber := exampleToString
    canWrite := fun _ => true
    verifyUnset := false }

/-- A file system with no file. -/
def noFiles : FileSystem :=
  { read := fun _ => none }

/-- The flow `[NumberInput, NumberInput, Calculus, Display, End]` as the loader or
the builder constructs it. -/
def exampleDivisionFlow : Flow ℚ :=
  { name := "D",
    steps :=
      [FlowStep.numberInputStep { description := "Input a number", userInput := (0 : ℚ) },
       FlowStep.numberInputStep { description := "Input a number", userInput := (0 : ℚ) },
       FlowStep.calculusStep
         { operation := ArithmeticOperation.Addition, numberInputs := [],
           operationSymbol := '+' },
       FlowStep.displayStep,
       FlowStep.endStep] }

/-- The six kinds of step the Display branch has a case for: Title, Text,
NumberInput, Calculus, TextFileInput and CSVFileInput. -/
def FlowStep.isDisplayed {T : Type} [Zero T] : FlowStep T → Bool
  | .titleStep _ => true
  | .textStep _ => true
  | .numberInputStep _ => true
  | .calculusStep _ => true
  | .textFileInputStep _ => true
  | .csvFileInputStep _ => true
  | _ => false

/-- The state at a Display step at index 1 that follows a completed Title step, the
operator about to answer `y`. -/
def exampleDisplayState : ExecutorState ℚ :=
  { steps := [FlowStep.titleStep { title := "Report", subtitle := "Week 1", complete := true },
              FlowStep.displayStep],
    cin := "y\n".data,
    fs := noFiles,
    outputData := [],
    out := [],
    thrown := none }

/-! ### Data of the examples and the bound of the selection loop -/

/-- The flow `[NumberInput 5, NumberInput 3, Calculus]` of the C5 example. -/
def exampleSubtractionSteps : List (FlowStep ℚ) :=
  [FlowStep.numberInputStep { description := "Input a number", userInput := 5 },
   FlowStep.numberInputStep { description := "Input a number", userInput := 3 },
   FlowStep.calculusStep
     { operation := ArithmeticOperation.Addition, numberInputs := [], operationSymbol := '+' }]

/-- The flow `[Title, NumberInput, NumberInput, Calculus, End]` of the round-trip
example, named `A`, with values typed in by an operator. -/
def exampleFlow : Flow ℚ :=
  { name := "A",
    steps :=
      [FlowStep.titleStep { title := "Report", subtitle := "Week 1", complete := true },
       FlowStep.numberInputStep { description := "first", userInput := 5 },
       FlowStep.numberInputStep { description := "second", userInput := 3 },
       FlowStep.calculusStep
         { operation := ArithmeticOperation.Subtraction, numberInputs := [1, 2],
           operationSymbol := '-' },
       FlowStep.endStep] }

/-- A local time: 2024-03-09 14:05:07. -/
def exampleTime : Tm :=
  { tm_sec := 7, tm_min := 5, tm_hour := 14, tm_mday := 9, tm_mon := 2, tm_year := 124 }

/-- The NumberInput step the loader constructs, over the rationals. -/
def exampleLoadedNumberInput : FlowStep ℚ :=
  FlowStep.numberInputStep { description := "Input a number", userInput := (0 : ℚ) }

/-- The number of rounds the selection loop can still make from index `j`: the rest
of this scan and, while nothing is selected yet, one more scan from the start. -/
def selectLoopRounds (i j : Nat) (selectedInputs : List Nat) : Nat :=
  (i - j) + 1 + (if selectedInputs = [] then i + 1 else 0)

/-! ### Data of the examples of the Calculus branch -/

/-- The steps `[NumberInput 6, NumberInput 0, Calculus, Display, End]` as the run
that divided 6 by 0 leaves them: the exception ended the run at the Display step, so
no End step reset the Calculus step, which holds the operands `[0, 1]`. -/
def exampleAbortedSteps : List (FlowStep ℚ) :=
  [FlowStep.numberInputStep { description := "Input a number", userInput := (6 : ℚ) },
   FlowStep.numberInputStep { description := "Input a number", userInput := (0 : ℚ) },
   FlowStep.calculusStep
     { operation := ArithmeticOperation.Division, numberInputs := [0, 1],
       operationSymbol := '/' },
   FlowStep.displayStep,
   FlowStep.endStep]

/-- The state at the Calculus step of `[NumberInput 5, NumberInput 3, Calculus]`, the
operator about to accept the step and to decline both NumberInput steps. -/
def exampleCancelState : ExecutorState ℚ :=
  { steps := exampleSubtractionSteps,
    cin := "y\nn\nn\n".data,
    fs := noFiles,
    outputData := [],
    out := [],
    thrown := none }

/-! ### The questions of the operand selection -/

/-- The test `previousStep->getType() == "NumberInputStep"`. -/
def FlowStep.isNumberInput {T : Type} [Zero T] : FlowStep T → Bool
  | .numberInputStep _ => true
  | _ => false

/-- The number of NumberInput steps at the indices from `j` up to, not including,
`i`. -/
def numberInputsBetween {T : Type} [Zero T] (steps : List (FlowStep T)) (j i : Nat) : Nat :=
  (((steps.take i).drop j).filter FlowStep.isNumberInput).length

/-- The operand selection loop of `selectLoop` together with the questions it
writes: `asked` collects the index `j` of every step for which
`Select Number Input Step j + 1? ... (Y/N): ` is written, in order. The list is
delivered also when the input ends at a question or the bound is used up. -/
def selectLoopAsked {T : Type} [Zero T] (steps : List (FlowStep T)) (i : Nat) :
    Nat → Nat → List Nat → Bool → List Char → List Nat →
      Option (List Nat × Bool × List Char) × List Nat
  | 0, _, _, _, _, asked => (none, asked)
  | fuel + 1, j, selectedInputs, verifyExistanceNumbers, cin, asked =>
    if j < i then
      match steps[j]? with
      | some (.numberInputStep _) =>
        match cinChar cin with
        | none => (none, asked ++ [j])
        | some (selectInput, cin1) =>
          if isYes selectInput then
            if (selectedInputs ++ [j]).length ≥ 2 then
              (some (selectedInputs ++ [j], true, ignoreLine cin1), asked ++ [j])
            else
              selectLoopAsked steps i fuel 0 (selectedInputs ++ [j]) true (ignoreLine cin1)
                (asked ++ [j])
          else
            selectLoopAsked steps i fuel (j + 1) selectedInputs true (ignoreLine cin1)
              (asked ++ [j])
      | _ => selectLoopAsked steps i fuel (j + 1) selectedInputs verifyExistanceNumbers cin asked
    else
      (some (selectedInputs, verifyExistanceNumbers, cin), asked)

/-- The flow `[NumberInput 4, Calculus]`. -/
def exampleSingleInputSteps : List (FlowStep ℚ) :=
  [FlowStep.numberInputStep { description := "Input a number", userInput := 4 },
   FlowStep.calculusStep
     { operation := ArithmeticOperation.Addition, numberInputs := [], operationSymbol := '+' }]

/-- A flow `[Title, End]` whose name, `a,b`, has a comma. -/
def exampleCommaFlow : Flow ℚ :=
  { name := "a,b", steps := [FlowStep.titleStep {}, FlowStep.endStep] }

/-- The state at the Calculus step of `[NumberInput, NumberInput, Calculus, Display,
End]`, the operator about to answer `n` to every question. -/
def exampleDeclineState : ExecutorState ℚ :=
  { steps := exampleDivisionFlow.steps,
    cin := "n\nn\n".data,
    fs := noFiles,
    outputData := [],
    out := [],
    thrown := none }

/-! ### The steps a TextInput step fills in -/

/-- The tests of the TextInput branch on a step before it:
`titleStep && titleStep->getCompleteTitleStep()` for a Title step and
`textStep && textStep->getCompleteTextStep()` for a Text step. -/
def FlowStep.isCompletedText {T : Type} [Zero T] : FlowStep T → Bool
  | .titleStep title => title.complete
  | .textStep text => text.complete
  | _ => false

/-- The flow `[Title, TextInput, Display, End]`. -/
def exampleTitleFlow : Flow ℚ :=
  { name := "T",
    steps := [FlowStep.titleStep ({} : TitleStep), FlowStep.textInputStep ({} : TextInputStep),
              FlowStep.displayStep,
              FlowStep.endStep] }

/-- The state at the TextInput step at index 4 of a flow with a completed Title step,
a Title step that was skipped, a completed Text step and a NumberInput step before
it; the operator accepts and types two lines for each completed step. -/
def exampleTextInputState : ExecutorState ℚ :=
  { steps :=
      [FlowStep.titleStep { complete := true },
       FlowStep.titleStep { complete := false },
       FlowStep.textStep { complete := true, stepNumber := some 2 },
       FlowStep.numberInputStep { description := "Input a number", userInput := (7 : ℚ) },
       FlowStep.textInputStep ({} : TextInputStep),
       FlowStep.endStep],
    cin := "y\n Report\nWeek 1\n Notes\nAll well\n".data,
    fs := noFiles,
    outputData := [],
    out := [],
    thrown := none }

/-! ### The labels of the Display step -/

/-- The number of steps of the same type as `step` among the steps `before` it. -/
def sameKindBefore {T : Type} [Zero T] (before : List (FlowStep T)) (step : FlowStep T) : Nat :=
  before.countP (fun previous => previous.getType == step.getType)

/-- For each of the six kinds of the Display branch, the number of steps of that
type in a list. -/
def kindCounters {T : Type} [Zero T] (before : List (FlowStep T)) : StepCounters :=
  { title := before.countP (fun previous => previous.getType == "TitleStep"),
    text := before.countP (fun previous => previous.getType == "TextStep"),
    number := before.countP (fun previous => previous.getType == "NumberInputStep"),
    calculus := before.countP (fun previous => previous.getType == "CalculusStep"),
    textFile := before.countP (fun previous => previous.getType == "TextFileInputStep"),
    csvFile := before.countP (fun previous => previous.getType == "CSVFileInputStep") }

/-- The lines one round of the scan of the Display branch writes for a step when the
counter of its kind is `counter`: the label is `counter + 1`. `none`: the step is a
Calculus step whose `performCalculation` throws; nothing is written for a step of
another than the six kinds. -/
def displayStepLines {T : Type} [LinearOrderedField T] (rt : Runtime T)
    (steps : List (FlowStep T)) (counter : Nat) : FlowStep T → Option (List String)
  | .titleStep titleStep =>
    some ["Title " ++ toString (counter + 1) ++ ": " ++ titleStep.title,
          "Subtitle " ++ toString (counter + 1) ++ ": " ++ titleStep.subtitle]
  | .textStep textStep =>
    some ["Text title " ++ toString (counter + 1) ++ ": " ++ textStep.title,
          "Text " ++ toString (counter + 1) ++ ": " ++ textStep.text]
  | .numberInputStep numberInputStep =>
    some ["Number Input " ++ toString (counter + 1) ++ ": "
            ++ rt.showNumber numberInputStep.getUserInput]
  | .calculusStep calculusStep =>
    match performCalculation calculusStep.operation
        (derefNumberInputs steps calculusStep.numberInputs) with
    | Except.ok result =>
      some [displayCalculusText rt counter calculusStep
              (derefNumberInputs steps calculusStep.numberInputs) ++ rt.showNumber result]
    | Except.error _ => none
  | .textFileInputStep textFileInputStep =>
    if textFileInputStep.fileImported then
      some ["Text File " ++ toString (counter + 1) ++ " name: " ++ textFileInputStep.fileName,
            "Text File " ++ toString (counter + 1) ++ " content: \n"
              ++ textFileInputStep.fileContent]
    else
      some ["Text File " ++ toString (counter + 1) ++ " was not imported successfully."]
  | .csvFileInputStep csvFileInputStep =>
    if csvFileInputStep.fileImported then
      some (["CSV File " ++ toString (counter + 1) ++ " name: " ++ csvFileInputStep.fileName,
             "CSV File " ++ toString (counter + 1) ++ " content: \n"]
            ++ csvFileInputStep.csvData.map renderCsvRow)
    else
      some ["CSV File " ++ toString (counter + 1) ++ " was not imported successfully."]
  | _ => some []

/-- The lines of the steps of a list in order, each labelled by the number of steps
of its type before it (`before` holds the steps that precede the list), up to the
first Calculus step whose `performCalculation` throws. -/
def displayedLines {T : Type} [LinearOrderedField T] (rt : Runtime T)
    (steps : List (FlowStep T)) : List (FlowStep T) → List (FlowStep T) → List String
  | _, [] => []
  | before, step :: rest =>
    match displayStepLines rt steps (sameKindBefore before step) step with
    | none => []
    | some lines => lines ++ displayedLines rt steps (before ++ [step]) rest

/-- The state at the Display step at index 5 of a flow with two Title steps, two
NumberInput steps and a Text step in mixed order, the operator about to accept. -/
def exampleLabelState : ExecutorState ℚ :=
  { steps :=
      [FlowStep.titleStep { title := "A", subtitle := "a", complete := true },
       FlowStep.numberInputStep { description := "Input a number", userInput := (5 : ℚ) },
       FlowStep.textStep { title := "T", text := "t", complete := true, stepNumber := some 2 },
       FlowStep.numberInputStep { description := "Input a number", userInput := (3 : ℚ) },
       FlowStep.titleStep { title := "B", subtitle := "b", complete := true },
       FlowStep.displayStep,
       FlowStep.endStep],
    cin := "y\n".data,
    fs := noFiles,
    outputData := [],
    out := [],
    thrown := none }

/-- The flow `[NumberInput, NumberInput, Calculus, Calculus, Display, Output, End]`
as the builder constructs it. -/
def exampleOutputFlow : Flow ℚ :=
  { name := "O",
    steps :=
      [FlowStep.numberInputStep { description := "Input a number", userInput := (0 : ℚ) },
       FlowStep.numberInputStep { description := "Input a number", userInput := (0 : ℚ) },
       FlowStep.calculusStep
         { operation := ArithmeticOperation.Addition, numberInputs := [],
           operationSymbol := '+' },
       FlowStep.calculusStep
         { operation := ArithmeticOperation.Addition, numberInputs := [],
           operationSymbol := '+' },
       FlowStep.displayStep,
       FlowStep.outputStep ({} : OutputStep),
       FlowStep.endStep] }

/-- The flow `[NumberInput, NumberInput, Calculus, Title, Display, End]` as the builder
constructs it. -/
def exampleCutDisplayFlow : Flow ℚ :=
  { name := "L",
    steps :=
      [FlowStep.numberInputStep { description := "Input a number", userInput := (0 : ℚ) },
       FlowStep.numberInputStep { description := "Input a number", userInput := (0 : ℚ) },
       FlowStep.calculusStep
         { operation := ArithmeticOperation.Addition, numberInputs := [],
           operationSymbol := '+' },
       FlowStep.titleStep ({} : TitleStep),
       FlowStep.displayStep,
       FlowStep.endStep] }

/-! ## Theorems -/

section OperationTheorems

variable {T : Type}

theorem additionLoop_eq_foldl [Zero T] [Add T] (numberInputs : List (NumberInputStep T))
    (result : T) :
    additionLoop result numberInputs
      = List.foldl (· + ·) result (numberInputs.map NumberInputStep.getUserInput) := by
  induction numberInputs generalizing result with
  | nil => rfl
  | cons step rest ih => simp [additionLoop, ih]

theorem multiplicationLoop_eq_foldl [Zero T] [Mul T] (numberInputs : List (NumberInputStep T))
    (result : T) :
    multiplicationLoop result numberInputs
      = List.foldl (· * ·) result (numberInputs.map NumberInputStep.getUserInput) := by
  induction numberInputs generalizing result with
  | nil => rfl
  | cons step rest ih => simp [multiplicationLoop, ih]

/-- C1: with Addition, `performCalculation` returns, whatever the operand list,
the operand values added one after the other to 0, from left to right, with the
`+` of the number type, of which no law is assumed (for `double` it rounds): the
value `((0 + v1) + v2) + ... + vn`. For the empty list it returns 0. -/
theorem C1_addition_returns_sum [Zero T] [One T] [Add T] [Sub T] [Mul T] [Div T] [LT T]
    [DecidableEq T] [∀ a b : T, Decidable (a < b)] (numberInputs : List (NumberInputStep T)) :
    performCalculation ArithmeticOperation.Addition numberInputs
        = Except.ok (List.foldl (· + ·) 0 (numberInputs.map NumberInputStep.getUserInput))
      ∧ performCalculation ArithmeticOperation.Addition ([] : List (NumberInputStep T))
        = Except.ok 0
      ∧ ∀ v1 v2 v3 : NumberInputStep T,
          performCalculation ArithmeticOperation.Addition [v1, v2, v3]
            = Except.ok (0 + v1.getUserInput + v2.getUserInput + v3.getUserInput) := by
  refine ⟨?_, rfl, fun _ _ _ => rfl⟩
  simp [performCalculation, additionLoop_eq_foldl]

/-- C2: with Multiplication, `performCalculation` returns, whatever the operand
list, the operand values multiplied one after the other onto the seed 1, from left
to right, with the `*` of the number type, of which no law is assumed (for `double`
it rounds and overflows): the value `((1 * v1) * v2) * ... * vn`. For the empty list
it returns 1. -/
theorem C2_multiplication_returns_product [Zero T] [One T] [Add T] [Sub T] [Mul T] [Div T]
    [LT T] [DecidableEq T] [∀ a b : T, Decidable (a < b)]
    (numberInputs : List (NumberInputStep T)) :
    performCalculation ArithmeticOperation.Multiplication numberInputs
        = Except.ok (List.foldl (· * ·) 1 (numberInputs.map NumberInputStep.getUserInput))
      ∧ performCalculation ArithmeticOperation.Multiplication ([] : List (NumberInputStep T))
        = Except.ok 1
      ∧ ∀ v1 v2 v3 : NumberInputStep T,
          performCalculation ArithmeticOperation.Multiplication [v1, v2, v3]
            = Except.ok (1 * v1.getUserInput * v2.getUserInput * v3.getUserInput) := by
  refine ⟨?_, rfl, fun _ _ _ => rfl⟩
  simp [performCalculation, multiplicationLoop_eq_foldl]

end OperationTheorems

section CalculationTheorems

variable {T : Type} [LinearOrderedField T]

theorem subtractionLoop_eq_foldl (numberInputs : List (NumberInputStep T)) (result : T) :
    subtractionLoop result numberInputs
      = List.foldl (· - ·) result (numberInputs.map NumberInputStep.getUserInput) := by
  induction numberInputs generalizing result with
  | nil => rfl
  | cons step rest ih => simp [subtractionLoop, ih]

theorem stdMin_eq_min (a b : T) : stdMin a b = min a b := by
  unfold stdMin
  rcases lt_or_le b a with h | h
  · rw [if_pos h, min_eq_right h.le]
  · rw [if_neg (not_lt.mpr h), min_eq_left h]

theorem stdMax_eq_max (a b : T) : stdMax a b = max a b := by
  unfold stdMax
  rcases lt_or_le a b with h | h
  · rw [if_pos h, max_eq_right h.le]
  · rw [if_neg (not_lt.mpr h), max_eq_left h]

theorem minimumLoop_eq_foldl (numberInputs : List (NumberInputStep T)) (result : T) :
    minimumLoop result numberInputs
      = List.foldl min result (numberInputs.map NumberInputStep.getUserInput) := by
  induction numberInputs generalizing result with
  | nil => rfl
  | cons step rest ih => simp [minimumLoop, ih, stdMin_eq_min]

theorem maximumLoop_eq_foldl (numberInputs : List (NumberInputStep T)) (result : T) :
    maximumLoop result numberInputs
      = List.foldl max result (numberInputs.map NumberInputStep.getUserInput) := by
  induction numberInputs generalizing result with
  | nil => rfl
  | cons step rest ih => simp [maximumLoop, ih, stdMax_eq_max]

theorem foldl_min_mem (vs : List T) (a : T) : List.foldl min a vs ∈ a :: vs := by
  induction vs generalizing a with
  | nil => simp
  | cons v rest ih =>
    rw [List.foldl_cons]
    rcases List.mem_cons.mp (ih (min a v)) with h | h
    · rcases min_choice a v with h2 | h2
      · rw [h, h2]; simp
      · rw [h, h2]; simp
    · exact List.mem_cons_of_mem _ (List.mem_cons_of_mem _ h)

theorem foldl_min_le (vs : List T) (a : T) : ∀ v ∈ a :: vs, List.foldl min a vs ≤ v := by
  induction vs generalizing a with
  | nil => simp
  | cons w rest ih =>
    intro v hv
    rw [List.foldl_cons]
    have h := ih (min a w)
    rcases List.mem_cons.mp hv with h1 | h1
    · subst h1
      exact le_trans (h _ (List.mem_cons_self _ _)) (min_le_left _ _)
    · rcases List.mem_cons.mp h1 with h2 | h2
      · subst h2
        exact le_trans (h _ (List.mem_cons_self _ _)) (min_le_right _ _)
      · exact h _ (List.mem_cons_of_mem _ h2)

theorem foldl_max_mem (vs : List T) (a : T) : List.foldl max a vs ∈ a :: vs := by
  induction vs generalizing a with
  | nil => simp
  | cons v rest ih =>
    rw [List.foldl_cons]
    rcases List.mem_cons.mp (ih (max a v)) with h | h
    · rcases max_choice a v with h2 | h2
      · rw [h, h2]; simp
      · rw [h, h2]; simp
    · exact List.mem_cons_of_mem _ (List.mem_cons_of_mem _ h)

theorem foldl_max_ge (vs : List T) (a : T) : ∀ v ∈ a :: vs, v ≤ List.foldl max a vs := by
  induction vs generalizing a with
  | nil => simp
  | cons w rest ih =>
    intro v hv
    rw [List.foldl_cons]
    have h := ih (max a w)
    rcases List.mem_cons.mp hv with h1 | h1
    · subst h1
      exact le_trans (le_max_left _ _) (h _ (List.mem_cons_self _ _))
    · rcases List.mem_cons.mp h1 with h2 | h2
      · subst h2
        exact le_trans (le_max_right _ _) (h _ (List.mem_cons_self _ _))
      · exact h _ (List.mem_cons_of_mem _ h2)

theorem divisionLoop_error_iff (rest : List (NumberInputStep T)) (result : T) :
    divisionLoop result rest = Except.error divisionByZeroMessage
      ↔ ∃ step ∈ rest, step.getUserInput = 0 := by
  induction rest generalizing result with
  | nil => simp [divisionLoop]
  | cons step rest ih =>
    by_cases h : step.getUserInput = 0
    · simp [divisionLoop, h]
    · simp [divisionLoop, h, ih]

theorem divisionLoop_ok (rest : List (NumberInputStep T)) (result : T)
    (h : ∀ step ∈ rest, step.getUserInput ≠ 0) :
    divisionLoop result rest
      = Except.ok (List.foldl (· / ·) result (rest.map NumberInputStep.getUserInput)) := by
  induction rest generalizing result with
  | nil => rfl
  | cons step rest ih =>
    have h1 : step.getUserInput ≠ 0 := h step (List.mem_cons_self _ _)
    have h2 : ∀ s ∈ rest, s.getUserInput ≠ 0 := fun s hs => h s (List.mem_cons_of_mem _ hs)
    simp [divisionLoop, h1, ih _ h2]

/-- C3: with Division on a non-empty operand list, `performCalculation` throws the
division-by-zero error exactly when an operand after the first is zero; then it
returns no number, and otherwise it returns the left fold of `/` seeded with the
first operand. The value of the first operand plays no part in the failure. -/
theorem C3_division_fails_iff_later_zero (first : NumberInputStep T)
    (rest : List (NumberInputStep T)) :
    (performCalculation ArithmeticOperation.Division (first :: rest)
        = Except.error divisionByZeroMessage
      ↔ ∃ step ∈ rest, step.getUserInput = 0)
    ∧ ((∃ step ∈ rest, step.getUserInput = 0) →
        ∀ r : T, performCalculation ArithmeticOperation.Division (first :: rest) ≠ Except.ok r)
    ∧ ((∀ step ∈ rest, step.getUserInput ≠ 0) →
        performCalculation ArithmeticOperation.Division (first :: rest)
          = Except.ok (List.foldl (· / ·) first.getUserInput
              (rest.map NumberInputStep.getUserInput)))
    ∧ ((∀ step ∈ rest, step.getUserInput ≠ 0) →
        performCalculation ArithmeticOperation.Division
            (NumberInputStep.mk first.description 0 :: rest)
          = Except.ok (List.foldl (· / ·) 0 (rest.map NumberInputStep.getUserInput))) := by
  refine ⟨?_, ?_, ?_, ?_⟩
  · exact divisionLoop_error_iff rest first.getUserInput
  · intro hz r hr
    have he := (divisionLoop_error_iff rest first.getUserInput).mpr hz
    simp only [performCalculation] at hr
    rw [he] at hr
    cases hr
  · intro h
    exact divisionLoop_ok rest first.getUserInput h
  · intro h
    exact divisionLoop_ok rest 0 h

/-- C4: on a non-empty operand list, Subtraction returns the left fold of `-`
seeded with the first operand, Minimum returns the least operand value and
Maximum the greatest, each as the fold seeded with the first operand. -/
theorem C4_subtraction_minimum_maximum (first : NumberInputStep T)
    (rest : List (NumberInputStep T)) :
    performCalculation ArithmeticOperation.Subtraction (first :: rest)
        = Except.ok (List.foldl (· - ·) first.getUserInput
            (rest.map NumberInputStep.getUserInput))
    ∧ (∃ m : T,
        performCalculation ArithmeticOperation.Minimum (first :: rest) = Except.ok m
        ∧ m = List.foldl min first.getUserInput (rest.map NumberInputStep.getUserInput)
        ∧ m ∈ (first :: rest).map NumberInputStep.getUserInput
        ∧ ∀ v ∈ (first :: rest).map NumberInputStep.getUserInput, m ≤ v)
    ∧ (∃ m : T,
        performCalculation ArithmeticOperation.Maximum (first :: rest) = Except.ok m
        ∧ m = List.foldl max first.getUserInput (rest.map NumberInputStep.getUserInput)
        ∧ m ∈ (first :: rest).map NumberInputStep.getUserInput
        ∧ ∀ v ∈ (first :: rest).map NumberInputStep.getUserInput, v ≤ m) := by
  refine ⟨?_, ⟨_, rfl, ?_, ?_, ?_⟩, ⟨_, rfl, ?_, ?_, ?_⟩⟩
  · simp [performCalculation, subtractionLoop_eq_foldl]
  · exact minimumLoop_eq_foldl rest first.getUserInput
  · rw [minimumLoop_eq_foldl, List.map_cons]
    exact foldl_min_mem _ _
  · rw [minimumLoop_eq_foldl, List.map_cons]
    exact foldl_min_le _ _
  · exact maximumLoop_eq_foldl rest first.getUserInput
  · rw [maximumLoop_eq_foldl, List.map_cons]
    exact foldl_max_mem _ _
  · rw [maximumLoop_eq_foldl, List.map_cons]
    exact foldl_max_ge _ _

end CalculationTheorems


section ExecutorTheorems

variable {T : Type} [LinearOrderedField T]

theorem selectLoop_spec (steps : List (FlowStep T)) (i : Nat) :
    ∀ (fuel j : Nat) (selectedInputs : List Nat) (verify : Bool) (cin : List Char)
      (result : List Nat × Bool × List Char),
      selectLoop steps i fuel j selectedInputs verify cin = some result →
      ∃ extra : List Nat, result.1 = selectedInputs ++ extra
        ∧ (∀ x ∈ extra, x < i ∧ ∃ n, steps[x]? = some (FlowStep.numberInputStep n))
        ∧ (verify = true ∨ extra ≠ [] → result.2.1 = true) := by
  intro fuel
  induction fuel with
  | zero => intro j sel v cin result h; simp [selectLoop] at h
  | succ fuel ih =>
    intro j sel v cin result h
    unfold selectLoop at h
    split at h
    · rename_i hj
      split at h
      · rename_i n hn
        split at h
        · cases h
        · rename_i selectInput cin1 hc
          split at h
          · split at h
            · cases h
              exact ⟨[j], rfl, by simpa using ⟨hj, n, hn⟩, fun _ => rfl⟩
            · obtain ⟨extra, h1, h2, h3⟩ := ih _ _ _ _ _ h
              refine ⟨j :: extra, by simpa using h1, ?_, fun _ => h3 (Or.inl rfl)⟩
              intro x hx
              rcases List.mem_cons.mp hx with hx | hx
              · subst hx; exact ⟨hj, n, hn⟩
              · exact h2 x hx
          · obtain ⟨extra, h1, h2, h3⟩ := ih _ _ _ _ _ h
            exact ⟨extra, h1, h2, fun _ => h3 (Or.inl rfl)⟩
      · obtain ⟨extra, h1, h2, h3⟩ := ih _ _ _ _ _ h
        exact ⟨extra, h1, h2, h3⟩
    · cases h
      exact ⟨[], by simp, by simp, by simp⟩

theorem addSelectedInputs_eq (steps : List (FlowStep T)) (selectedInputs : List Nat)
    (calculusStep : CalculusStep)
    (h : ∀ x ∈ selectedInputs, ∃ n, steps[x]? = some (FlowStep.numberInputStep n)) :
    addSelectedInputs steps selectedInputs calculusStep
      = { calculusStep with numberInputs := calculusStep.numberInputs ++ selectedInputs } := by
  induction selectedInputs generalizing calculusStep with
  | nil => simp [addSelectedInputs]
  | cons x rest ih =>
    obtain ⟨n, hn⟩ := h x (List.mem_cons_self _ _)
    have hrest : ∀ y ∈ rest, ∃ n, steps[y]? = some (FlowStep.numberInputStep n) :=
      fun y hy => h y (List.mem_cons_of_mem _ hy)
    simp [addSelectedInputs, hn, ih _ hrest, CalculusStep.addNumberInput]

theorem setOperationBySymbol_numberInputs (calculusStep : CalculusStep) (c : Char) :
    (calculusStep.setOperationBySymbol c).numberInputs = calculusStep.numberInputs := by
  unfold CalculusStep.setOperationBySymbol
  repeat' split
  all_goals rfl

/-- C5 (amended): when the operator completes a Calculus step and the selection loop
ends with `selectedInputs = [a, b]` (`a` accepted first, `b` second), both are
NumberInput steps before the Calculus step, the step's operand list grows by `a`
then `b` in that order of selection, and the calculation is made on the operands in
that order: for a step holding no operand before, the symbol `-` reports
`value(a) - value(b)`. -/
theorem C5_operands_in_selection_order (steps : List (FlowStep T)) (i : Nat)
    (calculusStep : CalculusStep) (cin cin0 cin2 cin3 : List Char)
    (completeStep operationSymbol : Char) (a b : Nat) (verify : Bool)
    (hgate : cinChar cin = some (completeStep, cin0))
    (hyes : isYes completeStep = true)
    (hselect : selectNumberInputs steps i (ignoreLine cin0) = some ([a, b], verify, cin2))
    (hsymbol : operationSymbolLoop (cin2.length + 1) cin2 = some (operationSymbol, cin3)) :
    ∃ (run : CalculusRun T) (stored : CalculusStep) (na nb : NumberInputStep T),
      executeCalculusStep steps i calculusStep cin = some run
      ∧ a < i ∧ b < i
      ∧ steps[a]? = some (FlowStep.numberInputStep na)
      ∧ steps[b]? = some (FlowStep.numberInputStep nb)
      ∧ run.steps = steps.set i (FlowStep.calculusStep stored)
      ∧ stored.numberInputs = calculusStep.numberInputs ++ [a, b]
      ∧ run.report = some (performCalculation stored.operation
          (derefNumberInputs steps (calculusStep.numberInputs ++ [a, b])))
      ∧ (calculusStep.numberInputs = [] → operationSymbol = '-' →
          run.report = some (Except.ok (na.getUserInput - nb.getUserInput))) := by
  obtain ⟨extra, h1, h2, h3⟩ := selectLoop_spec steps i _ _ _ _ _ _ hselect
  simp only [List.nil_append] at h1
  subst h1
  obtain ⟨ha, na, hna⟩ := h2 a (by simp)
  obtain ⟨hb, nb, hnb⟩ := h2 b (by simp)
  have hv : verify = true := h3 (Or.inr (by simp))
  subst hv
  have hall : ∀ x ∈ [a, b], ∃ n, steps[x]? = some (FlowStep.numberInputStep n) :=
    fun x hx => (h2 x hx).2
  refine ⟨{ steps := steps.set i (FlowStep.calculusStep
                ((addSelectedInputs steps [a, b] calculusStep).setOperationBySymbol
                  operationSymbol)),
            cin := cin3,
            report := some (performCalculation
              ((addSelectedInputs steps [a, b] calculusStep).setOperationBySymbol
                operationSymbol).operation
              (derefNumberInputs steps
                ((addSelectedInputs steps [a, b] calculusStep).setOperationBySymbol
                  operationSymbol).numberInputs)) },
    (addSelectedInputs steps [a, b] calculusStep).setOperationBySymbol operationSymbol,
    na, nb, ?_, ha, hb, hna, hnb, rfl, ?_, ?_, ?_⟩
  · simp [executeCalculusStep, hgate, hyes, hselect, hsymbol]
  · rw [setOperationBySymbol_numberInputs, addSelectedInputs_eq steps _ _ hall]
  · rw [setOperationBySymbol_numberInputs, addSelectedInputs_eq steps _ _ hall]
  · intro hempty hminus
    subst hminus
    simp [hempty, addSelectedInputs_eq steps _ _ hall, CalculusStep.setOperationBySymbol,
      derefNumberInputs, hna, hnb, performCalculation, subtractionLoop]

/-- C5 (as stated, refuted): in the flow `[NumberInput 5, NumberInput 3, Calculus]`
the operator declines step 1, accepts step 2 and, the scan having gone back to the
start, accepts step 1. The operands are stored as `[1, 0]`, the higher flow index
first, and `-` reports `3 - 5`, not `5 - 3`. -/
theorem C5_counterexample_selection_order :
    ∃ run : CalculusRun ℚ,
      executeCalculusStep exampleSubtractionSteps 2
          { operation := ArithmeticOperation.Addition, numberInputs := [],
            operationSymbol := '+' }
          "y\nn\ny\ny\n-\n".data = some run
      ∧ run.steps[2]? = some (FlowStep.calculusStep
          { operation := ArithmeticOperation.Subtraction, numberInputs := [1, 0],
            operationSymbol := '-' })
      ∧ run.report = some (Except.ok (3 - 5))
      ∧ run.report ≠ some (Except.ok (5 - 3)) := by
  refine ⟨_, rfl, by decide, rfl, ?_⟩
  intro h
  have h2 : (3 - 5 : ℚ) = 5 - 3 := by
    injection h with h
    injection h
  norm_num at h2

/-- Witness of C5 (amended) on the flow `[NumberInput 5, NumberInput 3, Calculus]`
with step 2 selected before step 1. -/
theorem C5_operands_in_selection_order_witness :
    ∃ (run : CalculusRun ℚ) (stored : CalculusStep) (na nb : NumberInputStep ℚ),
      executeCalculusStep exampleSubtractionSteps 2
          { operation := ArithmeticOperation.Addition, numberInputs := [],
            operationSymbol := '+' }
          "y\nn\ny\ny\n-\n".data = some run
      ∧ 1 < 2 ∧ 0 < 2
      ∧ exampleSubtractionSteps[1]? = some (FlowStep.numberInputStep na)
      ∧ exampleSubtractionSteps[0]? = some (FlowStep.numberInputStep nb)
      ∧ run.steps = exampleSubtractionSteps.set 2 (FlowStep.calculusStep stored)
      ∧ stored.numberInputs = [] ++ [1, 0]
      ∧ run.report = some (performCalculation stored.operation
          (derefNumberInputs exampleSubtractionSteps ([] ++ [1, 0])))
      ∧ (([] : List Nat) = [] → '-' = '-' →
          run.report = some (Except.ok (na.getUserInput - nb.getUserInput))) :=
  C5_operands_in_selection_order exampleSubtractionSteps 2
    { operation := ArithmeticOperation.Addition, numberInputs := [], operationSymbol := '+' }
    "y\nn\ny\ny\n-\n".data "\nn\ny\ny\n-\n".data "-\n".data [] 'y' '-' 1 0 true
    (by decide) (by decide) (by decide) (by decide)

/-- Every step of the flow is reset by the End branch, at its own index. -/
theorem executeEndStep_getElem? (steps : List (FlowStep T)) (k : Nat) :
    (executeEndStep steps)[k]? = (steps[k]?).map FlowStep.reset := by
  simp [executeEndStep]

/-- C6 (the code at the failing input and around it): the End branch replaces the
step at every index by its `reset`. For an Output step that is the object with
title `Default Title` and description `Default Description`, which is not the
default-constructed Output step; a Text step keeps its `stepNumber`; a Calculus
step becomes Addition, `+`, no operands; every other step becomes the
default-constructed object of its class. -/
theorem C6_end_step_reset_values (steps : List (FlowStep T)) (k : Nat) (step : FlowStep T)
    (h : steps[k]? = some step) :
    (executeEndStep steps)[k]? = some step.reset
    ∧ (match step with
        | FlowStep.outputStep _ =>
          step.reset = FlowStep.outputStep
              { filename := "Default File Name", title := "Default Title",
                description := "Default Description", outputData := [] }
            ∧ some step.reset ≠ step.defaultConstructed
        | FlowStep.calculusStep _ =>
          step.reset = FlowStep.calculusStep
              { operation := ArithmeticOperation.Addition, numberInputs := [],
                operationSymbol := '+' }
        | FlowStep.textStep s =>
          step.reset = FlowStep.textStep
              { title := "Default Title for TextStep", text := "Default text for TextStep",
                complete := false, stepNumber := s.stepNumber }
        | _ => some step.reset = step.defaultConstructed) := by
  refine ⟨by rw [executeEndStep_getElem?, h]; rfl, ?_⟩
  cases step with
  | outputStep s =>
    refine ⟨rfl, ?_⟩
    simp only [FlowStep.reset, FlowStep.defaultConstructed, OutputStep.reset, ne_eq,
      Option.some.injEq, FlowStep.outputStep.injEq, OutputStep.mk.injEq]
    decide
  | calculusStep s => rfl
  | textStep s => rfl
  | titleStep s => rfl
  | textInputStep s => rfl
  | numberInputStep s => rfl
  | displayStep => rfl
  | textFileInputStep s => rfl
  | csvFileInputStep s => rfl
  | endStep => rfl

/-- Witness of C6 at the failing input: the flow `[Output, End]` with a
default-constructed Output step. After the End step the Output step's title reads
`Default Title`, while the constructor's default is `Default File Title`. -/
theorem C6_end_step_reset_values_witness :
    ([FlowStep.outputStep {}, FlowStep.endStep] : List (FlowStep ℚ))[0]?
        = some (FlowStep.outputStep {})
    ∧ (executeEndStep ([FlowStep.outputStep {}, FlowStep.endStep] : List (FlowStep ℚ)))[0]?
        = some (FlowStep.outputStep {}).reset
    ∧ ((FlowStep.outputStep {} : FlowStep ℚ).reset = FlowStep.outputStep
          { filename := "Default File Name", title := "Default Title",
            description := "Default Description", outputData := [] }
        ∧ some (FlowStep.outputStep {} : FlowStep ℚ).reset
            ≠ (FlowStep.outputStep {} : FlowStep ℚ).defaultConstructed) :=
  ⟨rfl, C6_end_step_reset_values [FlowStep.outputStep {}, FlowStep.endStep] 0
    (FlowStep.outputStep {}) rfl⟩

end ExecutorTheorems


section CodecTheorems

variable {T : Type} [Zero T]

theorem getlineAll_cons (delim c : Char) (rest : List Char) :
    getlineAll delim (c :: rest)
      = getlineText delim (c :: rest) :: getlineAll delim (getlineRest delim (c :: rest)) := by
  induction rest generalizing c with
  | nil =>
    by_cases hc : c = delim <;> simp [getlineAll, getlineText, getlineRest, hc]
  | cons r rs ih =>
    by_cases hc : c = delim
    · simp [getlineAll, getlineText, getlineRest, hc]
    · have h1 : getlineText delim (c :: r :: rs) = c :: getlineText delim (r :: rs) := by
        rw [getlineText, if_neg hc]
      have h2 : getlineRest delim (c :: r :: rs) = getlineRest delim (r :: rs) := by
        rw [getlineRest, if_neg hc]
      rw [h1, h2, getlineAll, if_neg hc, ih r]

/-- The rounds of `while (getline(stream, x, delim))` by the single calls: the loop
ends at the first failing call, and every other call delivers one text. -/
theorem getlineAll_eq_getline (delim : Char) (stream : List Char) :
    getlineAll delim stream
      = match getline delim stream with
        | none => []
        | some (x, rest) => x :: getlineAll delim rest := by
  cases stream with
  | nil => rfl
  | cons c rest => simp only [getline]; exact getlineAll_cons delim c rest

theorem getlineAll_eq_nil (delim : Char) (stream : List Char) :
    getlineAll delim stream = [] ↔ stream = [] := by
  cases stream with
  | nil => simp [getlineAll]
  | cons c rest => rw [getlineAll_cons]; simp

theorem getlineText_field (delim : Char) (x rest : List Char) (h : delim ∉ x) :
    getlineText delim (x ++ delim :: rest) = x := by
  induction x with
  | nil => simp [getlineText]
  | cons c x ih =>
    have hc : c ≠ delim := fun e => h (by simp [e])
    have hx : delim ∉ x := fun e => h (List.mem_cons_of_mem _ e)
    rw [List.cons_append, getlineText, if_neg hc, ih hx]

theorem getlineRest_field (delim : Char) (x rest : List Char) (h : delim ∉ x) :
    getlineRest delim (x ++ delim :: rest) = rest := by
  induction x with
  | nil => simp [getlineRest]
  | cons c x ih =>
    have hc : c ≠ delim := fun e => h (by simp [e])
    have hx : delim ∉ x := fun e => h (List.mem_cons_of_mem _ e)
    rw [List.cons_append, getlineRest, if_neg hc, ih hx]

theorem getline_field (delim : Char) (x rest : List Char) (h : delim ∉ x) :
    getline delim (x ++ delim :: rest) = some (x, rest) := by
  have h1 := getlineText_field delim x rest h
  have h2 := getlineRest_field delim x rest h
  cases hs : x ++ delim :: rest with
  | nil => simp at hs
  | cons c r =>
    rw [hs] at h1 h2
    simp only [getline, h1, h2]

theorem getlineAll_field (delim : Char) (x rest : List Char) (h : delim ∉ x) :
    getlineAll delim (x ++ delim :: rest) = x :: getlineAll delim rest := by
  rw [getlineAll_eq_getline, getline_field delim x rest h]

theorem getlineAll_append_terminated (delim : Char) (a b : List Char) :
    getlineAll delim (a ++ delim :: b) = getlineAll delim (a ++ [delim]) ++ getlineAll delim b := by
  induction a with
  | nil => simp [getlineAll]
  | cons c a ih =>
    by_cases hc : c = delim
    · simp [getlineAll, hc, ih]
    · have hne : getlineAll delim (a ++ [delim]) ≠ [] := by
        rw [Ne, getlineAll_eq_nil]; simp
      cases h : getlineAll delim (a ++ [delim]) with
      | nil => exact absurd h hne
      | cons x more => simp [getlineAll, hc, ih, h]

theorem getlineAll_append_of_terminated (delim : Char) (content line : List Char)
    (h : content = [] ∨ content.getLast? = some delim) :
    getlineAll delim (content ++ line) = getlineAll delim content ++ getlineAll delim line := by
  rcases h with h | h
  · subst h; simp [getlineAll]
  · obtain ⟨init, rfl⟩ : ∃ init, content = init ++ [delim] := by
      rcases List.eq_nil_or_concat content with h0 | ⟨init, last, h0⟩
      · subst h0; simp at h
      · subst h0
        simp at h
        exact ⟨init, by simp [h]⟩
    rw [List.append_assoc, List.singleton_append, getlineAll_append_terminated]

/-- The name read from a line is its text before the first comma, the whole line
when it has no comma. -/
theorem parseLine_csvFlowName (line : List Char) :
    (parseLine line).csvFlowName = getlineText ',' line := by
  unfold parseLine
  cases line with
  | nil => rfl
  | cons c rest =>
    have h : getline ',' (c :: rest)
        = some (getlineText ',' (c :: rest), getlineRest ',' (c :: rest)) := rfl
    rw [h]
    dsimp only
    cases h2 : getline ',' (getlineRest ',' (c :: rest)) with
    | none => rfl
    | some q => rfl

theorem parseLine_stepTypes (line : List Char) :
    (parseLine line).stepTypes = (getlineAll ',' line).drop 2 := by
  unfold parseLine
  rw [getlineAll_eq_getline]
  cases h : getline ',' line with
  | none => rfl
  | some p =>
    obtain ⟨x, rest⟩ := p
    dsimp only
    rw [getlineAll_eq_getline ',' rest]
    cases h2 : getline ',' rest with
    | none => rfl
    | some q => rfl

theorem addLoadedSteps_eq (loadedFlow : Flow T) (stepTypes : List (List Char)) :
    addLoadedSteps loadedFlow stepTypes
      = { name := loadedFlow.name,
          steps := loadedFlow.steps ++ stepTypes.filterMap makeStep } := by
  induction stepTypes generalizing loadedFlow with
  | nil => simp [addLoadedSteps]
  | cons t rest ih =>
    cases h : (makeStep t : Option (FlowStep T)) with
    | none => simp [addLoadedSteps, h, ih]
    | some step => simp [addLoadedSteps, h, ih, Flow.addStep]

theorem loadLines_no_match (flowName : String) (loadedFlow : Flow T)
    (lines : List (List Char))
    (h : ∀ l ∈ lines, (parseLine l).csvFlowName ≠ flowName.data) :
    loadLines flowName loadedFlow lines = loadedFlow := by
  induction lines with
  | nil => rfl
  | cons l rest ih =>
    have h1 := h l (List.mem_cons_self _ _)
    have h2 : ∀ l ∈ rest, (parseLine l).csvFlowName ≠ flowName.data :=
      fun l hl => h l (List.mem_cons_of_mem _ hl)
    simp [loadLines, h1, ih h2]

theorem loadLines_first_match (flowName : String) (loadedFlow : Flow T)
    (before : List (List Char)) (line : List Char) (after : List (List Char))
    (hbefore : ∀ l ∈ before, (parseLine l).csvFlowName ≠ flowName.data)
    (hline : (parseLine line).csvFlowName = flowName.data) :
    loadLines flowName loadedFlow (before ++ line :: after)
      = addLoadedSteps loadedFlow (parseLine line).stepTypes := by
  induction before with
  | nil => simp [loadLines, hline]
  | cons l rest ih =>
    have h1 := hbefore l (List.mem_cons_self _ _)
    have h2 : ∀ l ∈ rest, (parseLine l).csvFlowName ≠ flowName.data :=
      fun l hl => hbefore l (List.mem_cons_of_mem _ hl)
    simp [loadLines, h1, ih h2]

theorem digitChar_ne_delimiters (n : Nat) :
    Nat.digitChar (n % 10) ≠ ',' ∧ Nat.digitChar (n % 10) ≠ '\n' := by
  have h : n % 10 < 10 := Nat.mod_lt _ (by decide)
  generalize n % 10 = k at h
  interval_cases k <;> decide

theorem strftime_no_comma (timeInfo : Tm) : ',' ∉ strftime timeInfo := by
  intro h
  simp only [strftime, twoDigits, fourDigits, List.mem_append, List.mem_cons,
    List.mem_singleton, List.not_mem_nil, or_false] at h
  have hd := fun n => (digitChar_ne_delimiters n).1
  rcases h with ((((((((((h | h | h | h) | h) | h | h) | h) | h | h) | h) | h | h) | h) | h | h) | h) | h | h
  all_goals first
    | exact absurd h.symm (hd _)
    | exact absurd h (by decide)

theorem strftime_no_newline (timeInfo : Tm) : '\n' ∉ strftime timeInfo := by
  intro h
  simp only [strftime, twoDigits, fourDigits, List.mem_append, List.mem_cons,
    List.mem_singleton, List.not_mem_nil, or_false] at h
  have hd := fun n => (digitChar_ne_delimiters n).2
  rcases h with ((((((((((h | h | h | h) | h) | h | h) | h) | h | h) | h) | h | h) | h) | h | h) | h) | h | h
  all_goals first
    | exact absurd h.symm (hd _)
    | exact absurd h (by decide)

theorem getType_no_delimiters (step : FlowStep T) :
    ',' ∉ step.getType.data ∧ '\n' ∉ step.getType.data := by
  cases step <;> simp only [FlowStep.getType] <;> exact ⟨by decide, by decide⟩

theorem writeStepTypes_no_newline (steps : List (FlowStep T)) :
    '\n' ∉ writeStepTypes steps := by
  induction steps with
  | nil => simp [writeStepTypes]
  | cons step rest ih =>
    have h := (getType_no_delimiters step).2
    simp only [writeStepTypes, List.mem_append, List.mem_singleton, not_or]
    exact ⟨⟨h, by decide⟩, ih⟩

theorem getlineAll_writeStepTypes (steps : List (FlowStep T)) :
    getlineAll ',' (writeStepTypes steps) = steps.map (fun step => step.getType.data) := by
  induction steps with
  | nil => rfl
  | cons step rest ih =>
    have h := (getType_no_delimiters step).1
    rw [writeStepTypes, List.append_assoc, List.singleton_append,
      getlineAll_field ',' _ _ h, ih, List.map_cons]

theorem makeStep_getType (step : FlowStep T) :
    ∃ loaded : FlowStep T,
      makeStep step.getType.data = some loaded ∧ loaded.getType = step.getType := by
  cases step <;> exact ⟨_, rfl, rfl⟩

theorem filterMap_makeStep_getType (steps : List (FlowStep T)) :
    ((steps.map (fun step => step.getType.data)).filterMap
        (makeStep : List Char → Option (FlowStep T))).map FlowStep.getType
      = steps.map FlowStep.getType := by
  induction steps with
  | nil => rfl
  | cons step rest ih =>
    obtain ⟨loaded, h1, h2⟩ := makeStep_getType step
    simp only [List.map_cons, List.filterMap_cons, h1, h2, ih]

theorem parseLine_fields (name timestamp stepTypes : List Char)
    (hname : ',' ∉ name) (htime : ',' ∉ timestamp) :
    parseLine (name ++ [','] ++ timestamp ++ [','] ++ stepTypes)
      = { csvFlowName := name, timestamp := timestamp,
          stepTypes := getlineAll ',' stepTypes } := by
  have h : name ++ [','] ++ timestamp ++ [','] ++ stepTypes
      = name ++ ',' :: (timestamp ++ ',' :: stepTypes) := by simp
  rw [h, parseLine, getline_field ',' name _ hname]
  dsimp only
  rw [getline_field ',' timestamp _ htime]

theorem getlineAll_catalogLine (flow : Flow T) (timeInfo : Tm)
    (hnewline : '\n' ∉ flow.name.data) :
    getlineAll '\n' (catalogLine flow timeInfo)
      = [flow.name.data ++ [','] ++ strftime timeInfo ++ [','] ++ writeStepTypes flow.steps] := by
  have h : '\n' ∉ flow.name.data ++ [','] ++ strftime timeInfo ++ [',']
      ++ writeStepTypes flow.steps := by
    simp only [List.mem_append, List.mem_singleton, not_or]
    exact ⟨⟨⟨⟨hnewline, by decide⟩, strftime_no_newline timeInfo⟩, by decide⟩,
      writeStepTypes_no_newline flow.steps⟩
  rw [catalogLine, getlineAll_field '\n' _ [] h]
  rfl

/-- C7 (amended): a flow whose name has no comma and no newline is saved to a
catalog that is absent, empty or ends with a newline and in which no line has the
name as its leading field; loading it by name then yields a flow with the same
name and the same sequence of step types. -/
theorem C7_save_then_load_skeleton (flow : Flow T) (timeInfo : Tm)
    (csvFile : Option (List Char))
    (hcomma : ',' ∉ flow.name.data) (hnewline : '\n' ∉ flow.name.data)
    (hterminated : ∀ content, csvFile = some content →
      content = [] ∨ content.getLast? = some '\n')
    (hfresh : ∀ content, csvFile = some content →
      ∀ line ∈ getlineAll '\n' content, getlineText ',' line ≠ flow.name.data) :
    (loadFlowFromCSV (T := T) flow.name (saveFlowToCSV flow timeInfo true csvFile)).name
        = flow.name
    ∧ (loadFlowFromCSV (T := T) flow.name
          (saveFlowToCSV flow timeInfo true csvFile)).steps.map FlowStep.getType
        = flow.steps.map FlowStep.getType := by
  have hterm : csvFile.getD [] = [] ∨ (csvFile.getD []).getLast? = some '\n' := by
    cases csvFile with
    | none => exact Or.inl rfl
    | some content => exact hterminated content rfl
  have hfr : ∀ line ∈ getlineAll '\n' (csvFile.getD []),
      (parseLine line).csvFlowName ≠ flow.name.data := by
    cases csvFile with
    | none => intro line hl; simp [getlineAll] at hl
    | some content =>
      intro line hl
      rw [parseLine_csvFlowName]
      exact hfresh content rfl line hl
  have hload : loadFlowFromCSV (T := T) flow.name (saveFlowToCSV flow timeInfo true csvFile)
      = { name := flow.name,
          steps := (flow.steps.map (fun step => step.getType.data)).filterMap makeStep } := by
    simp only [saveFlowToCSV, if_true, loadFlowFromCSV]
    rw [getlineAll_append_of_terminated '\n' _ _ hterm, getlineAll_catalogLine flow timeInfo hnewline,
      loadLines_first_match flow.name _ _ _ [] hfr
        (by rw [parseLine_fields _ _ _ hcomma (strftime_no_comma timeInfo)]),
      parseLine_fields _ _ _ hcomma (strftime_no_comma timeInfo), addLoadedSteps_eq,
      getlineAll_writeStepTypes]
    rfl
  rw [hload]
  exact ⟨rfl, filterMap_makeStep_getType flow.steps⟩

/-- Witness of C7 (amended): the flow `[Title, NumberInput, NumberInput, Calculus,
End]` named `A`, saved to a catalog holding one terminated line for `B`. -/
theorem C7_save_then_load_skeleton_witness :
    (loadFlowFromCSV (T := ℚ) exampleFlow.name
        (saveFlowToCSV exampleFlow exampleTime true
          (some "B,2024-03-08 09:00:00,EndStep,\n".data))).name = exampleFlow.name
    ∧ (loadFlowFromCSV (T := ℚ) exampleFlow.name
        (saveFlowToCSV exampleFlow exampleTime true
          (some "B,2024-03-08 09:00:00,EndStep,\n".data))).steps.map FlowStep.getType
        = exampleFlow.steps.map FlowStep.getType :=
  C7_save_then_load_skeleton exampleFlow exampleTime
    (some "B,2024-03-08 09:00:00,EndStep,\n".data) (by decide) (by decide)
    (fun content h => by
      cases h
      exact Or.inr (by decide))
    (fun content h => by
      cases h
      decide)

/-- C7 (as stated, refuted): the catalog holds the single line `B,t,EndStep,` with no
newline after it. No line has `A` as its leading field, yet the flow `A` with the
steps `[End]`, once saved, loads with no step: the new text continues the old line. -/
theorem C7_counterexample_unterminated_catalog :
    ',' ∉ "A".data ∧ '\n' ∉ "A".data
    ∧ (∀ line ∈ getlineAll '\n' "B,t,EndStep,".data, getlineText ',' line ≠ "A".data)
    ∧ saveFlowToCSV ({ name := "A", steps := [FlowStep.endStep] } : Flow ℚ) exampleTime true
          (some "B,t,EndStep,".data)
        = some "B,t,EndStep,A,2024-03-09 14:05:07,EndStep,\n".data
    ∧ (loadFlowFromCSV (T := ℚ) "A"
          (saveFlowToCSV ({ name := "A", steps := [FlowStep.endStep] } : Flow ℚ) exampleTime
            true (some "B,t,EndStep,".data))).steps = []
    ∧ (loadFlowFromCSV (T := ℚ) "A"
          (saveFlowToCSV ({ name := "A", steps := [FlowStep.endStep] } : Flow ℚ) exampleTime
            true (some "B,t,EndStep,".data))).steps.map FlowStep.getType
        ≠ [FlowStep.endStep (T := ℚ)].map FlowStep.getType := by
  refine ⟨by decide, by decide, by decide, by decide, by decide, by decide⟩

theorem makeStep_cases (stepType : List Char) (step : FlowStep T)
    (h : makeStep stepType = some step) :
    step = FlowStep.titleStep {}
    ∨ step = FlowStep.textStep {}
    ∨ step = FlowStep.textInputStep
        { description := "Input title, subtitle, title text and text" }
    ∨ step = (FlowStep.numberInputStep { description := "Input a number", userInput := 0 }
        : FlowStep T)
    ∨ step = FlowStep.calculusStep
        { operation := ArithmeticOperation.Addition, numberInputs := [],
          operationSymbol := '+' }
    ∨ step = FlowStep.displayStep
    ∨ step = FlowStep.textFileInputStep { description := "Input a .txt file" }
    ∨ step = FlowStep.csvFileInputStep { description := "Input a .csv file" }
    ∨ step = FlowStep.outputStep {}
    ∨ step = FlowStep.endStep := by
  unfold makeStep at h
  repeat' split at h
  all_goals first
    | (cases h; done)
    | (cases h; simp)

theorem loadLines_steps (flowName : String) (loadedFlow : Flow T) (lines : List (List Char)) :
    ∃ stepTypes : List (List Char),
      loadLines flowName loadedFlow lines
        = { name := loadedFlow.name,
            steps := loadedFlow.steps ++ stepTypes.filterMap makeStep } := by
  induction lines with
  | nil => exact ⟨[], by simp [loadLines]⟩
  | cons line rest ih =>
    by_cases h : (parseLine line).csvFlowName = flowName.data
    · exact ⟨(parseLine line).stepTypes, by simp [loadLines, h, addLoadedSteps_eq]⟩
    · obtain ⟨stepTypes, hs⟩ := ih
      exact ⟨stepTypes, by simp [loadLines, h, hs]⟩

/-- C8 (amended): every step of a flow returned by `loadFlowFromCSV`, whatever the
catalog holds, is the object fixed by its kind alone: the default-constructed one
for Title, Text, Display, Output and End, the Calculus step with Addition, `+` and
no operands, and for TextInput, NumberInput, TextFileInput and CSVFileInput the
object constructed with the description the loader passes, the other members at
their defaults. -/
theorem C8_loaded_steps_fixed_by_kind (flowName : String) (csvFile : Option (List Char))
    (step : FlowStep T)
    (h : step ∈ (loadFlowFromCSV (T := T) flowName csvFile).steps) :
    step = FlowStep.titleStep {}
    ∨ step = FlowStep.textStep {}
    ∨ step = FlowStep.textInputStep
        { description := "Input title, subtitle, title text and text" }
    ∨ step = (FlowStep.numberInputStep { description := "Input a number", userInput := 0 }
        : FlowStep T)
    ∨ step = FlowStep.calculusStep
        { operation := ArithmeticOperation.Addition, numberInputs := [],
          operationSymbol := '+' }
    ∨ step = FlowStep.displayStep
    ∨ step = FlowStep.textFileInputStep { description := "Input a .txt file" }
    ∨ step = FlowStep.csvFileInputStep { description := "Input a .csv file" }
    ∨ step = FlowStep.outputStep {}
    ∨ step = FlowStep.endStep := by
  cases csvFile with
  | none => simp [loadFlowFromCSV] at h
  | some content =>
    obtain ⟨stepTypes, hs⟩ :=
      loadLines_steps flowName ({ name := flowName, steps := [] } : Flow T)
        (getlineAll '\n' content)
    simp only [loadFlowFromCSV, hs, List.nil_append, List.mem_filterMap] at h
    obtain ⟨stepType, _, hmake⟩ := h
    exact makeStep_cases stepType step hmake

/-- Witness of C8 (amended): the NumberInput step of the example flow, saved with
description `first` and value 5, loads with description `Input a number` and
value 0. -/
theorem C8_loaded_steps_fixed_by_kind_witness :
    exampleLoadedNumberInput
        ∈ (loadFlowFromCSV (T := ℚ) "A" (saveFlowToCSV exampleFlow exampleTime true none)).steps
    ∧ (exampleLoadedNumberInput = FlowStep.titleStep {}
      ∨ exampleLoadedNumberInput = FlowStep.textStep {}
      ∨ exampleLoadedNumberInput = FlowStep.textInputStep
            { description := "Input title, subtitle, title text and text" }
      ∨ exampleLoadedNumberInput
          = (FlowStep.numberInputStep { description := "Input a number", userInput := 0 }
              : FlowStep ℚ)
      ∨ exampleLoadedNumberInput = FlowStep.calculusStep
            { operation := ArithmeticOperation.Addition, numberInputs := [],
              operationSymbol := '+' }
      ∨ exampleLoadedNumberInput = FlowStep.displayStep
      ∨ exampleLoadedNumberInput = FlowStep.textFileInputStep
            { description := "Input a .txt file" }
      ∨ exampleLoadedNumberInput = FlowStep.csvFileInputStep
            { description := "Input a .csv file" }
      ∨ exampleLoadedNumberInput = FlowStep.outputStep {}
      ∨ exampleLoadedNumberInput = FlowStep.endStep) :=
  ⟨by decide,
   C8_loaded_steps_fixed_by_kind "A" (saveFlowToCSV exampleFlow exampleTime true none)
     exampleLoadedNumberInput (by decide)⟩

/-- C8 (as stated, refuted): a flow holding one default-constructed NumberInput step
is saved to a new catalog and loaded. The loaded step has the description
`Input a number`, not the constructor's default `Default Number Input Description`:
it is not the default-constructed step of its kind. -/
theorem C8_counterexample_loaded_description :
    (loadFlowFromCSV (T := ℚ) "A"
        (saveFlowToCSV ({ name := "A", steps := [FlowStep.numberInputStep {}] } : Flow ℚ)
          exampleTime true none)).steps
      = [FlowStep.numberInputStep { description := "Input a number", userInput := (0 : ℚ) }]
    ∧ (FlowStep.numberInputStep { description := "Input a number", userInput := (0 : ℚ) }
          : FlowStep ℚ).defaultConstructed
        = some (FlowStep.numberInputStep
            { description := "Default Number Input Description", userInput := (0 : ℚ) })
    ∧ (FlowStep.numberInputStep { description := "Input a number", userInput := (0 : ℚ) }
          : FlowStep ℚ)
        ≠ FlowStep.numberInputStep
            { description := "Default Number Input Description", userInput := (0 : ℚ) } := by
  refine ⟨by decide, rfl, by decide⟩

theorem mem_validStepTypes (stepType : List Char) :
    stepType ∈ validStepTypes.map String.data ↔
      stepType = "TitleStep".data ∨ stepType = "TextStep".data
      ∨ stepType = "TextInputStep".data ∨ stepType = "NumberInputStep".data
      ∨ stepType = "CalculusStep".data ∨ stepType = "DisplayStep".data
      ∨ stepType = "TextFileInputStep".data ∨ stepType = "CSVFileInputStep".data
      ∨ stepType = "OutputStep".data ∨ stepType = "EndStep".data := by
  simp only [validStepTypes, List.map_cons, List.map_nil, List.mem_cons, List.mem_singleton,
    List.not_mem_nil, or_false]

theorem makeStep_valid (stepType : List Char)
    (h : stepType ∈ validStepTypes.map String.data) :
    ∃ step : FlowStep T, makeStep stepType = some step ∧ step.getType.data = stepType := by
  rw [mem_validStepTypes] at h
  rcases h with h | h | h | h | h | h | h | h | h | h <;> subst h <;> exact ⟨_, rfl, rfl⟩

theorem makeStep_invalid (stepType : List Char)
    (h : stepType ∉ validStepTypes.map String.data) :
    (makeStep stepType : Option (FlowStep T)) = none := by
  rw [mem_validStepTypes] at h
  simp only [not_or] at h
  obtain ⟨h1, h2, h3, h4, h5, h6, h7, h8, h9, h10⟩ := h
  simp only [makeStep, if_neg h1, if_neg h2, if_neg h3, if_neg h4, if_neg h5, if_neg h6,
    if_neg h7, if_neg h8, if_neg h9, if_neg h10]

/-- C9: when the catalog can be read and `line` is its first line whose leading
comma-separated field is the name, `loadFlowFromCSV` returns the flow of that name
whose steps come, in order, from the fields of `line` after the second: a field
that is one of the ten step types gives one step of that type, any other field
gives none, and the fields after it are still used. The lines after `line` play no
part. -/
theorem C9_load_uses_first_matching_line (flowName : String) (content : List Char)
    (before : List (List Char)) (line : List Char) (after : List (List Char))
    (hlines : getlineAll '\n' content = before ++ line :: after)
    (hbefore : ∀ l ∈ before, getlineText ',' l ≠ flowName.data)
    (hline : getlineText ',' line = flowName.data) :
    loadFlowFromCSV (T := T) flowName (some content)
        = { name := flowName,
            steps := ((getlineAll ',' line).drop 2).filterMap makeStep }
    ∧ (∀ stepType ∈ validStepTypes.map String.data,
        ∃ step : FlowStep T, makeStep stepType = some step ∧ step.getType.data = stepType)
    ∧ (∀ stepType, stepType ∉ validStepTypes.map String.data →
        (makeStep stepType : Option (FlowStep T)) = none) := by
  refine ⟨?_, fun stepType h => makeStep_valid stepType h,
    fun stepType h => makeStep_invalid stepType h⟩
  have hb : ∀ l ∈ before, (parseLine l).csvFlowName ≠ flowName.data := by
    intro l hl
    rw [parseLine_csvFlowName]
    exact hbefore l hl
  have hl : (parseLine line).csvFlowName = flowName.data := by
    rw [parseLine_csvFlowName]
    exact hline
  simp only [loadFlowFromCSV]
  rw [hlines, loadLines_first_match flowName _ before line after hb hl, addLoadedSteps_eq,
    parseLine_stepTypes]
  rfl

/-- Witness of C9: a catalog with a line for `B`, two lines for `A` and, in the
first of these, a field that is no step type. -/
theorem C9_load_uses_first_matching_line_witness :
    loadFlowFromCSV (T := ℚ) "A"
        (some "B,t,EndStep,\nA,t,TitleStep,Bogus,EndStep,\nA,t,DisplayStep,\n".data)
      = { name := "A", steps := [FlowStep.titleStep {}, FlowStep.endStep] } :=
  (C9_load_uses_first_matching_line (T := ℚ) "A"
    "B,t,EndStep,\nA,t,TitleStep,Bogus,EndStep,\nA,t,DisplayStep,\n".data
    ["B,t,EndStep,".data] "A,t,TitleStep,Bogus,EndStep,".data ["A,t,DisplayStep,".data]
    (by decide) (by decide) (by decide)).1.trans (by decide)

/-- C10: when the catalog cannot be opened, or none of its lines has the name as
its leading comma-separated field, `loadFlowFromCSV` returns a flow of that name
with no step. -/
theorem C10_load_without_match_is_empty (flowName : String) (csvFile : Option (List Char))
    (h : ∀ content, csvFile = some content →
      ∀ line ∈ getlineAll '\n' content, getlineText ',' line ≠ flowName.data) :
    loadFlowFromCSV (T := T) flowName csvFile = { name := flowName, steps := [] } := by
  cases csvFile with
  | none => rfl
  | some content =>
    have hb : ∀ l ∈ getlineAll '\n' content, (parseLine l).csvFlowName ≠ flowName.data := by
      intro l hl
      rw [parseLine_csvFlowName]
      exact h content rfl l hl
    simp only [loadFlowFromCSV]
    exact loadLines_no_match flowName _ _ hb

/-- Witness of C10: a catalog that cannot be opened, and a catalog whose two lines
are for `B` and `C`. -/
theorem C10_load_without_match_is_empty_witness :
    loadFlowFromCSV (T := ℚ) "A" none = { name := "A", steps := [] }
    ∧ loadFlowFromCSV (T := ℚ) "A" (some "B,t,EndStep,\nC,t,TitleStep,EndStep,\n".data)
        = { name := "A", steps := [] } :=
  ⟨C10_load_without_match_is_empty "A" none (fun content h => by cases h),
   C10_load_without_match_is_empty "A" (some "B,t,EndStep,\nC,t,TitleStep,EndStep,\n".data)
     (fun content h => by
       cases h
       decide)⟩

end CodecTheorems


section FuelTheorems

variable {T : Type} [Zero T]

theorem cinChar_length (cin : List Char) (c : Char) (rest : List Char)
    (h : cinChar cin = some (c, rest)) : rest.length < cin.length := by
  induction cin with
  | nil => simp [cinChar] at h
  | cons d cin ih =>
    unfold cinChar at h
    split at h
    · exact Nat.lt_succ_of_lt (ih h)
    · cases h
      exact Nat.lt_succ_self _

/-- The bound of `operationSymbolLoop` is never the reason for `none`: any two
bounds above the length of the input give the same result. -/
theorem operationSymbolLoop_fuel (fuel1 fuel2 : Nat) (cin : List Char)
    (h1 : cin.length < fuel1) (h2 : cin.length < fuel2) :
    operationSymbolLoop fuel1 cin = operationSymbolLoop fuel2 cin := by
  induction fuel1 generalizing fuel2 cin with
  | zero => omega
  | succ fuel1 ih =>
    cases fuel2 with
    | zero => omega
    | succ fuel2 =>
      unfold operationSymbolLoop
      cases hc : cinChar cin with
      | none => rfl
      | some p =>
        obtain ⟨c, rest⟩ := p
        have hlen := cinChar_length cin c rest hc
        have hdrop : (ignoreOne rest).length ≤ rest.length := by
          simp [ignoreOne]
        dsimp only
        split
        · rfl
        · exact ih fuel2 _ (by omega) (by omega)

/-- The bound of `selectLoop` is never the reason for `none`: any two bounds of at
least `selectLoopRounds` give the same result. `selectNumberInputs` starts with
`2 * i + 2`, which is `selectLoopRounds i 0 []`. -/
theorem selectLoop_fuel (steps : List (FlowStep T)) (i : Nat) (fuel1 fuel2 j : Nat)
    (selectedInputs : List Nat) (verify : Bool) (cin : List Char)
    (h1 : selectLoopRounds i j selectedInputs ≤ fuel1)
    (h2 : selectLoopRounds i j selectedInputs ≤ fuel2) :
    selectLoop steps i fuel1 j selectedInputs verify cin
      = selectLoop steps i fuel2 j selectedInputs verify cin := by
  induction fuel1 generalizing fuel2 j selectedInputs verify cin with
  | zero => simp [selectLoopRounds] at h1
  | succ fuel1 ih =>
    cases fuel2 with
    | zero => simp [selectLoopRounds] at h2
    | succ fuel2 =>
      unfold selectLoop
      by_cases hj : j < i
      · have hnext : ∀ sel : List Nat, selectLoopRounds i (j + 1) sel + 1
            = selectLoopRounds i j sel := by
          intro sel; unfold selectLoopRounds; omega
        have hnext1 := hnext selectedInputs
        simp only [hj, if_true]
        split
        · cases hc : cinChar cin with
          | none => rfl
          | some p =>
            obtain ⟨c, rest⟩ := p
            dsimp only
            split
            · split
              · rfl
              · rename_i hlen
                have hnil : selectedInputs = [] := by
                  cases selectedInputs with
                  | nil => rfl
                  | cons x xs => simp at hlen
                subst hnil
                have hr : selectLoopRounds i 0 ([] ++ [j]) + 1 ≤ selectLoopRounds i j [] := by
                  simp only [selectLoopRounds, List.nil_append, if_true]
                  simp only [List.cons_ne_nil, if_false]
                  omega
                exact ih fuel2 _ _ _ _ (by omega) (by omega)
            · exact ih fuel2 _ _ _ _ (by omega) (by omega)
        · exact ih fuel2 _ _ _ _ (by omega) (by omega)
      · simp only [hj, if_false]

theorem selectLoopRounds_start (i : Nat) : selectLoopRounds i 0 [] = 2 * i + 2 := by
  simp [selectLoopRounds]; omega

end FuelTheorems

section CatalogTheorems

variable {T : Type} [Zero T]

theorem getlineText_eq_takeWhile (delim : Char) (stream : List Char) :
    getlineText delim stream = stream.takeWhile (fun c => c != delim) := by
  induction stream with
  | nil => rfl
  | cons c rest ih =>
    by_cases hc : c = delim
    · simp [getlineText, hc]
    · simp [getlineText, hc, ih]

theorem readFlowName_eq (line : List Char) :
    readFlowName line = line.takeWhile (fun c => c != ',') := by
  rw [← getlineText_eq_takeWhile]
  cases line <;> rfl

theorem readNamesLoop_eq (lines : List (List Char)) :
    readNamesLoop lines = lines.map (fun line => line.takeWhile (fun c => c != ',')) := by
  induction lines with
  | nil => rfl
  | cons line rest ih => simp [readNamesLoop, readFlowName_eq, ih]

theorem getlineAll_no_delim (delim : Char) (stream : List Char) :
    ∀ x ∈ getlineAll delim stream, delim ∉ x := by
  induction stream with
  | nil => simp [getlineAll]
  | cons c rest ih =>
    by_cases hc : c = delim
    · intro x hx
      simp only [getlineAll, hc, if_true, List.mem_cons] at hx
      rcases hx with hx | hx
      · subst hx; simp
      · exact ih x hx
    · cases h : getlineAll delim rest with
      | nil =>
        intro x hx
        simp only [getlineAll, hc, if_false, h, List.mem_singleton] at hx
        subst hx
        simpa using fun e => hc e.symm
      | cons y more =>
        rw [h] at ih
        intro x hx
        simp only [getlineAll, hc, if_false, h, List.mem_cons] at hx
        rcases hx with hx | hx
        · subst hx
          have hy := ih y (List.mem_cons_self _ _)
          simp only [List.mem_cons, not_or]
          exact ⟨fun e => hc e.symm, hy⟩
        · exact ih x (List.mem_cons_of_mem _ hx)

theorem getlineAll_deleteLoop (flowNameToDelete : String) (lines : List (List Char))
    (h : ∀ line ∈ lines, '\n' ∉ line) :
    getlineAll '\n' (deleteLoop flowNameToDelete lines)
      = lines.filter (fun line => decide (readFlowName line ≠ flowNameToDelete.data)) := by
  induction lines with
  | nil => rfl
  | cons line rest ih =>
    have h1 := h line (List.mem_cons_self _ _)
    have h2 : ∀ l ∈ rest, '\n' ∉ l := fun l hl => h l (List.mem_cons_of_mem _ hl)
    by_cases hn : readFlowName line = flowNameToDelete.data
    · simp [deleteLoop, hn, ih h2]
    · rw [deleteLoop, if_neg hn, List.append_assoc, List.singleton_append,
        getlineAll_field '\n' _ _ h1, ih h2]
      simp [hn]

theorem deleteLoop_eq_flatten (flowNameToDelete : String) (lines : List (List Char)) :
    deleteLoop flowNameToDelete lines
      = ((lines.filter (fun line => decide (readFlowName line ≠ flowNameToDelete.data))).map
          (fun line => line ++ ['\n'])).flatten := by
  induction lines with
  | nil => rfl
  | cons line rest ih =>
    by_cases hn : readFlowName line = flowNameToDelete.data
    · simp [deleteLoop, hn, ih]
    · simp [deleteLoop, hn, ih]

theorem writeStepTypes_eq_flatten (steps : List (FlowStep T)) :
    writeStepTypes steps = (steps.map (fun step => step.getType.data ++ [','])).flatten := by
  induction steps with
  | nil => rfl
  | cons step rest ih => simp [writeStepTypes, ih]

theorem intercalate_append_sep (sep : List Char) (x : List Char) (xs : List (List Char)) :
    List.intercalate sep (x :: xs) ++ sep = ((x :: xs).map (fun y => y ++ sep)).flatten := by
  induction xs generalizing x with
  | nil => simp [List.intercalate]
  | cons y ys ih =>
    have h := ih y
    simp only [List.intercalate, List.intersperse, List.flatten_cons, List.map_cons,
      List.append_assoc] at h ⊢
    rw [h]

theorem catalogLine_eq (flow : Flow T) (timeInfo : Tm) :
    catalogLine flow timeInfo
      = List.intercalate [',']
          (flow.name.data :: strftime timeInfo
            :: flow.steps.map (fun step => step.getType.data)) ++ [','] ++ ['\n'] := by
  rw [intercalate_append_sep, catalogLine, writeStepTypes_eq_flatten]
  simp [List.map_map, Function.comp_def]

end CatalogTheorems

section CatalogClaims

variable {T : Type} [Zero T]

/-- C11 (amended): when the catalog opens, `saveFlowToCSV` appends to its content
exactly the text `name,timestamp,tag_1,...,tag_n`, one more comma and the newline,
so every tag, the last one too, is followed by a comma; the earlier content is
unchanged. When the name has no newline and the earlier content is empty or ends
with a newline, the lines of the catalog are the earlier lines followed by that one
line. When the catalog does not open, nothing is written. -/
theorem C11_save_appends_line_with_trailing_comma (flow : Flow T) (timeInfo : Tm)
    (csvFile : Option (List Char)) :
    saveFlowToCSV flow timeInfo true csvFile
        = some (csvFile.getD [] ++
            (List.intercalate [',']
              (flow.name.data :: strftime timeInfo
                :: flow.steps.map (fun step => step.getType.data)) ++ [','] ++ ['\n']))
    ∧ ('\n' ∉ flow.name.data →
        (csvFile.getD [] = [] ∨ (csvFile.getD []).getLast? = some '\n') →
        getlineAll '\n' ((saveFlowToCSV flow timeInfo true csvFile).getD [])
          = getlineAll '\n' (csvFile.getD []) ++
              [List.intercalate [',']
                (flow.name.data :: strftime timeInfo
                  :: flow.steps.map (fun step => step.getType.data)) ++ [',']])
    ∧ saveFlowToCSV flow timeInfo false csvFile = csvFile := by
  refine ⟨?_, ?_, ?_⟩
  · simp only [saveFlowToCSV, if_true, catalogLine_eq]
  · intro hnewline hterm
    have hline := getlineAll_catalogLine flow timeInfo hnewline
    have hbody : flow.name.data ++ [','] ++ strftime timeInfo ++ [','] ++ writeStepTypes flow.steps
        = List.intercalate [',']
            (flow.name.data :: strftime timeInfo
              :: flow.steps.map (fun step => step.getType.data)) ++ [','] := by
      rw [intercalate_append_sep, writeStepTypes_eq_flatten]
      simp [List.map_map, Function.comp_def]
    simp only [saveFlowToCSV, if_true, Option.getD_some]
    rw [getlineAll_append_of_terminated '\n' _ _ hterm, hline, hbody]
  · simp [saveFlowToCSV]

/-- Witness of C11 (amended): the example flow saved after one line for `B`. -/
theorem C11_save_appends_line_with_trailing_comma_witness :
    saveFlowToCSV exampleFlow exampleTime true (some "B,2024-03-08 09:00:00,EndStep,\n".data)
      = some ("B,2024-03-08 09:00:00,EndStep,\n".data ++
          "A,2024-03-09 14:05:07,TitleStep,NumberInputStep,NumberInputStep,CalculusStep,EndStep,\n".data) :=
  (C11_save_appends_line_with_trailing_comma exampleFlow exampleTime
    (some "B,2024-03-08 09:00:00,EndStep,\n".data)).1.trans (by decide)

/-- C11 (as stated, refuted): the flow `A` with the steps `[End]`, saved to a new
catalog, gives the line `A,2024-03-09 14:05:07,EndStep,` with a comma after the last
tag, not `A,2024-03-09 14:05:07,EndStep`. -/
theorem C11_counterexample_trailing_comma :
    saveFlowToCSV ({ name := "A", steps := [FlowStep.endStep] } : Flow ℚ) exampleTime true none
        = some "A,2024-03-09 14:05:07,EndStep,\n".data
    ∧ saveFlowToCSV ({ name := "A", steps := [FlowStep.endStep] } : Flow ℚ) exampleTime true none
        ≠ some "A,2024-03-09 14:05:07,EndStep\n".data := by
  refine ⟨by decide, by decide⟩

theorem FileSystem.read_after_replace (written : FileSystem) :
    ((written.remove FLOWS_CSV_FILE).rename "temp.csv" FLOWS_CSV_FILE).read FLOWS_CSV_FILE
      = written.read "temp.csv" := by
  have h : ("temp.csv" : String) ≠ FLOWS_CSV_FILE := by decide
  simp [FileSystem.rename, FileSystem.remove, h]

/-- C12: after a `deleteFlowFromCSV` that reports no failure the catalog exists and
its lines are the earlier lines whose text before the first comma is not the name,
unchanged and in their order; its content is these lines, each ended by a newline. -/
theorem C12_delete_keeps_other_lines (flowNameToDelete : String) (faults : DeleteFaults)
    (fs : FileSystem)
    (hsuccess : (deleteFlowFromCSV flowNameToDelete faults fs).2 = none) :
    ∃ content content' : List Char,
      fs.read FLOWS_CSV_FILE = some content
      ∧ (deleteFlowFromCSV flowNameToDelete faults fs).1.read FLOWS_CSV_FILE = some content'
      ∧ getlineAll '\n' content'
          = (getlineAll '\n' content).filter
              (fun line => decide (line.takeWhile (fun c => c != ',') ≠ flowNameToDelete.data))
      ∧ content'
          = (((getlineAll '\n' content).filter
              (fun line => decide (line.takeWhile (fun c => c != ',')
                ≠ flowNameToDelete.data))).map (fun line => line ++ ['\n'])).flatten := by
  unfold deleteFlowFromCSV at hsuccess ⊢
  cases hread : fs.read FLOWS_CSV_FILE with
  | none =>
    rw [hread] at hsuccess
    cases hopen : faults.openTemp <;> rw [hopen] at hsuccess <;> simp at hsuccess
  | some content =>
    rw [hread] at hsuccess
    cases hopen : faults.openTemp with
    | false => rw [hopen] at hsuccess; simp at hsuccess
    | true =>
      rw [hopen] at hsuccess
      cases hremove : faults.removeOk with
      | false => simp [hremove] at hsuccess
      | true =>
        cases hrename : faults.renameOk with
        | false => simp [hremove, hrename] at hsuccess
        | true =>
          have hfilter : (fun line : List Char => decide (readFlowName line ≠ flowNameToDelete.data))
              = (fun line => decide (line.takeWhile (fun c => c != ',')
                  ≠ flowNameToDelete.data)) := by
            funext line; rw [readFlowName_eq]
          refine ⟨content, deleteLoop flowNameToDelete (getlineAll '\n' content), rfl, ?_, ?_, ?_⟩
          · simp only [hremove, hrename, if_true]
            rw [FileSystem.read_after_replace]
            simp [FileSystem.write]
          · rw [getlineAll_deleteLoop _ _ (getlineAll_no_delim '\n' content), hfilter]
          · rw [deleteLoop_eq_flatten, hfilter]

/-- Witness of C12: deleting `A` from a catalog with two lines for `A` around a line
for `B` leaves the line for `B`. -/
theorem C12_delete_keeps_other_lines_witness :
    (deleteFlowFromCSV "A" { openTemp := true, removeOk := true, renameOk := true }
        exampleFiles).1.read FLOWS_CSV_FILE
      = some "B,2024-03-08 10:00:00,EndStep,\n".data
    ∧ ∃ content content' : List Char,
      exampleFiles.read FLOWS_CSV_FILE = some content
      ∧ (deleteFlowFromCSV "A" { openTemp := true, removeOk := true, renameOk := true }
          exampleFiles).1.read FLOWS_CSV_FILE = some content'
      ∧ getlineAll '\n' content'
          = (getlineAll '\n' content).filter
              (fun line => decide (line.takeWhile (fun c => c != ',') ≠ "A".data))
      ∧ content'
          = (((getlineAll '\n' content).filter
              (fun line => decide (line.takeWhile (fun c => c != ',')
                ≠ "A".data))).map (fun line => line ++ ['\n'])).flatten :=
  ⟨by decide,
   C12_delete_keeps_other_lines "A" { openTemp := true, removeOk := true, renameOk := true }
     exampleFiles (by decide)⟩

/-- C13 (amended): when `deleteFlowFromCSV` reports a failure to open the catalog or
the temporary file, or to remove the catalog, the catalog is as it was before the
call. When it reports the failure to rename, the catalog, which was there, no
longer exists, and the lines kept are in `temp.csv`. -/
theorem C13_delete_failure_catalog_state (flowNameToDelete : String) (faults : DeleteFaults)
    (fs : FileSystem) (message : String)
    (hfailure : (deleteFlowFromCSV flowNameToDelete faults fs).2 = some message) :
    (message ≠ deleteRenameMessage
      ∧ (deleteFlowFromCSV flowNameToDelete faults fs).1.read FLOWS_CSV_FILE
          = fs.read FLOWS_CSV_FILE)
    ∨ (message = deleteRenameMessage
      ∧ ∃ content : List Char, fs.read FLOWS_CSV_FILE = some content
        ∧ (deleteFlowFromCSV flowNameToDelete faults fs).1.read FLOWS_CSV_FILE = none
        ∧ (deleteFlowFromCSV flowNameToDelete faults fs).1.read "temp.csv"
            = some (deleteLoop flowNameToDelete (getlineAll '\n' content))) := by
  have htemp : FLOWS_CSV_FILE ≠ ("temp.csv" : String) := by decide
  have hopenMsg : deleteOpenMessage ≠ deleteRenameMessage := by decide
  have hremoveMsg : deleteRemoveMessage ≠ deleteRenameMessage := by decide
  unfold deleteFlowFromCSV at hfailure ⊢
  cases hread : fs.read FLOWS_CSV_FILE with
  | none =>
    rw [hread] at hfailure
    cases hopen : faults.openTemp <;> rw [hopen] at hfailure
    · simp only [Option.some.injEq] at hfailure
      subst hfailure
      exact Or.inl ⟨hopenMsg, by simp [hread]⟩
    · simp only [Option.some.injEq] at hfailure
      subst hfailure
      exact Or.inl ⟨hopenMsg, by simp [FileSystem.write, htemp, hread]⟩
  | some content =>
    rw [hread] at hfailure
    cases hopen : faults.openTemp with
    | false =>
      rw [hopen] at hfailure
      simp only [Option.some.injEq] at hfailure
      subst hfailure
      exact Or.inl ⟨hopenMsg, by simp [hread]⟩
    | true =>
      rw [hopen] at hfailure
      cases hremove : faults.removeOk with
      | false =>
        simp only [hremove, Bool.false_eq_true, if_false, Option.some.injEq] at hfailure
        subst hfailure
        exact Or.inl ⟨hremoveMsg, by simp [hremove, FileSystem.write, htemp, hread]⟩
      | true =>
        cases hrename : faults.renameOk with
        | true => simp [hremove, hrename] at hfailure
        | false =>
          simp only [hremove, hrename, if_true, Bool.false_eq_true, if_false,
            Option.some.injEq] at hfailure
          subst hfailure
          refine Or.inr ⟨rfl, content, rfl, ?_, ?_⟩
          · simp [hremove, hrename, FileSystem.remove]
          · simp [hremove, hrename, FileSystem.remove, FileSystem.write, htemp.symm]

/-- Witness of C13 (amended): the catalog cannot be removed; it keeps its content. -/
theorem C13_delete_failure_catalog_state_witness :
    (deleteRemoveMessage ≠ deleteRenameMessage
      ∧ (deleteFlowFromCSV "A" { openTemp := true, removeOk := false, renameOk := true }
          exampleFiles).1.read FLOWS_CSV_FILE = exampleFiles.read FLOWS_CSV_FILE)
    ∨ (deleteRemoveMessage = deleteRenameMessage
      ∧ ∃ content : List Char, exampleFiles.read FLOWS_CSV_FILE = some content
        ∧ (deleteFlowFromCSV "A" { openTemp := true, removeOk := false, renameOk := true }
            exampleFiles).1.read FLOWS_CSV_FILE = none
        ∧ (deleteFlowFromCSV "A" { openTemp := true, removeOk := false, renameOk := true }
            exampleFiles).1.read "temp.csv"
            = some (deleteLoop "A" (getlineAll '\n' content))) :=
  C13_delete_failure_catalog_state "A" { openTemp := true, removeOk := false, renameOk := true }
    exampleFiles deleteRemoveMessage (by decide)

/-- C13 (as stated, refuted): the catalog is removed and the temporary file cannot
be renamed. The failure is reported and the catalog, which held three lines, no
longer exists. -/
theorem C13_counterexample_rename_fails :
    exampleFiles.read FLOWS_CSV_FILE = some exampleCatalog
    ∧ (deleteFlowFromCSV "A" { openTemp := true, removeOk := true, renameOk := false }
        exampleFiles).2 = some deleteRenameMessage
    ∧ (deleteFlowFromCSV "A" { openTemp := true, removeOk := true, renameOk := false }
        exampleFiles).1.read FLOWS_CSV_FILE = none := by
  refine ⟨by decide, by decide, by decide⟩

/-- C14: `readExistingFlowNames` returns, for a catalog that opens, one name per
line in the order of the lines, the name of a line being its text before the first
comma (the whole line when it has no comma); for a catalog that does not open it
returns the empty list. -/
theorem C14_names_are_leading_fields :
    (∀ content : List Char,
      readExistingFlowNames (some content)
        = (getlineAll '\n' content).map (fun line => line.takeWhile (fun c => c != ',')))
    ∧ readExistingFlowNames none = [] := by
  refine ⟨fun content => ?_, rfl⟩
  simp only [readExistingFlowNames, readNamesLoop_eq]

end CatalogClaims

section OutputStepTheorems

theorem lastDotSuffix_isSuffix (name suffix : List Char)
    (h : lastDotSuffix name = some suffix) : suffix <:+ name := by
  induction name with
  | nil => simp [lastDotSuffix] at h
  | cons c rest ih =>
    unfold lastDotSuffix at h
    cases hrest : lastDotSuffix rest with
    | some found =>
      rw [hrest] at h
      simp only [Option.some.injEq] at h
      subst h
      exact (ih hrest).trans (List.suffix_cons c rest)
    | none =>
      rw [hrest] at h
      by_cases hc : c = '.'
      · simp only [hc, if_true, Option.some.injEq] at h
        subst h
        rw [hc]
      · simp [hc] at h

theorem lastDotSuffix_append (front back suffix : List Char)
    (h : lastDotSuffix back = some suffix) : lastDotSuffix (front ++ back) = some suffix := by
  induction front with
  | nil => exact h
  | cons c rest ih => simp [lastDotSuffix, ih]

/-- The name after the extension test ends with the extension; it is the name
itself when that already ends with `.txt`, and the name followed by `.txt`
otherwise. -/
theorem ensureExtension_txt (fileName : String) :
    ".txt".data <:+ (ensureExtension ".txt" fileName).data
    ∧ (".txt".data <:+ fileName.data → ensureExtension ".txt" fileName = fileName)
    ∧ (¬ ".txt".data <:+ fileName.data → ensureExtension ".txt" fileName = fileName ++ ".txt") := by
  unfold ensureExtension
  refine ⟨?_, ?_, ?_⟩
  · split
    · rename_i h
      exact lastDotSuffix_isSuffix _ _ h
    · rw [String.data_append]
      exact List.suffix_append _ _
  · intro h
    obtain ⟨front, hfront⟩ := h
    have hlast : lastDotSuffix fileName.data = some ".txt".data := by
      rw [← hfront]
      exact lastDotSuffix_append front _ _ (by decide)
    rw [if_pos hlast]
  · intro h
    split
    · rename_i hlast
      exact absurd (lastDotSuffix_isSuffix _ _ hlast) h
    · rfl

theorem conflictLoop_closed_failed (fs : FileSystem) (filename : String) (fuel suffix : Nat)
    (fileOpen : Bool) : conflictLoop fs filename fuel fileOpen true suffix = filename := by
  cases fuel <;> simp [conflictLoop]

/-- The bound of `conflictLoop` plays no part: from the start of
`handleFilenameConflict` every bound of three or more gives the same name. -/
theorem conflictLoop_fuel (fs : FileSystem) (filename : String) (fuel : Nat)
    (fileOpen : Bool) :
    conflictLoop fs filename (fuel + 3) fileOpen (!fileOpen) 0
      = conflictLoop fs filename 3 fileOpen (!fileOpen) 0 := by
  cases fileOpen
  · simp [conflictLoop]
  · simp only [conflictLoop, Bool.not_true, Bool.false_eq_true, if_false, Bool.not_false,
      if_true]

theorem prefix_zero (name : String) : toString (0 : Nat) ++ "_" ++ name = "0_" ++ name := by
  rfl

theorem prefix_one (name : String) : toString (0 + 1 : Nat) ++ "_" ++ name = "1_" ++ name := by
  rfl

/-- C15 (what the code does): `handleFilenameConflict` ensures the name ends in
`.txt` (the result is `base`); it keeps `base` when no such file exists, takes
`0_base` when that is free, else `1_base` when that is free; when `base`, `0_base`
and `1_base` all exist the loop ends, because the second `file.close()` fails and
sets `failbit`, and the name stays `base`, the name of an existing file. -/
theorem C15_conflict_resolution_stops_after_two (s : OutputStep) (fs : FileSystem) :
    ".txt".data <:+ (ensureExtension ".txt" s.filename).data
    ∧ ((fs.read (ensureExtension ".txt" s.filename)).isNone →
        (s.handleFilenameConflict fs).filename = ensureExtension ".txt" s.filename)
    ∧ ((fs.read (ensureExtension ".txt" s.filename)).isSome →
        (fs.read ("0_" ++ ensureExtension ".txt" s.filename)).isNone →
        (s.handleFilenameConflict fs).filename = "0_" ++ ensureExtension ".txt" s.filename)
    ∧ ((fs.read (ensureExtension ".txt" s.filename)).isSome →
        (fs.read ("0_" ++ ensureExtension ".txt" s.filename)).isSome →
        (fs.read ("1_" ++ ensureExtension ".txt" s.filename)).isNone →
        (s.handleFilenameConflict fs).filename = "1_" ++ ensureExtension ".txt" s.filename)
    ∧ ((fs.read (ensureExtension ".txt" s.filename)).isSome →
        (fs.read ("0_" ++ ensureExtension ".txt" s.filename)).isSome →
        (fs.read ("1_" ++ ensureExtension ".txt" s.filename)).isSome →
        (s.handleFilenameConflict fs).filename = ensureExtension ".txt" s.filename
        ∧ (fs.read (s.handleFilenameConflict fs).filename).isSome) := by
  refine ⟨(ensureExtension_txt s.filename).1, ?_, ?_, ?_, ?_⟩
  · intro h
    simp [OutputStep.handleFilenameConflict, conflictLoop, h]
  · intro h h0
    have hn : (fs.read (ensureExtension ".txt" s.filename)).isNone = false := by
      cases hr : fs.read (ensureExtension ".txt" s.filename) <;> simp [hr] at h ⊢
    simp only [OutputStep.handleFilenameConflict, conflictLoop, hn, Bool.false_eq_true,
      if_false, prefix_zero, h0, if_true]
  · intro h h0 h1
    have hn : (fs.read (ensureExtension ".txt" s.filename)).isNone = false := by
      cases hr : fs.read (ensureExtension ".txt" s.filename) <;> simp [hr] at h ⊢
    have hn0 : (fs.read ("0_" ++ ensureExtension ".txt" s.filename)).isNone = false := by
      cases hr : fs.read ("0_" ++ ensureExtension ".txt" s.filename) <;> simp [hr] at h0 ⊢
    simp only [OutputStep.handleFilenameConflict, conflictLoop, hn, Bool.false_eq_true,
      if_false, prefix_zero, prefix_one, hn0, h, Bool.not_true, h1, if_true]
  · intro h h0 h1
    have hn : (fs.read (ensureExtension ".txt" s.filename)).isNone = false := by
      cases hr : fs.read (ensureExtension ".txt" s.filename) <;> simp [hr] at h ⊢
    have hn0 : (fs.read ("0_" ++ ensureExtension ".txt" s.filename)).isNone = false := by
      cases hr : fs.read ("0_" ++ ensureExtension ".txt" s.filename) <;> simp [hr] at h0 ⊢
    have hn1 : (fs.read ("1_" ++ ensureExtension ".txt" s.filename)).isNone = false := by
      cases hr : fs.read ("1_" ++ ensureExtension ".txt" s.filename) <;> simp [hr] at h1 ⊢
    have hres : (s.handleFilenameConflict fs).filename = ensureExtension ".txt" s.filename := by
      simp only [OutputStep.handleFilenameConflict, conflictLoop, hn, Bool.false_eq_true,
        if_false, prefix_zero, prefix_one, hn0, hn1, h, Bool.not_true, Bool.not_false,
        if_true]
    exact ⟨hres, by rw [hres]; exact h⟩

/-- The code at the failing input of C15: with `report.txt`, `0_report.txt` and
`1_report.txt` existing, the target `report.txt` resolves to `report.txt`, not to
`2_report.txt`; with only the first two existing it resolves to `1_report.txt`. -/
theorem C15_conflict_resolution_stops_after_two_witness :
    ((OutputStep.handleFilenameConflict { filename := "report.txt" } exampleReports).filename
        = "report.txt"
      ∧ (exampleReports.read
          (OutputStep.handleFilenameConflict { filename := "report.txt" }
            exampleReports).filename).isSome
      ∧ (exampleReports.read "2_report.txt").isNone)
    ∧ (OutputStep.handleFilenameConflict { filename := "report.txt" } exampleTwoReports).filename
        = "1_report.txt" :=
  ⟨⟨((C15_conflict_resolution_stops_after_two { filename := "report.txt" }
        exampleReports).2.2.2.2 (by decide) (by decide) (by decide)).1,
     by decide, by decide⟩,
   (C15_conflict_resolution_stops_after_two { filename := "report.txt" }
      exampleTwoReports).2.2.2.1 (by decide) (by decide) (by decide)⟩

theorem getlineAll_writeOutputData (outputData : List String)
    (h : ∀ data ∈ outputData, '\n' ∉ data.data) :
    getlineAll '\n' (writeOutputData outputData) = outputData.map String.data := by
  induction outputData with
  | nil => rfl
  | cons data rest ih =>
    have h1 := h data (List.mem_cons_self _ _)
    have h2 : ∀ d ∈ rest, '\n' ∉ d.data := fun d hd => h d (List.mem_cons_of_mem _ hd)
    rw [writeOutputData, List.append_assoc, List.singleton_append,
      getlineAll_field '\n' _ _ h1, ih h2, List.map_cons]

theorem writeOutputData_eq_flatten (outputData : List String) :
    writeOutputData outputData
      = (outputData.map (fun data => data.data ++ ['\n'])).flatten := by
  induction outputData with
  | nil => rfl
  | cons data rest ih => simp [writeOutputData, ih]

/-- C16: when the output file opens, `OutputStep::execute` leaves under the resolved
name exactly the text: `Title of the output file: ` and the title, a newline,
`Description of the output file: ` and the description, a newline, two more
newlines, then every collected element followed by a newline. When no newline
occurs inside the title, the description and the elements, these are the title
line, the description line, two empty lines and one line per element in order. -/
theorem C16_report_text (s : OutputStep) (canWrite : String → Bool) (fs : FileSystem)
    (hopen : canWrite (s.handleFilenameConflict fs).filename = true) :
    (s.execute canWrite fs).fs.read (s.execute canWrite fs).step.filename
        = some (("Title of the output file: " ++ s.title ++ "\n").data
            ++ ("Description of the output file: " ++ s.description ++ "\n").data
            ++ ['\n', '\n']
            ++ (s.outputData.map (fun data => data.data ++ ['\n'])).flatten)
    ∧ ('\n' ∉ s.title.data → '\n' ∉ s.description.data →
        (∀ data ∈ s.outputData, '\n' ∉ data.data) →
        ∃ text : List Char,
          (s.execute canWrite fs).fs.read (s.execute canWrite fs).step.filename = some text
          ∧ getlineAll '\n' text
              = [("Title of the output file: " ++ s.title).data,
                 ("Description of the output file: " ++ s.description).data, [], []]
                ++ s.outputData.map String.data) := by
  have hread : (s.execute canWrite fs).fs.read (s.execute canWrite fs).step.filename
      = some (s.handleFilenameConflict fs).reportText := by
    simp [OutputStep.execute, hopen, FileSystem.write]
  have hfields : (s.handleFilenameConflict fs).reportText = s.reportText := rfl
  refine ⟨?_, ?_⟩
  · rw [hread, hfields, OutputStep.reportText, writeOutputData_eq_flatten]
    simp only [String.data_append, List.append_assoc]
  · intro ht hd hdata
    refine ⟨_, hread, ?_⟩
    have h1 : '\n' ∉ "Title of the output file: ".data ++ s.title.data := by
      simp only [List.mem_append, not_or]
      exact ⟨by decide, ht⟩
    have h2 : '\n' ∉ "Description of the output file: ".data ++ s.description.data := by
      simp only [List.mem_append, not_or]
      exact ⟨by decide, hd⟩
    have hshape : s.reportText
        = ("Title of the output file: ".data ++ s.title.data) ++ '\n' ::
            (("Description of the output file: ".data ++ s.description.data) ++ '\n' ::
              ([] ++ '\n' :: ([] ++ '\n' :: writeOutputData s.outputData))) := by
      simp only [OutputStep.reportText, List.append_assoc, List.singleton_append,
        List.nil_append]
      rfl
    rw [hfields, hshape, getlineAll_field '\n' _ _ h1, getlineAll_field '\n' _ _ h2,
      getlineAll_field '\n' [] _ (by simp), getlineAll_field '\n' [] _ (by simp),
      getlineAll_writeOutputData _ hdata]
    simp [String.data_append]

/-- Witness of C16: a report with title `T`, description `D` and the two collected
lines `x` and `y`, written to a directory with no file. -/
theorem C16_report_text_witness :
    ((OutputStep.execute
          { filename := "report", title := "T", description := "D", outputData := ["x", "y"] }
          (fun _ => true) { read := fun _ => none }).fs.read "report.txt")
      = some "Title of the output file: T\nDescription of the output file: D\n\n\nx\ny\n".data :=
  ((C16_report_text
      { filename := "report", title := "T", description := "D", outputData := ["x", "y"] }
      (fun _ => true) { read := fun _ => none } rfl).1).trans (by decide)

end OutputStepTheorems

section ExecutorInvariants

variable {T : Type} [LinearOrderedField T]

theorem map_getType_set (steps : List (FlowStep T)) (i : Nat) (old new : FlowStep T)
    (h : steps[i]? = some old) (ht : new.getType = old.getType) :
    (steps.set i new).map FlowStep.getType = steps.map FlowStep.getType := by
  induction steps generalizing i with
  | nil => rfl
  | cons step rest ih =>
    cases i with
    | zero =>
      simp only [List.getElem?_cons_zero, Option.some.injEq] at h
      subst h
      simp [ht]
    | succ i =>
      simp only [List.getElem?_cons_succ] at h
      simp [ih i h]

theorem map_getType_reset (steps : List (FlowStep T)) :
    (executeEndStep steps).map FlowStep.getType = steps.map FlowStep.getType := by
  simp only [executeEndStep, List.map_map]
  apply List.map_congr_left
  intro step _
  cases step <;> rfl

theorem textInputLoop_getType (n j : Nat) (steps : List (FlowStep T)) (verify : Bool)
    (cin : List Char) (result : List (FlowStep T) × Bool × List Char)
    (h : textInputLoop n j steps verify cin = some result) :
    result.1.map FlowStep.getType = steps.map FlowStep.getType := by
  induction n generalizing j steps verify cin with
  | zero =>
    simp only [textInputLoop, Option.some.injEq] at h
    subst h
    rfl
  | succ n ih =>
    unfold textInputLoop at h
    split at h
    · rename_i titleStep hj
      split at h
      · split at h
        · cases h
        · split at h
          · cases h
          · rw [ih _ _ _ _ h]
            exact map_getType_set steps j _ _ hj rfl
      · exact ih _ _ _ _ h
    · rename_i textStep hj
      split at h
      · split at h
        · cases h
        · split at h
          · cases h
          · rw [ih _ _ _ _ h]
            exact map_getType_set steps j _ _ hj rfl
      · exact ih _ _ _ _ h
    · exact ih _ _ _ _ h

theorem executeCalculusStep_getType (steps : List (FlowStep T)) (i : Nat)
    (calculusStep : CalculusStep) (cin : List Char) (run : CalculusRun T)
    (hi : steps[i]? = some (FlowStep.calculusStep calculusStep))
    (h : executeCalculusStep steps i calculusStep cin = some run) :
    run.steps.map FlowStep.getType = steps.map FlowStep.getType := by
  unfold executeCalculusStep at h
  split at h
  · cases h
  · split at h
    · split at h
      · cases h
      · split at h
        · cases h; rfl
        · split at h
          · cases h; rfl
          · split at h
            · cases h
            · cases h
              exact map_getType_set steps i _ _ hi rfl
    · cases h; rfl

/-- One round of the executor keeps the type of every step at its index. -/
theorem executeStep_getType (rt : Runtime T) (i : Nat) (st st' : ExecutorState T)
    (h : executeStep rt i st = some st') :
    st'.steps.map FlowStep.getType = st.steps.map FlowStep.getType := by
  unfold executeStep at h
  split at h
  · cases h; rfl
  · rename_i currentStep hi
    split at h
    · -- TitleStep
      unfold executeTitleStep at h
      split at h
      · cases h
      · split at h
        · cases h
          exact map_getType_set st.steps i _ _ hi rfl
        · cases h; rfl
    · -- TextStep
      unfold executeTextStep at h
      split at h
      · cases h
      · split at h
        · cases h
          exact map_getType_set st.steps i _ _ hi rfl
        · cases h; rfl
    · -- TextInputStep
      unfold executeTextInputStep at h
      split at h
      · cases h
      · split at h
        · split at h
          · cases h
          · rename_i hloop
            cases h
            exact textInputLoop_getType _ _ _ _ _ _ hloop
        · cases h; rfl
    · -- DisplayStep
      unfold executeDisplayStep at h
      split at h
      · cases h
      · split at h
        · split at h
          · cases h; rfl
          · cases h; rfl
        · cases h; rfl
    · -- NumberInputStep
      unfold executeNumberInputStep at h
      split at h
      · cases h
      · split at h
        · split at h
          · cases h
          · cases h
            exact map_getType_set st.steps i _ _ hi rfl
        · cases h; rfl
    · -- CalculusStep
      split at h
      · cases h
      · rename_i run hrun
        cases h
        exact executeCalculusStep_getType st.steps i _ _ run hi hrun
    · -- TextFileInputStep
      split at h
      · cases h
      · split at h
        · split at h
          · cases h
          · cases h
            exact map_getType_set st.steps i _ _ hi rfl
        · cases h; rfl
    · -- CSVFileInputStep
      split at h
      · cases h
      · split at h
        · split at h
          · cases h
          · cases h
            exact map_getType_set st.steps i _ _ hi rfl
        · cases h; rfl
    · -- OutputStep
      unfold executeOutputStep at h
      split at h
      · cases h
      · split at h
        · split at h
          · cases h
          · split at h
            · cases h
            · split at h
              · cases h
              · split at h
                · cases h
                · cases h; rfl
                · cases h
                  exact map_getType_set st.steps i _ _ hi rfl
        · cases h; rfl
    · -- EndStep
      cases h
      exact map_getType_reset st.steps

theorem executeLoop_getType (rt : Runtime T) (n i : Nat) (st st' : ExecutorState T)
    (h : executeLoop rt n i st = some st') :
    st'.steps.map FlowStep.getType = st.steps.map FlowStep.getType := by
  induction n generalizing i st with
  | zero =>
    simp only [executeLoop, Option.some.injEq] at h
    subst h
    rfl
  | succ n ih =>
    unfold executeLoop at h
    split at h
    · cases h
    · rename_i st1 hstep
      have h1 := executeStep_getType rt i st st1 hstep
      split at h
      · cases h
        exact h1
      · rw [ih _ _ h, h1]

end ExecutorInvariants

section ExecutorClaims

variable {T : Type} [LinearOrderedField T]

/-- C18 (the code at the failing input): in `[NumberInput, NumberInput, Calculus,
Display, End]` the operator enters 6 and 0 and has the Calculus step divide the
first by the second. The Calculus branch reports the error and goes on; the Display
branch then calls `performCalculation` outside any `try`, the exception reaches the
outer `catch`, and the run ends there: the End step is not processed and the steps
are not reset. -/
theorem C18_division_by_zero_ends_run_at_display :
    (executeFlow exampleRuntime exampleDivisionFlow "y\n6\ny\n0\ny\ny\nn\ny\n/\ny\n".data
        noFiles).map (fun st => (st.thrown, st.steps, st.out))
      = some
          (some "Division by zero detected. Skipping.",
           [FlowStep.numberInputStep { description := "Input a number", userInput := (6 : ℚ) },
            FlowStep.numberInputStep { description := "Input a number", userInput := (0 : ℚ) },
            FlowStep.calculusStep
              { operation := ArithmeticOperation.Division, numberInputs := [0, 1],
                operationSymbol := '/' },
            FlowStep.displayStep,
            FlowStep.endStep],
           ["1. NumberInputStep: Step to input a number.\nDescription of the user that created this step: Input a number",
            "Number entered is: 6",
            "2. NumberInputStep: Step to input a number.\nDescription of the user that created this step: Input a number",
            "Number entered is: 0",
            "3. CalculusStep: Step to perform arithmetic operations. (+, -, *, /, m (min), M (max))",
            "Choose two number inputs for the calculation:",
            "Error: Division by zero detected. Skipping.",
            "4. DisplayStep: Displaying the flow.",
            "Display of the input so far:",
            "Number Input 1: 6",
            "Number Input 2: 0",
            "Error: Division by zero detected. Skipping."]) := by
  decide

/-- C19: whatever the flow, the operator's input and the files, when
`executeFlow` returns, also after an exception, the flow has as many steps as before
and at every index a step of the same type as before. -/
theorem C19_run_keeps_steps_in_place (rt : Runtime T) (flow : Flow T) (cin : List Char)
    (fs : FileSystem) (st' : ExecutorState T)
    (h : executeFlow rt flow cin fs = some st') :
    st'.steps.length = flow.steps.length
    ∧ st'.steps.map FlowStep.getType = flow.steps.map FlowStep.getType
    ∧ ∀ k : Nat, (st'.steps[k]?).map FlowStep.getType
        = (flow.steps[k]?).map FlowStep.getType := by
  have hmap : st'.steps.map FlowStep.getType = flow.steps.map FlowStep.getType :=
    executeLoop_getType rt _ _ _ _ h
  refine ⟨?_, hmap, ?_⟩
  · have hlen := congrArg List.length hmap
    simpa using hlen
  · intro k
    have hk := congrArg (fun l => l[k]?) hmap
    simpa using hk

/-- Witness of C19: a complete run of `[NumberInput, NumberInput, Calculus, Display,
End]` with the numbers 6 and 3 divided. -/
theorem C19_run_keeps_steps_in_place_witness :
    ∃ st' : ExecutorState ℚ,
      executeFlow exampleRuntime exampleDivisionFlow "y\n6\ny\n3\ny\ny\nn\ny\n/\ny\n".data noFiles
        = some st'
      ∧ st'.steps.length = exampleDivisionFlow.steps.length
      ∧ st'.steps.map FlowStep.getType = exampleDivisionFlow.steps.map FlowStep.getType
      ∧ ∀ k : Nat, (st'.steps[k]?).map FlowStep.getType
          = (exampleDivisionFlow.steps[k]?).map FlowStep.getType := by
  have hsome : (executeFlow exampleRuntime exampleDivisionFlow
      "y\n6\ny\n3\ny\ny\nn\ny\n/\ny\n".data noFiles).isSome = true := by decide
  cases h : executeFlow exampleRuntime exampleDivisionFlow
      "y\n6\ny\n3\ny\ny\nn\ny\n/\ny\n".data noFiles with
  | none => rw [h] at hsome; cases hsome
  | some st' =>
    exact ⟨st', rfl, C19_run_keeps_steps_in_place exampleRuntime exampleDivisionFlow _ _ st' h⟩

/-- C20 (what the code does): when the file named by the operator does not open,
`TextFileInputStep::execute` and `CSVFileInputStep::execute` store the name and
leave the imported flag and the content as they were: a flag that was true stays
true. -/
theorem C20_failed_open_keeps_imported_flag :
    (∀ (s : TextFileInputStep) (cin : List Char) (fs : FileSystem) (out : List String)
        (run : FileInputRun TextFileInputStep),
        s.execute cin fs out = some run → fs.read run.step.fileName = none →
        run.step.fileImported = s.fileImported ∧ run.step.fileContent = s.fileContent)
    ∧ (∀ (s : CSVFileInputStep) (cin : List Char) (fs : FileSystem) (out : List String)
        (run : FileInputRun CSVFileInputStep),
        s.execute cin fs out = some run → fs.read run.step.fileName = none →
        run.step.fileImported = s.fileImported ∧ run.step.csvData = s.csvData) := by
  constructor
  · intro s cin fs out run h hnone
    unfold TextFileInputStep.execute at h
    split at h
    · cases h
    · split at h
      · rename_i content hread
        cases h
        rw [hread] at hnone
        cases hnone
      · cases h
        exact ⟨rfl, rfl⟩
  · intro s cin fs out run h hnone
    unfold CSVFileInputStep.execute at h
    split at h
    · cases h
    · split at h
      · rename_i content hread
        cases h
        rw [hread] at hnone
        cases hnone
      · cases h
        exact ⟨rfl, rfl⟩

/-- The code at the failing input of C20: a TextFileInput step that imported
`notes.txt` before is executed again and the operator names a file that does not
exist. The step takes the new name and stays imported, with the old content. -/
theorem C20_failed_open_keeps_imported_flag_witness :
    (TextFileInputStep.execute
        { description := "Input a .txt file", fileName := "notes.txt", fileImported := true,
          fileContent := "old\n" }
        "missing\n".data noFiles []).map (fun run => run.step)
      = some { description := "Input a .txt file", fileName := "missing.txt",
               fileImported := true, fileContent := "old\n" }
    ∧ noFiles.read "missing.txt" = none := by
  refine ⟨by decide, rfl⟩

end ExecutorClaims

section DisplayTheorems

variable {T : Type} [LinearOrderedField T]

theorem ne_nothing_of_prefix (front rest : String)
    (h : ¬ front.data <+: "Nothing to display.".data) :
    front ++ rest ≠ "Nothing to display." := by
  intro e
  apply h
  rw [← e, String.data_append]
  exact List.prefix_append _ _

theorem renderCsvRow_last (cells : List String) :
    (renderCsvRow cells).data = [] ∨ (renderCsvRow cells).data.getLast? = some ' ' := by
  induction cells with
  | nil => exact Or.inl rfl
  | cons cell rest ih =>
    right
    simp only [renderCsvRow, String.data_append, List.getLast?_append]
    rcases ih with h | h
    · rw [h]
      have : ", ".data.getLast? = some ' ' := by decide
      simp [this]
    · rw [h]
      simp

theorem renderCsvRow_ne_nothing (cells : List String) :
    renderCsvRow cells ≠ "Nothing to display." := by
  intro e
  rcases renderCsvRow_last cells with h | h
  · rw [e] at h
    exact absurd h (by decide)
  · rw [e] at h
    exact absurd h (by decide)

theorem displayCalculusText_ne_nothing (rt : Runtime T) (n : Nat) (calculusStep : CalculusStep)
    (operands : List (NumberInputStep T)) (rest : String) :
    displayCalculusText rt n calculusStep operands ++ rest ≠ "Nothing to display." := by
  simp only [displayCalculusText, String.append_assoc]
  exact ne_nothing_of_prefix _ _ (by decide)

theorem display_head (run : DisplayRun) (out new : List String) (verify : Bool)
    (previousStep : FlowStep T) (rest : List (FlowStep T))
    (hd : previousStep.isDisplayed = true)
    (hnew : ∀ line ∈ new, line ≠ "Nothing to display.")
    (h : ∃ extra : List String,
        run.out = out ++ new ++ extra
        ∧ (∀ line ∈ extra, line ≠ "Nothing to display.")
        ∧ (run.thrown = none → run.verify = (true || rest.any FlowStep.isDisplayed))
        ∧ (run.thrown ≠ none → rest.any FlowStep.isDisplayed = true)) :
    ∃ extra : List String,
      run.out = out ++ extra
      ∧ (∀ line ∈ extra, line ≠ "Nothing to display.")
      ∧ (run.thrown = none →
          run.verify = (verify || (previousStep :: rest).any FlowStep.isDisplayed))
      ∧ (run.thrown ≠ none → (previousStep :: rest).any FlowStep.isDisplayed = true) := by
  obtain ⟨extra, h1, h2, h3, _⟩ := h
  refine ⟨new ++ extra, by rw [h1, List.append_assoc], ?_, ?_, ?_⟩
  · intro line hl
    rcases List.mem_append.mp hl with hl | hl
    · exact hnew line hl
    · exact h2 line hl
  · intro ht
    rw [h3 ht]
    simp [hd]
  · intro _
    simp [hd]

theorem display_skip (run : DisplayRun) (out : List String) (verify : Bool)
    (previousStep : FlowStep T) (rest : List (FlowStep T))
    (hd : previousStep.isDisplayed = false)
    (h : ∃ extra : List String,
        run.out = out ++ extra
        ∧ (∀ line ∈ extra, line ≠ "Nothing to display.")
        ∧ (run.thrown = none → run.verify = (verify || rest.any FlowStep.isDisplayed))
        ∧ (run.thrown ≠ none → rest.any FlowStep.isDisplayed = true)) :
    ∃ extra : List String,
      run.out = out ++ extra
      ∧ (∀ line ∈ extra, line ≠ "Nothing to display.")
      ∧ (run.thrown = none →
          run.verify = (verify || (previousStep :: rest).any FlowStep.isDisplayed))
      ∧ (run.thrown ≠ none → (previousStep :: rest).any FlowStep.isDisplayed = true) := by
  obtain ⟨extra, h1, h2, h3, h4⟩ := h
  refine ⟨extra, h1, h2, ?_, ?_⟩
  · intro ht
    rw [h3 ht]
    simp [hd]
  · intro ht
    simp [hd, h4 ht]

theorem two_lines_ne_nothing (first second : String)
    (h1 : first ≠ "Nothing to display.") (h2 : second ≠ "Nothing to display.") :
    ∀ line ∈ [first, second], line ≠ "Nothing to display." := by
  intro line hl
  simp only [List.mem_cons, List.mem_singleton, List.not_mem_nil, or_false] at hl
  rcases hl with hl | hl
  · rw [hl]; exact h1
  · rw [hl]; exact h2

theorem one_line_ne_nothing (first : String) (h1 : first ≠ "Nothing to display.") :
    ∀ line ∈ [first], line ≠ "Nothing to display." := by
  intro line hl
  simp only [List.mem_singleton] at hl
  rw [hl]; exact h1

/-- The scan of the Display branch: the lines it adds are none of them the notice
`Nothing to display.`; `verify` ends true exactly when it started true or a step of
the six kinds was met; an exception comes only from a Calculus step. -/
theorem displayLoop_spec (rt : Runtime T) (steps : List (FlowStep T)) :
    ∀ (prior : List (FlowStep T)) (n : StepCounters) (verify : Bool) (out : List String),
      ∃ extra : List String,
        (displayLoop rt steps prior n verify out).out = out ++ extra
        ∧ (∀ line ∈ extra, line ≠ "Nothing to display.")
        ∧ ((displayLoop rt steps prior n verify out).thrown = none →
            (displayLoop rt steps prior n verify out).verify
              = (verify || prior.any FlowStep.isDisplayed))
        ∧ ((displayLoop rt steps prior n verify out).thrown ≠ none →
            prior.any FlowStep.isDisplayed = true) := by
  intro prior
  induction prior with
  | nil =>
    intro n verify out
    exact ⟨[], by simp [displayLoop], by simp, by simp [displayLoop], by simp [displayLoop]⟩
  | cons previousStep rest ih =>
    intro n verify out
    cases previousStep with
    | titleStep s =>
      simp only [displayLoop]
      refine display_head _ out _ verify _ rest rfl ?_ (ih _ true _)
      apply two_lines_ne_nothing
      · simp only [String.append_assoc]
        exact ne_nothing_of_prefix _ _ (by decide)
      · simp only [String.append_assoc]
        exact ne_nothing_of_prefix _ _ (by decide)
    | textStep s =>
      simp only [displayLoop]
      refine display_head _ out _ verify _ rest rfl ?_ (ih _ true _)
      apply two_lines_ne_nothing
      · simp only [String.append_assoc]
        exact ne_nothing_of_prefix _ _ (by decide)
      · simp only [String.append_assoc]
        exact ne_nothing_of_prefix _ _ (by decide)
    | numberInputStep s =>
      simp only [displayLoop]
      refine display_head _ out _ verify _ rest rfl ?_ (ih _ true _)
      apply one_line_ne_nothing
      simp only [String.append_assoc]
      exact ne_nothing_of_prefix _ _ (by decide)
    | calculusStep s =>
      cases hcalc : performCalculation s.operation (derefNumberInputs steps s.numberInputs) with
      | error what =>
        refine ⟨[], ?_, by simp, ?_, ?_⟩
        · simp [displayLoop, hcalc]
        · simp [displayLoop, hcalc]
        · intro _; simp [FlowStep.isDisplayed]
      | ok result =>
        simp only [displayLoop, hcalc]
        refine display_head _ out _ verify _ rest rfl ?_ (ih _ true _)
        apply one_line_ne_nothing
        exact displayCalculusText_ne_nothing _ _ _ _ _
    | textFileInputStep s =>
      cases himp : s.fileImported with
      | true =>
        simp only [displayLoop, himp, if_true]
        refine display_head _ out _ verify _ rest rfl ?_ (ih _ true _)
        apply two_lines_ne_nothing
        · simp only [String.append_assoc]
          exact ne_nothing_of_prefix _ _ (by decide)
        · simp only [String.append_assoc]
          exact ne_nothing_of_prefix _ _ (by decide)
      | false =>
        simp only [displayLoop, himp, Bool.false_eq_true, if_false]
        refine display_head _ out _ verify _ rest rfl ?_ (ih _ true _)
        apply one_line_ne_nothing
        simp only [String.append_assoc]
        exact ne_nothing_of_prefix _ _ (by decide)
    | csvFileInputStep s =>
      cases himp : s.fileImported with
      | true =>
        simp only [displayLoop, himp, if_true, List.append_assoc]
        refine display_head _ out
          (["CSV File " ++ toString (n.csvFile + 1) ++ " name: " ++ s.fileName,
            "CSV File " ++ toString (n.csvFile + 1) ++ " content: \n"]
            ++ s.csvData.map renderCsvRow) verify _ rest rfl ?_ (ih _ true _)
        intro line hl
        simp only [List.cons_append, List.nil_append, List.mem_cons, List.mem_map] at hl
        rcases hl with hl | hl | ⟨cells, _, hl⟩
        · subst hl; simp only [String.append_assoc]
          exact ne_nothing_of_prefix _ _ (by decide)
        · subst hl; simp only [String.append_assoc]
          exact ne_nothing_of_prefix _ _ (by decide)
        · subst hl; exact renderCsvRow_ne_nothing cells
      | false =>
        simp only [displayLoop, himp, Bool.false_eq_true, if_false]
        refine display_head _ out _ verify _ rest rfl ?_ (ih _ true _)
        apply one_line_ne_nothing
        simp only [String.append_assoc]
        exact ne_nothing_of_prefix _ _ (by decide)
    | textInputStep s =>
      simp only [displayLoop]
      exact display_skip _ out verify _ rest rfl (ih n verify out)
    | displayStep =>
      simp only [displayLoop]
      exact display_skip _ out verify _ rest rfl (ih n verify out)
    | outputStep s =>
      simp only [displayLoop]
      exact display_skip _ out verify _ rest rfl (ih n verify out)
    | endStep =>
      simp only [displayLoop]
      exact display_skip _ out verify _ rest rfl (ih n verify out)

end DisplayTheorems

section DisplayClaims

variable {T : Type} [LinearOrderedField T]

/-- C17: when the operator accepts a Display step at index `i`, the branch writes,
after the heading, the notice `Nothing to display.` exactly when no step before
index `i` is of one of the six kinds; and when the only step before it is a Title
step it writes the two lines `Title 1: ` with the title and `Subtitle 1: ` with the
subtitle, and nothing else. -/
theorem C17_nothing_to_display_iff_no_displayed_step (rt : Runtime T) (i : Nat)
    (st : ExecutorState T) (completeStep : Char) (cin0 : List Char)
    (hgate : cinChar st.cin = some (completeStep, cin0))
    (hyes : isYes completeStep = true) :
    ∃ (st' : ExecutorState T) (lines : List String),
      executeDisplayStep rt i st = some st'
      ∧ st'.out = st.out ++ ["Display of the input so far:"] ++ lines
      ∧ ("Nothing to display." ∈ lines ↔
          ∀ step ∈ st.steps.take i, step.isDisplayed = false)
      ∧ (∀ titleStep : TitleStep, st.steps.take i = [FlowStep.titleStep titleStep] →
          lines = ["Title 1: " ++ titleStep.title, "Subtitle 1: " ++ titleStep.subtitle]) := by
  obtain ⟨extra, h1, h2, h3, h4⟩ :=
    displayLoop_spec rt st.steps (st.steps.take i) StepCounters.zero false
      (st.out ++ ["Display of the input so far:"])
  have hall : (∀ step ∈ st.steps.take i, step.isDisplayed = false)
      ↔ (st.steps.take i).any FlowStep.isDisplayed = false := by
    rw [← Bool.not_eq_true, List.any_eq_true]
    constructor
    · rintro h ⟨step, hs, hd⟩
      rw [h step hs] at hd
      cases hd
    · intro h step hs
      cases hd : step.isDisplayed
      · rfl
      · exact absurd ⟨step, hs, hd⟩ h
  have htitle : ∀ titleStep : TitleStep, st.steps.take i = [FlowStep.titleStep titleStep] →
      extra = ["Title 1: " ++ titleStep.title, "Subtitle 1: " ++ titleStep.subtitle]
      ∧ (displayLoop rt st.steps (st.steps.take i) StepCounters.zero false
          (st.out ++ ["Display of the input so far:"])).verify = true
      ∧ (displayLoop rt st.steps (st.steps.take i) StepCounters.zero false
          (st.out ++ ["Display of the input so far:"])).thrown = none := by
    intro titleStep ht
    have hloop : displayLoop rt st.steps (st.steps.take i) StepCounters.zero false
        (st.out ++ ["Display of the input so far:"])
        = { out := st.out ++ ["Display of the input so far:"]
              ++ ["Title " ++ toString (0 + 1) ++ ": " ++ titleStep.title,
                  "Subtitle " ++ toString (0 + 1) ++ ": " ++ titleStep.subtitle],
            verify := true, thrown := none } := by
      rw [ht]; rfl
    rw [hloop] at h1
    refine ⟨?_, by rw [hloop], by rw [hloop]⟩
    have hcancel := List.append_cancel_left h1
    rw [← hcancel]
    have e1 : "Title " ++ toString (0 + 1) ++ ": " = "Title 1: " := by decide
    have e2 : "Subtitle " ++ toString (0 + 1) ++ ": " = "Subtitle 1: " := by decide
    rw [e1, e2]
  cases hrun : displayLoop rt st.steps (st.steps.take i) StepCounters.zero false
      (st.out ++ ["Display of the input so far:"]) with
  | mk out verify thrown =>
    rw [hrun] at h1 h3 h4 htitle
    simp only at h1 h3 h4 htitle
    cases thrown with
    | some what =>
      refine ⟨{ st with cin := ignoreLine cin0, out := out, thrown := some what }, extra,
        ?_, h1, ?_, ?_⟩
      · simp only [executeDisplayStep, hgate, hyes, if_true, hrun]
      · rw [hall, h4 (by simp)]
        constructor
        · intro hmem
          exact absurd rfl (h2 _ hmem)
        · intro hf
          cases hf
      · intro titleStep ht
        have := (htitle titleStep ht).2.2
        cases this
    | none =>
      refine ⟨{ st with cin := ignoreLine cin0,
                        out := out ++ (if verify then [] else ["Nothing to display."]) },
        extra ++ (if verify then [] else ["Nothing to display."]), ?_, ?_, ?_, ?_⟩
      · simp only [executeDisplayStep, hgate, hyes, if_true, hrun]
      · simp only [h1, List.append_assoc]
      · have hv := h3 rfl
        simp only [Bool.false_or] at hv
        rw [hall, ← hv]
        cases verify with
        | true =>
          simp only [if_true, List.append_nil]
          constructor
          · intro hmem
            exact absurd rfl (h2 _ hmem)
          · intro hf
            cases hf
        | false => simp
      · intro titleStep ht
        obtain ⟨he, hv, _⟩ := htitle titleStep ht
        rw [he, hv]
        simp

/-- Witness of C17: a Display step at index 1 after a completed Title step with
title `Report` and subtitle `Week 1`. -/
theorem C17_nothing_to_display_iff_no_displayed_step_witness :
    ∃ (st' : ExecutorState ℚ) (lines : List String),
      executeDisplayStep exampleRuntime 1 exampleDisplayState = some st'
      ∧ st'.out = exampleDisplayState.out ++ ["Display of the input so far:"] ++ lines
      ∧ ("Nothing to display." ∈ lines ↔
          ∀ step ∈ exampleDisplayState.steps.take 1, step.isDisplayed = false)
      ∧ (∀ titleStep : TitleStep,
          exampleDisplayState.steps.take 1 = [FlowStep.titleStep titleStep] →
          lines = ["Title 1: " ++ titleStep.title, "Subtitle 1: " ++ titleStep.subtitle]) :=
  C17_nothing_to_display_iff_no_displayed_step exampleRuntime 1 exampleDisplayState 'y'
    "\n".data (by decide) (by decide)

end DisplayClaims

section ExecutorFuelTheorems

variable {T : Type} [LinearOrderedField T]

theorem getlineRest_length (delim : Char) (stream : List Char) :
    (getlineRest delim stream).length ≤ stream.length := by
  induction stream with
  | nil => simp [getlineRest]
  | cons c rest ih =>
    unfold getlineRest
    split
    · simp
    · exact Nat.le_succ_of_le ih

theorem getline_length (delim : Char) (stream text rest : List Char)
    (h : getline delim stream = some (text, rest)) : rest.length < stream.length := by
  cases stream with
  | nil => simp [getline] at h
  | cons c cs =>
    simp only [getline, Option.some.injEq, Prod.mk.injEq] at h
    rw [← h.2, getlineRest]
    split
    · simp
    · exact Nat.lt_succ_of_le (getlineRest_length delim cs)

theorem ignoreLine_length (cin : List Char) : (ignoreLine cin).length ≤ cin.length := by
  induction cin with
  | nil => simp [ignoreLine]
  | cons c rest ih =>
    unfold ignoreLine
    split
    · simp
    · exact Nat.le_succ_of_le ih

/-- The bound of `fileNameLoop` is never the reason for `none`. -/
theorem fileNameLoop_fuel (extension invalidMessage : String) (fuel1 fuel2 : Nat)
    (cin : List Char) (out : List String)
    (h1 : cin.length < fuel1) (h2 : cin.length < fuel2) :
    fileNameLoop extension invalidMessage fuel1 cin out
      = fileNameLoop extension invalidMessage fuel2 cin out := by
  induction fuel1 generalizing fuel2 cin out with
  | zero => omega
  | succ fuel1 ih =>
    cases fuel2 with
    | zero => omega
    | succ fuel2 =>
      unfold fileNameLoop
      cases hg : getline '\n' cin with
      | none => rfl
      | some p =>
        obtain ⟨fileName, cin1⟩ := p
        have hlen := getline_length '\n' cin fileName cin1 hg
        dsimp only
        split
        · rfl
        · exact ih fuel2 _ _ (by omega) (by omega)

/-- The bound of `outputFilenameLoop` is never the reason for `none`. -/
theorem outputFilenameLoop_fuel (fuel1 fuel2 : Nat) (cin : List Char) (out : List String)
    (h1 : cin.length < fuel1) (h2 : cin.length < fuel2) :
    outputFilenameLoop fuel1 cin out = outputFilenameLoop fuel2 cin out := by
  induction fuel1 generalizing fuel2 cin out with
  | zero => omega
  | succ fuel1 ih =>
    cases fuel2 with
    | zero => omega
    | succ fuel2 =>
      unfold outputFilenameLoop
      cases hg : getline '\n' cin with
      | none => rfl
      | some p =>
        obtain ⟨fileName, cin1⟩ := p
        have hlen := getline_length '\n' cin fileName cin1 hg
        have hign := ignoreLine_length cin1
        dsimp only
        split
        · rfl
        · exact ih fuel2 _ _ (by omega) (by omega)

end ExecutorFuelTheorems

/-- A run of `numberInputLoop` that ends within one bound ends the same way within
any larger one. -/
theorem numberInputLoop_fuel {T : Type} (rt : Runtime T) (fuel : Nat) (cin : List Char)
    (out : List String) (result : T × List Char × List String)
    (h : numberInputLoop rt fuel cin out = some result) :
    numberInputLoop rt (fuel + 1) cin out = some result := by
  induction fuel generalizing cin out with
  | zero => simp [numberInputLoop] at h
  | succ fuel ih =>
    unfold numberInputLoop at h ⊢
    split at h
    · exact h
    · exact ih _ _ h

section CalculusClaims

variable {T : Type} [LinearOrderedField T]

theorem getElem?_set_self_of_some {α : Type} (l : List α) (i : Nat) (old new : α)
    (h : l[i]? = some old) : (l.set i new)[i]? = some new := by
  have hi : i < l.length := by
    rcases Nat.lt_or_ge i l.length with hlt | hge
    · exact hlt
    · rw [List.getElem?_eq_none hge] at h
      cases h
  simp [List.getElem?_set, hi]

theorem getElem?_set_of_ne {α : Type} (l : List α) (i k : Nat) (new : α) (h : k ≠ i) :
    (l.set i new)[k]? = l[k]? := by
  simp [List.getElem?_set, Ne.symm h]

/-- C21: whatever the flow and the operator's input, when the Calculus branch at
index `i` returns, the operand list of the step is the one it had followed by the
references acquired in this execution, and every acquired reference is an index
strictly below `i` at which the flow, before and after the branch, has a NumberInput
step. -/
theorem C21_acquired_operands_are_earlier_number_inputs (steps : List (FlowStep T)) (i : Nat)
    (calculusStep : CalculusStep) (cin : List Char) (run : CalculusRun T)
    (hstep : steps[i]? = some (FlowStep.calculusStep calculusStep))
    (h : executeCalculusStep steps i calculusStep cin = some run) :
    ∃ (stored : CalculusStep) (acquired : List Nat),
      run.steps[i]? = some (FlowStep.calculusStep stored)
      ∧ stored.numberInputs = calculusStep.numberInputs ++ acquired
      ∧ ∀ x ∈ acquired, x < i
          ∧ ∃ n : NumberInputStep T, steps[x]? = some (FlowStep.numberInputStep n)
              ∧ run.steps[x]? = some (FlowStep.numberInputStep n) := by
  unfold executeCalculusStep at h
  split at h
  · cases h
  · split at h
    · split at h
      · cases h
      · rename_i selectedInputs verify cin2 hselect
        split at h
        · cases h
          exact ⟨calculusStep, [], hstep, by simp, by simp⟩
        · split at h
          · cases h
            exact ⟨calculusStep, [], hstep, by simp, by simp⟩
          · split at h
            · cases h
            · rename_i operationSymbol cin3 hsymbol
              cases h
              obtain ⟨extra, h1, h2, _⟩ := selectLoop_spec steps i _ _ _ _ _ _ hselect
              simp only [List.nil_append] at h1
              subst h1
              have hall : ∀ x ∈ selectedInputs,
                  ∃ n, steps[x]? = some (FlowStep.numberInputStep n) :=
                fun x hx => (h2 x hx).2
              refine ⟨_, selectedInputs, getElem?_set_self_of_some steps i _ _ hstep, ?_, ?_⟩
              · rw [setOperationBySymbol_numberInputs, addSelectedInputs_eq steps _ _ hall]
              · intro x hx
                obtain ⟨hlt, n, hn⟩ := h2 x hx
                refine ⟨hlt, n, hn, ?_⟩
                rw [getElem?_set_of_ne steps i x _ (Nat.ne_of_lt hlt)]
                exact hn
    · cases h
      exact ⟨calculusStep, [], hstep, by simp, by simp⟩

/-- Witness of C21 on the flow `[NumberInput 5, NumberInput 3, Calculus]` with step 2
selected before step 1. -/
theorem C21_acquired_operands_are_earlier_number_inputs_witness :
    ∃ (stored : CalculusStep) (acquired : List Nat),
      (exampleSubtractionSteps.set 2 (FlowStep.calculusStep
          { operation := ArithmeticOperation.Subtraction, numberInputs := [1, 0],
            operationSymbol := '-' }))[2]? = some (FlowStep.calculusStep stored)
      ∧ stored.numberInputs = [] ++ acquired
      ∧ ∀ x ∈ acquired, x < 2
          ∧ ∃ n : NumberInputStep ℚ,
              exampleSubtractionSteps[x]? = some (FlowStep.numberInputStep n)
              ∧ (exampleSubtractionSteps.set 2 (FlowStep.calculusStep
                  { operation := ArithmeticOperation.Subtraction, numberInputs := [1, 0],
                    operationSymbol := '-' }))[x]? = some (FlowStep.numberInputStep n) :=
  C21_acquired_operands_are_earlier_number_inputs exampleSubtractionSteps 2
    { operation := ArithmeticOperation.Addition, numberInputs := [], operationSymbol := '+' }
    "y\nn\ny\ny\n-\n".data
    { steps := exampleSubtractionSteps.set 2 (FlowStep.calculusStep
        { operation := ArithmeticOperation.Subtraction, numberInputs := [1, 0],
          operationSymbol := '-' }),
      cin := [],
      report := some (Except.ok (3 - 5)) }
    rfl rfl

/-- C22 (what the code does): when the Calculus branch returns having passed both
checks of the selection (the step was accepted and neither of the two selection
errors was reported), the step's operand list is the one it had before followed by
the two selected references: its length is the former length plus two. -/
theorem C22_selection_appends_two_operands (steps : List (FlowStep T)) (i : Nat)
    (calculusStep : CalculusStep) (cin : List Char) (run : CalculusRun T)
    (h : executeCalculusStep steps i calculusStep cin = some run)
    (hdone : run.report ≠ none)
    (hfound : run.report ≠ some (Except.error noNumberInputMessage))
    (hpair : run.report ≠ some (Except.error invalidSelectionMessage)) :
    ∃ (stored : CalculusStep) (a b : Nat),
      run.steps = steps.set i (FlowStep.calculusStep stored)
      ∧ stored.numberInputs = calculusStep.numberInputs ++ [a, b]
      ∧ stored.numberInputs.length = calculusStep.numberInputs.length + 2 := by
  unfold executeCalculusStep at h
  split at h
  · cases h
  · split at h
    · split at h
      · cases h
      · rename_i selectedInputs verify cin2 hselect
        split at h
        · cases h
          exact absurd rfl hfound
        · split at h
          · cases h
            exact absurd rfl hpair
          · rename_i hlen
            split at h
            · cases h
            · cases h
              obtain ⟨extra, h1, h2, _⟩ := selectLoop_spec steps i _ _ _ _ _ _ hselect
              simp only [List.nil_append] at h1
              subst h1
              have hall : ∀ x ∈ selectedInputs,
                  ∃ n, steps[x]? = some (FlowStep.numberInputStep n) :=
                fun x hx => (h2 x hx).2
              have hlen2 : selectedInputs.length = 2 := by
                simpa using hlen
              obtain ⟨a, b, hab⟩ : ∃ a b, selectedInputs = [a, b] := by
                match selectedInputs, hlen2 with
                | [a, b], _ => exact ⟨a, b, rfl⟩
              subst hab
              refine ⟨_, a, b, rfl, ?_, ?_⟩
              · rw [setOperationBySymbol_numberInputs, addSelectedInputs_eq steps _ _ hall]
              · rw [setOperationBySymbol_numberInputs, addSelectedInputs_eq steps _ _ hall]
                simp
    · cases h
      exact absurd rfl hdone

/-- The code at the failing input of C22: the Calculus step of
`exampleAbortedSteps` holds the operands `[0, 1]` of the run that was ended by the
exception; executed again with step 1 and step 2 selected, it holds four. -/
theorem C22_selection_appends_two_operands_witness :
    ∃ (stored : CalculusStep) (a b : Nat),
      exampleAbortedSteps.set 2 (FlowStep.calculusStep
          { operation := ArithmeticOperation.Addition, numberInputs := [0, 1, 0, 1],
            operationSymbol := '+' })
        = exampleAbortedSteps.set 2 (FlowStep.calculusStep stored)
      ∧ stored.numberInputs = [0, 1] ++ [a, b]
      ∧ stored.numberInputs.length = [0, 1].length + 2 :=
  C22_selection_appends_two_operands exampleAbortedSteps 2
    { operation := ArithmeticOperation.Division, numberInputs := [0, 1],
      operationSymbol := '/' }
    "y\ny\nn\ny\n+\n".data
    { steps := exampleAbortedSteps.set 2 (FlowStep.calculusStep
        { operation := ArithmeticOperation.Addition, numberInputs := [0, 1, 0, 1],
          operationSymbol := '+' }),
      cin := [],
      report := some (Except.ok (0 + 6 + 0 + 6 + 0)) }
    rfl (by simp) (by simp) (by simp)

/-- C22 (as stated, refuted by two runs of one flow object): the flow
`[NumberInput, NumberInput, Calculus, Display, End]` is run with 6 divided by 0, which
ends the run at the Display step, before the End step; the same flow is then run
again with the numbers 6 and 3 and the symbol `+`. In the second run the Calculus
step reports 18 and the Display step prints `6 + 3 + 6 + 3 = 18`; when the second run
arrives at its End step, the Calculus step holds four operands. -/
theorem C22_counterexample_second_run :
    ((executeFlow exampleRuntime exampleDivisionFlow "y\n6\ny\n0\ny\ny\nn\ny\n/\ny\n".data
        noFiles).bind
      (fun st => executeFlow exampleRuntime
        { name := exampleDivisionFlow.name, steps := st.steps }
        "y\n6\ny\n3\ny\ny\nn\ny\n+\ny\n".data noFiles)).map
        (fun st => (st.thrown, st.out.drop 4))
      = some
          (none,
           ["3. CalculusStep: Step to perform arithmetic operations. (+, -, *, /, m (min), M (max))",
            "Choose two number inputs for the calculation:",
            "Calculation Result: 18",
            "4. DisplayStep: Displaying the flow.",
            "Display of the input so far:",
            "Number Input 1: 6",
            "Number Input 2: 3",
            "Calculus Step 1: 6 + 3 + 6 + 3 = 18",
            "5. EndStep: End of the flow.",
            "Flow Completed!"])
    ∧ ((executeFlow exampleRuntime exampleDivisionFlow "y\n6\ny\n0\ny\ny\nn\ny\n/\ny\n".data
        noFiles).bind
      (fun st => executeLoop exampleRuntime 4 0
        { steps := st.steps, cin := "y\n6\ny\n3\ny\ny\nn\ny\n+\ny\n".data, fs := noFiles,
          outputData := [], out := [], thrown := none })).map
        (fun st => st.steps[2]?)
      = some
          (some (FlowStep.calculusStep
            { operation := ArithmeticOperation.Addition, numberInputs := [0, 1, 0, 1],
              operationSymbol := '+' })) := by
  constructor
  · decide!
  · decide

theorem selectLoop_no_number_input (steps : List (FlowStep T)) (i : Nat) :
    ∀ (fuel j : Nat) (selectedInputs : List Nat) (verify : Bool) (cin : List Char),
      i - j < fuel →
      (∀ k, j ≤ k → k < i → ∀ n : NumberInputStep T,
        steps[k]? ≠ some (FlowStep.numberInputStep n)) →
      selectLoop steps i fuel j selectedInputs verify cin
        = some (selectedInputs, verify, cin) := by
  intro fuel
  induction fuel with
  | zero => intro j sel v cin h; omega
  | succ fuel ih =>
    intro j sel v cin h hno
    unfold selectLoop
    by_cases hj : j < i
    · simp only [hj, if_true]
      split
      · rename_i n hn
        exact absurd hn (hno j (Nat.le_refl j) hj n)
      · exact ih (j + 1) sel v cin (by omega) (fun k hk hki => hno k (by omega) hki)
    · simp only [hj, if_false]

/-- C23: the operator accepts a Calculus step at index `i` and either no step
before index `i` is a NumberInput step or the selection ends with fewer than two
selected steps. The branch then reports one of the two selection errors and no
result; the flow, and with it the operand list, the operation and the symbol of the
Calculus step, is as before; no exception leaves the branch, and the executor goes
on with index `i + 1`. -/
theorem C23_cancelled_calculation_changes_nothing (rt : Runtime T) (i : Nat)
    (st : ExecutorState T) (calculusStep : CalculusStep) (completeStep : Char)
    (cin0 : List Char)
    (hstep : st.steps[i]? = some (FlowStep.calculusStep calculusStep))
    (hthrown : st.thrown = none)
    (hgate : cinChar st.cin = some (completeStep, cin0))
    (hyes : isYes completeStep = true)
    (hfew : (∀ k, k < i → ∀ n : NumberInputStep T,
              st.steps[k]? ≠ some (FlowStep.numberInputStep n))
      ∨ ∃ (selectedInputs : List Nat) (verify : Bool) (cin2 : List Char),
          selectNumberInputs st.steps i (ignoreLine cin0)
            = some (selectedInputs, verify, cin2)
          ∧ selectedInputs.length < 2) :
    ∃ (st1 : ExecutorState T) (what : String),
      executeStep rt i st = some st1
      ∧ (what = noNumberInputMessage ∨ what = invalidSelectionMessage)
      ∧ st1.out = st.out ++ [stepHeader i (FlowStep.calculusStep calculusStep : FlowStep T),
            "Choose two number inputs for the calculation:", "Error: " ++ what]
      ∧ st1.steps = st.steps
      ∧ st1.steps[i]? = some (FlowStep.calculusStep calculusStep)
      ∧ st1.thrown = none
      ∧ ∀ n : Nat, executeLoop rt (n + 1) i st = executeLoop rt n (i + 1) st1 := by
  have hsel : ∃ (selectedInputs : List Nat) (verify : Bool) (cin2 : List Char),
      selectNumberInputs st.steps i (ignoreLine cin0) = some (selectedInputs, verify, cin2)
      ∧ (verify = false ∨ selectedInputs.length ≠ 2) := by
    rcases hfew with hno | ⟨sel, verify, cin2, hs, hlen⟩
    · refine ⟨[], false, ignoreLine cin0, ?_, Or.inl rfl⟩
      exact selectLoop_no_number_input st.steps i _ 0 [] false _ (by omega)
        (fun k _ hki => hno k hki)
    · exact ⟨sel, verify, cin2, hs, Or.inr (by omega)⟩
  obtain ⟨sel, verify, cin2, hs, hbad⟩ := hsel
  have hrun : ∃ what : String,
      (what = noNumberInputMessage ∨ what = invalidSelectionMessage)
      ∧ executeCalculusStep st.steps i calculusStep st.cin
          = some { steps := st.steps, cin := cin2, report := some (Except.error what) } := by
    cases verify with
    | false =>
      exact ⟨noNumberInputMessage, Or.inl rfl, by
        simp [executeCalculusStep, hgate, hyes, hs]⟩
    | true =>
      rcases hbad with hv | hlen
      · cases hv
      · exact ⟨invalidSelectionMessage, Or.inr rfl, by
          simp [executeCalculusStep, hgate, hyes, hs, hlen]⟩
  obtain ⟨what, hwhat, hrun⟩ := hrun
  have hexec : executeStep rt i st
      = some { st with
               steps := st.steps
               cin := cin2
               out := st.out ++ [stepHeader i (FlowStep.calculusStep calculusStep : FlowStep T)]
                 ++ calculusLines rt (some (Except.error what)) } := by
    simp only [executeStep, hstep, hrun]
  refine ⟨_, what, hexec, hwhat, ?_, rfl, hstep, hthrown, ?_⟩
  · simp [calculusLines]
  · intro n
    simp only [executeLoop, hexec, hthrown]

/-- Witness of C23: in `[NumberInput 5, NumberInput 3, Calculus]` the operator accepts
the Calculus step and declines both NumberInput steps. -/
theorem C23_cancelled_calculation_changes_nothing_witness :
    ∃ (st1 : ExecutorState ℚ) (what : String),
      executeStep exampleRuntime 2 exampleCancelState = some st1
      ∧ (what = noNumberInputMessage ∨ what = invalidSelectionMessage)
      ∧ st1.out = exampleCancelState.out
          ++ [stepHeader 2 (FlowStep.calculusStep
                { operation := ArithmeticOperation.Addition, numberInputs := [],
                  operationSymbol := '+' } : FlowStep ℚ),
              "Choose two number inputs for the calculation:", "Error: " ++ what]
      ∧ st1.steps = exampleCancelState.steps
      ∧ st1.steps[2]? = some (FlowStep.calculusStep
          { operation := ArithmeticOperation.Addition, numberInputs := [],
            operationSymbol := '+' })
      ∧ st1.thrown = none
      ∧ ∀ n : Nat, executeLoop exampleRuntime (n + 1) 2 exampleCancelState
          = executeLoop exampleRuntime n (2 + 1) st1 :=
  C23_cancelled_calculation_changes_nothing exampleRuntime 2 exampleCancelState
    { operation := ArithmeticOperation.Addition, numberInputs := [], operationSymbol := '+' }
    'y' "\nn\nn\n".data rfl rfl (by decide) (by decide)
    (Or.inr ⟨[], true, [], by decide, by decide⟩)

end CalculusClaims

section SelectionQuestions

variable {T : Type} [Zero T]

/-- The loop with the questions makes the selection of `selectLoop`. -/
theorem selectLoopAsked_fst (steps : List (FlowStep T)) (i : Nat) :
    ∀ (fuel j : Nat) (selectedInputs : List Nat) (verify : Bool) (cin : List Char)
      (asked : List Nat),
      (selectLoopAsked steps i fuel j selectedInputs verify cin asked).1
        = selectLoop steps i fuel j selectedInputs verify cin := by
  intro fuel
  induction fuel with
  | zero => intro j sel v cin asked; rfl
  | succ fuel ih =>
    intro j sel v cin asked
    unfold selectLoopAsked selectLoop
    split
    · split
      · split
        · rfl
        · split
          · split
            · rfl
            · exact ih _ _ _ _ _
          · exact ih _ _ _ _ _
      · exact ih _ _ _ _ _
    · rfl

/-- The bound of `selectLoopAsked` is never what ends the loop: any two bounds of at
least `selectLoopRounds` give the same selection and the same questions. -/
theorem selectLoopAsked_fuel (steps : List (FlowStep T)) (i : Nat) (fuel1 fuel2 j : Nat)
    (selectedInputs : List Nat) (verify : Bool) (cin : List Char) (asked : List Nat)
    (h1 : selectLoopRounds i j selectedInputs ≤ fuel1)
    (h2 : selectLoopRounds i j selectedInputs ≤ fuel2) :
    selectLoopAsked steps i fuel1 j selectedInputs verify cin asked
      = selectLoopAsked steps i fuel2 j selectedInputs verify cin asked := by
  induction fuel1 generalizing fuel2 j selectedInputs verify cin asked with
  | zero => simp [selectLoopRounds] at h1
  | succ fuel1 ih =>
    cases fuel2 with
    | zero => simp [selectLoopRounds] at h2
    | succ fuel2 =>
      unfold selectLoopAsked
      by_cases hj : j < i
      · have hnext : ∀ sel : List Nat, selectLoopRounds i (j + 1) sel + 1
            = selectLoopRounds i j sel := by
          intro sel; unfold selectLoopRounds; omega
        have hnext1 := hnext selectedInputs
        simp only [hj, if_true]
        split
        · cases hc : cinChar cin with
          | none => rfl
          | some p =>
            obtain ⟨c, rest⟩ := p
            dsimp only
            split
            · split
              · rfl
              · rename_i hlen
                have hnil : selectedInputs = [] := by
                  cases selectedInputs with
                  | nil => rfl
                  | cons x xs => simp at hlen
                subst hnil
                have hr : selectLoopRounds i 0 ([] ++ [j]) + 1 ≤ selectLoopRounds i j [] := by
                  simp only [selectLoopRounds, List.nil_append, if_true]
                  simp only [List.cons_ne_nil, if_false]
                  omega
                exact ih fuel2 _ _ _ _ _ (by omega) (by omega)
            · exact ih fuel2 _ _ _ _ _ (by omega) (by omega)
        · exact ih fuel2 _ _ _ _ _ (by omega) (by omega)
      · simp only [hj, if_false]

theorem numberInputsBetween_succ_le (steps : List (FlowStep T)) (j i : Nat) :
    numberInputsBetween steps (j + 1) i ≤ numberInputsBetween steps j i := by
  unfold numberInputsBetween
  apply List.Sublist.length_le
  apply List.Sublist.filter
  rw [← List.drop_drop 1 j]
  exact List.drop_sublist _ _

theorem numberInputsBetween_of_number (steps : List (FlowStep T)) (j i : Nat)
    (n : NumberInputStep T) (hj : j < i)
    (h : steps[j]? = some (FlowStep.numberInputStep n)) :
    numberInputsBetween steps j i = numberInputsBetween steps (j + 1) i + 1 := by
  unfold numberInputsBetween
  have h2 : (steps.take i)[j]? = some (FlowStep.numberInputStep n) := by
    rw [List.getElem?_take_of_lt hj]
    exact h
  obtain ⟨hlt, hget⟩ := List.getElem?_eq_some_iff.mp h2
  rw [List.drop_eq_getElem_cons hlt, hget]
  simp [FlowStep.isNumberInput]

/-- From the index `j` on, the loop asks at most as many questions as there are
NumberInput steps from `j` up to `i` and, while nothing is selected, once more as
many as there are before `i`. -/
theorem selectLoopAsked_length (steps : List (FlowStep T)) (i : Nat) :
    ∀ (fuel j : Nat) (selectedInputs : List Nat) (verify : Bool) (cin : List Char)
      (asked : List Nat),
      (selectLoopAsked steps i fuel j selectedInputs verify cin asked).2.length
        ≤ asked.length + numberInputsBetween steps j i
          + (if selectedInputs = [] then numberInputsBetween steps 0 i else 0) := by
  intro fuel
  induction fuel with
  | zero =>
    intro j sel v cin asked
    simp only [selectLoopAsked]
    omega
  | succ fuel ih =>
    intro j sel v cin asked
    unfold selectLoopAsked
    have hle := numberInputsBetween_succ_le steps j i
    split
    · rename_i hj
      split
      · rename_i n hn
        have hcnt := numberInputsBetween_of_number steps j i n hj hn
        split
        · simp only [List.length_append, List.length_singleton]
          omega
        · split
          · split
            · simp only [List.length_append, List.length_singleton]
              omega
            · rename_i hlen
              have hnil : sel = [] := by
                cases sel with
                | nil => rfl
                | cons x xs => simp at hlen
              subst hnil
              have h := ih 0 ([] ++ [j]) true (ignoreLine ‹_›) (asked ++ [j])
              simp only [List.nil_append, List.cons_ne_nil, if_false, List.length_append,
                List.length_singleton, if_true] at h ⊢
              omega
          · have h := ih (j + 1) sel true (ignoreLine ‹_›) (asked ++ [j])
            simp only [List.length_append, List.length_singleton] at h
            omega
      · have h := ih (j + 1) sel v cin asked
        omega
    · simp only
      omega

/-- C30: the scan of the Calculus branch goes back to index 0 after the first
accepted NumberInput step and offers the selected step again. In the flow
`[NumberInput 4, Calculus]` the operator accepts the one NumberInput step twice: the
questions are for step 1 and for step 1 again, both operands refer to it, and `+`
reports `4 + 4`. And in every run, with whatever input, the scan writes at most
`2 * n` selection questions, `n` being the number of NumberInput steps before the
Calculus step; the bound of the loop is never what ends it. -/
theorem C30_scan_restart_offers_selected_step_again (steps : List (FlowStep T)) (i : Nat)
    (cin : List Char) :
    (∃ run : CalculusRun ℚ,
      executeCalculusStep exampleSingleInputSteps 1
          { operation := ArithmeticOperation.Addition, numberInputs := [],
            operationSymbol := '+' }
          "y\ny\ny\n+\n".data = some run
      ∧ run.steps[1]? = some (FlowStep.calculusStep
          { operation := ArithmeticOperation.Addition, numberInputs := [0, 0],
            operationSymbol := '+' })
      ∧ run.report = some (Except.ok (0 + 4 + 4))
      ∧ selectLoopAsked exampleSingleInputSteps 1 (2 * 1 + 2) 0 [] false "y\ny\n+\n".data []
          = (some ([0, 0], true, "+\n".data), [0, 0]))
    ∧ (selectLoopAsked steps i (2 * i + 2) 0 [] false cin []).1 = selectNumberInputs steps i cin
    ∧ (selectLoopAsked steps i (2 * i + 2) 0 [] false cin []).2.length
        ≤ 2 * ((steps.take i).filter FlowStep.isNumberInput).length
    ∧ ∀ fuel : Nat, 2 * i + 2 ≤ fuel →
        selectLoopAsked steps i fuel 0 [] false cin []
          = selectLoopAsked steps i (2 * i + 2) 0 [] false cin [] := by
  refine ⟨⟨_, rfl, by decide, rfl, by decide⟩, ?_, ?_, ?_⟩
  · exact selectLoopAsked_fst steps i _ _ _ _ _ _
  · have h := selectLoopAsked_length steps i (2 * i + 2) 0 [] false cin []
    simp only [List.length_nil, if_true, numberInputsBetween, List.drop_zero] at h
    omega
  · intro fuel hfuel
    exact selectLoopAsked_fuel steps i _ _ 0 [] false cin []
      (by rw [selectLoopRounds_start]; exact hfuel) (by rw [selectLoopRounds_start])

end SelectionQuestions

section CommaInName

variable {T : Type} [Zero T]

theorem getlineText_no_delim (delim : Char) (stream : List Char) :
    delim ∉ getlineText delim stream := by
  induction stream with
  | nil => simp [getlineText]
  | cons c rest ih =>
    by_cases hc : c = delim
    · simp [getlineText, hc]
    · simp only [getlineText, hc, if_false, List.mem_cons, not_or]
      exact ⟨fun e => hc e.symm, ih⟩

theorem getlineText_append_of_mem (delim : Char) (x rest : List Char) (h : delim ∈ x) :
    getlineText delim (x ++ rest) = getlineText delim x := by
  induction x with
  | nil => simp at h
  | cons c x ih =>
    by_cases hc : c = delim
    · simp [getlineText, hc]
    · have hx : delim ∈ x := by
        rcases List.mem_cons.mp h with e | e
        · exact absurd e.symm hc
        · exact e
      rw [List.cons_append, getlineText, if_neg hc, ih hx, getlineText, if_neg hc]

/-- A name with a comma is the leading field of no line: loading by it finds
nothing, whatever the catalog holds. -/
theorem loadFlowFromCSV_name_with_comma (flowName : String) (csvFile : Option (List Char))
    (h : ',' ∈ flowName.data) :
    loadFlowFromCSV (T := T) flowName csvFile = { name := flowName, steps := [] } := by
  cases csvFile with
  | none => rfl
  | some content =>
    simp only [loadFlowFromCSV]
    apply loadLines_no_match
    intro l _ e
    rw [parseLine_csvFlowName] at e
    exact getlineText_no_delim ',' l (e ▸ h)

/-- C29: a flow with at least one step whose name has a comma is saved to a catalog
that is absent or empty and loaded by that name: the loaded flow has no step, so
the steps are lost, whether or not the catalog file opened for the save. No line of what was written has the name as its leading field;
when the name has no newline the one line written has as its leading field the
part of the name before its first comma. -/
theorem C29_comma_in_name_loads_no_step (flow : Flow T) (timeInfo : Tm)
    (hcomma : ',' ∈ flow.name.data) (hsteps : flow.steps ≠ []) :
    (∀ (isOpen : Bool) (csvFile : Option (List Char)), csvFile = none ∨ csvFile = some [] →
      (loadFlowFromCSV (T := T) flow.name (saveFlowToCSV flow timeInfo isOpen csvFile)).steps
          = []
      ∧ (loadFlowFromCSV (T := T) flow.name (saveFlowToCSV flow timeInfo isOpen csvFile)).steps
          ≠ flow.steps)
    ∧ (∀ line ∈ getlineAll '\n' (catalogLine flow timeInfo),
        (parseLine line).csvFlowName ≠ flow.name.data)
    ∧ ('\n' ∉ flow.name.data →
        (getlineAll '\n' (catalogLine flow timeInfo)).map (fun line => (parseLine line).csvFlowName)
          = [flow.name.data.takeWhile (fun c => c != ',')]) := by
  refine ⟨?_, ?_, ?_⟩
  · intro isOpen csvFile _
    rw [loadFlowFromCSV_name_with_comma flow.name _ hcomma]
    exact ⟨rfl, fun e => hsteps e.symm⟩
  · intro line _ e
    rw [parseLine_csvFlowName] at e
    exact getlineText_no_delim ',' line (e ▸ hcomma)
  · intro hnewline
    rw [getlineAll_catalogLine flow timeInfo hnewline]
    simp only [List.map_cons, List.map_nil, parseLine_csvFlowName, List.append_assoc]
    rw [getlineText_append_of_mem ',' _ _ hcomma, getlineText_eq_takeWhile]

/-- Witness of C29: the flow `[Title, End]` named `a,b`; the line written starts
with `a,b,` and its leading field is `a`. -/
theorem C29_comma_in_name_loads_no_step_witness :
    (∀ (isOpen : Bool) (csvFile : Option (List Char)), csvFile = none ∨ csvFile = some [] →
      (loadFlowFromCSV (T := ℚ) exampleCommaFlow.name
        (saveFlowToCSV exampleCommaFlow exampleTime isOpen csvFile)).steps = []
      ∧ (loadFlowFromCSV (T := ℚ) exampleCommaFlow.name
          (saveFlowToCSV exampleCommaFlow exampleTime isOpen csvFile)).steps
          ≠ exampleCommaFlow.steps)
    ∧ (∀ line ∈ getlineAll '\n' (catalogLine exampleCommaFlow exampleTime),
        (parseLine line).csvFlowName ≠ exampleCommaFlow.name.data)
    ∧ ('\n' ∉ exampleCommaFlow.name.data →
        (getlineAll '\n' (catalogLine exampleCommaFlow exampleTime)).map
            (fun line => (parseLine line).csvFlowName)
          = [exampleCommaFlow.name.data.takeWhile (fun c => c != ',')]) :=
  C29_comma_in_name_loads_no_step exampleCommaFlow exampleTime (by decide) (by decide)

end CommaInName

section GateClaims

variable {T : Type} [LinearOrderedField T]

/-- C28: the step at index `i` is of any kind but End and the operator answers its
completion question with a character that is neither `Y` nor `y`. The branch
returns with every step of the flow as it was, the files and the collected output
data as they were and the rest of the answer's line consumed; no exception leaves
it, and the executor goes on with index `i + 1`. -/
theorem C28_declined_gate_changes_no_step (rt : Runtime T) (i : Nat) (st : ExecutorState T)
    (currentStep : FlowStep T) (completeStep : Char) (cin0 : List Char)
    (hstep : st.steps[i]? = some currentStep)
    (hkind : currentStep ≠ FlowStep.endStep)
    (hthrown : st.thrown = none)
    (hgate : cinChar st.cin = some (completeStep, cin0))
    (hupper : completeStep ≠ 'Y') (hlower : completeStep ≠ 'y') :
    ∃ st1 : ExecutorState T,
      executeStep rt i st = some st1
      ∧ st1.steps = st.steps
      ∧ st1.cin = ignoreLine cin0
      ∧ st1.fs = st.fs
      ∧ st1.outputData = st.outputData
      ∧ st1.thrown = none
      ∧ ∀ n : Nat, executeLoop rt (n + 1) i st = executeLoop rt n (i + 1) st1 := by
  have hno : isYes completeStep = false := by
    simp [isYes, hupper, hlower]
  have hexec : ∃ st1 : ExecutorState T,
      executeStep rt i st = some st1
      ∧ st1.steps = st.steps
      ∧ st1.cin = ignoreLine cin0
      ∧ st1.fs = st.fs
      ∧ st1.outputData = st.outputData
      ∧ st1.thrown = none := by
    cases currentStep with
    | titleStep s =>
      simp only [executeStep, hstep, executeTitleStep, hgate, hno, Bool.false_eq_true, if_false]
      exact ⟨_, rfl, rfl, rfl, rfl, rfl, hthrown⟩
    | textStep s =>
      simp only [executeStep, hstep, executeTextStep, hgate, hno, Bool.false_eq_true, if_false]
      exact ⟨_, rfl, rfl, rfl, rfl, rfl, hthrown⟩
    | textInputStep s =>
      simp only [executeStep, hstep, executeTextInputStep, hgate, hno, Bool.false_eq_true, if_false]
      exact ⟨_, rfl, rfl, rfl, rfl, rfl, hthrown⟩
    | numberInputStep s =>
      simp only [executeStep, hstep, executeNumberInputStep, hgate, hno, Bool.false_eq_true, if_false]
      exact ⟨_, rfl, rfl, rfl, rfl, rfl, hthrown⟩
    | calculusStep s =>
      simp only [executeStep, hstep, executeCalculusStep, hgate, hno, Bool.false_eq_true, if_false]
      exact ⟨_, rfl, rfl, rfl, rfl, rfl, hthrown⟩
    | displayStep =>
      simp only [executeStep, hstep, executeDisplayStep, hgate, hno, Bool.false_eq_true, if_false]
      exact ⟨_, rfl, rfl, rfl, rfl, rfl, hthrown⟩
    | textFileInputStep s =>
      simp only [executeStep, hstep, hgate, hno, Bool.false_eq_true, if_false]
      exact ⟨_, rfl, rfl, rfl, rfl, rfl, hthrown⟩
    | csvFileInputStep s =>
      simp only [executeStep, hstep, hgate, hno, Bool.false_eq_true, if_false]
      exact ⟨_, rfl, rfl, rfl, rfl, rfl, hthrown⟩
    | outputStep s =>
      simp only [executeStep, hstep, executeOutputStep, hgate, hno, Bool.false_eq_true, if_false]
      exact ⟨_, rfl, rfl, rfl, rfl, rfl, hthrown⟩
    | endStep => exact absurd rfl hkind
  obtain ⟨st1, h1, h2, h3, h4, h5, h6⟩ := hexec
  refine ⟨st1, h1, h2, h3, h4, h5, h6, ?_⟩
  intro n
  simp only [executeLoop, h1, h6]

/-- Witness of C28: the operator answers `n` at the Calculus step of
`[NumberInput, NumberInput, Calculus, Display, End]`. -/
theorem C28_declined_gate_changes_no_step_witness :
    ∃ st1 : ExecutorState ℚ,
      executeStep exampleRuntime 2 exampleDeclineState = some st1
      ∧ st1.steps = exampleDeclineState.steps
      ∧ st1.cin = ignoreLine "\nn\n".data
      ∧ st1.fs = exampleDeclineState.fs
      ∧ st1.outputData = exampleDeclineState.outputData
      ∧ st1.thrown = none
      ∧ ∀ n : Nat, executeLoop exampleRuntime (n + 1) 2 exampleDeclineState
          = executeLoop exampleRuntime n (2 + 1) st1 :=
  C28_declined_gate_changes_no_step exampleRuntime 2 exampleDeclineState
    (FlowStep.calculusStep
      { operation := ArithmeticOperation.Addition, numberInputs := [], operationSymbol := '+' })
    'n' "\nn\n".data rfl (by simp) rfl (by decide) (by decide) (by decide)

end GateClaims

section TextInputClaims

variable {T : Type} [LinearOrderedField T]

/-- The loop of the TextInput branch over the indices `j` to `j + n`: the flow keeps
its length; a step outside these indices, or one that is not a completed Title or
Text step, stays as it is; a Title step keeps all but its title and subtitle and a
Text step all but its title and text. -/
theorem textInputLoop_frame (n : Nat) :
    ∀ (j : Nat) (steps : List (FlowStep T)) (verify : Bool) (cin : List Char)
      (result : List (FlowStep T) × Bool × List Char),
      textInputLoop n j steps verify cin = some result →
      result.1.length = steps.length
      ∧ (∀ (k : Nat) (step : FlowStep T), steps[k]? = some step →
          k < j ∨ j + n ≤ k ∨ step.isCompletedText = false → result.1[k]? = some step)
      ∧ (∀ (k : Nat) (titleStep : TitleStep), steps[k]? = some (FlowStep.titleStep titleStep) →
          ∃ title subtitle : String, result.1[k]? = some (FlowStep.titleStep
            { titleStep with title := title, subtitle := subtitle }))
      ∧ (∀ (k : Nat) (textStep : TextStep), steps[k]? = some (FlowStep.textStep textStep) →
          ∃ title text : String, result.1[k]? = some (FlowStep.textStep
            { textStep with title := title, text := text })) := by
  induction n with
  | zero =>
    intro j steps verify cin result h
    simp only [textInputLoop, Option.some.injEq] at h
    subst h
    exact ⟨rfl, fun k step hk _ => hk, fun k t hk => ⟨t.title, t.subtitle, hk⟩,
      fun k t hk => ⟨t.title, t.text, hk⟩⟩
  | succ n ih =>
    intro j steps verify cin result h
    have hskip : textInputLoop n (j + 1) steps verify cin = some result →
        result.1.length = steps.length
        ∧ (∀ (k : Nat) (step : FlowStep T), steps[k]? = some step →
            k < j ∨ j + (n + 1) ≤ k ∨ step.isCompletedText = false → result.1[k]? = some step)
        ∧ (∀ (k : Nat) (titleStep : TitleStep),
            steps[k]? = some (FlowStep.titleStep titleStep) →
            ∃ title subtitle : String, result.1[k]? = some (FlowStep.titleStep
              { titleStep with title := title, subtitle := subtitle }))
        ∧ (∀ (k : Nat) (textStep : TextStep), steps[k]? = some (FlowStep.textStep textStep) →
            ∃ title text : String, result.1[k]? = some (FlowStep.textStep
              { textStep with title := title, text := text })) := by
      intro h
      obtain ⟨h1, h2, h3, h4⟩ := ih _ _ _ _ _ h
      refine ⟨h1, ?_, h3, h4⟩
      intro k step hk hc
      apply h2 k step hk
      rcases hc with hc | hc | hc
      · exact Or.inl (by omega)
      · exact Or.inr (Or.inl (by omega))
      · exact Or.inr (Or.inr hc)
    have hset : ∀ (old new : FlowStep T) (cin2 : List Char),
        steps[j]? = some old → old.isCompletedText = true →
        textInputLoop n (j + 1) (steps.set j new) true cin2 = some result →
        result.1.length = steps.length
        ∧ (∀ (k : Nat) (step : FlowStep T), steps[k]? = some step →
            k < j ∨ j + (n + 1) ≤ k ∨ step.isCompletedText = false →
            result.1[k]? = some step)
        ∧ result.1[j]? = some new
        ∧ (∀ (k : Nat) (step : FlowStep T), k ≠ j → steps[k]? = some step →
            (steps.set j new)[k]? = some step) := by
      intro old new cin2 hj hold h
      obtain ⟨h1, h2, _, _⟩ := ih _ _ _ _ _ h
      refine ⟨by rw [h1, List.length_set], ?_, ?_, ?_⟩
      · intro k step hk hc
        have hkj : k ≠ j := by
          intro e
          subst e
          rw [hj] at hk
          cases hk
          rcases hc with hc | hc | hc
          · omega
          · omega
          · rw [hold] at hc
            cases hc
        apply h2 k step
        · rw [getElem?_set_of_ne steps j k new hkj]
          exact hk
        · rcases hc with hc | hc | hc
          · exact Or.inl (by omega)
          · exact Or.inr (Or.inl (by omega))
          · exact Or.inr (Or.inr hc)
      · exact h2 j new (getElem?_set_self_of_some steps j old new hj) (Or.inl (by omega))
      · intro k step hkj hk
        rw [getElem?_set_of_ne steps j k new hkj]
        exact hk
    unfold textInputLoop at h
    split at h
    · rename_i titleStep hj
      split at h
      · rename_i hcomplete
        split at h
        · cases h
        · split at h
          · cases h
          · obtain ⟨h1, h2, h3, h4⟩ := hset _ _ _ hj hcomplete h
            obtain ⟨_, _, i3, i4⟩ := ih _ _ _ _ _ h
            refine ⟨h1, h2, ?_, ?_⟩
            · intro k t hk
              by_cases hkj : k = j
              · subst hkj
                rw [hj] at hk
                cases hk
                exact ⟨_, _, h3⟩
              · exact i3 k t (h4 k _ hkj hk)
            · intro k t hk
              by_cases hkj : k = j
              · subst hkj
                rw [hj] at hk
                cases hk
              · exact i4 k t (h4 k _ hkj hk)
      · exact hskip h
    · rename_i textStep hj
      split at h
      · rename_i hcomplete
        split at h
        · cases h
        · split at h
          · cases h
          · obtain ⟨h1, h2, h3, h4⟩ := hset _ _ _ hj hcomplete h
            obtain ⟨_, _, i3, i4⟩ := ih _ _ _ _ _ h
            refine ⟨h1, h2, ?_, ?_⟩
            · intro k t hk
              by_cases hkj : k = j
              · subst hkj
                rw [hj] at hk
                cases hk
              · exact i3 k t (h4 k _ hkj hk)
            · intro k t hk
              by_cases hkj : k = j
              · subst hkj
                rw [hj] at hk
                cases hk
                exact ⟨_, _, h3⟩
              · exact i4 k t (h4 k _ hkj hk)
      · exact hskip h
    · exact hskip h

/-- C26: the operator accepts a TextInput step at index `i` and the branch returns.
The flow has as many steps as before. Every step at index `i` or above, and every
step that is not a Title or Text step with its completed flag set, is exactly as
before. A Title step keeps every field but its title and subtitle, a Text step
every field but its title and text. The files, the collected output data and the
exception state are as before. -/
theorem C26_text_input_changes_only_completed_texts (rt : Runtime T) (i : Nat)
    (st st1 : ExecutorState T) (completeStep : Char) (cin0 : List Char)
    (hgate : cinChar st.cin = some (completeStep, cin0))
    (hyes : isYes completeStep = true)
    (h : executeTextInputStep rt i st = some st1) :
    st1.steps.length = st.steps.length
    ∧ (∀ (k : Nat) (step : FlowStep T), st.steps[k]? = some step →
        i ≤ k ∨ step.isCompletedText = false → st1.steps[k]? = some step)
    ∧ (∀ (k : Nat) (titleStep : TitleStep), st.steps[k]? = some (FlowStep.titleStep titleStep) →
        ∃ title subtitle : String, st1.steps[k]? = some (FlowStep.titleStep
          { titleStep with title := title, subtitle := subtitle }))
    ∧ (∀ (k : Nat) (textStep : TextStep), st.steps[k]? = some (FlowStep.textStep textStep) →
        ∃ title text : String, st1.steps[k]? = some (FlowStep.textStep
          { textStep with title := title, text := text }))
    ∧ st1.fs = st.fs ∧ st1.outputData = st.outputData ∧ st1.thrown = st.thrown := by
  simp only [executeTextInputStep, hgate, hyes, if_true] at h
  split at h
  · cases h
  · rename_i steps verify cin1 hloop
    cases h
    obtain ⟨h1, h2, h3, h4⟩ := textInputLoop_frame i 0 st.steps _ _ _ hloop
    refine ⟨h1, ?_, h3, h4, rfl, rfl, rfl⟩
    intro k step hk hc
    apply h2 k step hk
    rcases hc with hc | hc
    · exact Or.inr (Or.inl (by omega))
    · exact Or.inr (Or.inr hc)

/-- Witness of C26: a TextInput step at index 4 after a completed Title step, a Title
step that was skipped, a completed Text step and a NumberInput step. The two
completed steps take the typed lines; the other steps are as before. -/
theorem C26_text_input_changes_only_completed_texts_witness :
    ∃ st1 : ExecutorState ℚ,
      executeTextInputStep exampleRuntime 4 exampleTextInputState = some st1
      ∧ st1.steps =
          [FlowStep.titleStep { title := "Report", subtitle := "Week 1", complete := true },
           FlowStep.titleStep { complete := false },
           FlowStep.textStep
             { title := "Notes", text := "All well", complete := true, stepNumber := some 2 },
           FlowStep.numberInputStep { description := "Input a number", userInput := (7 : ℚ) },
           FlowStep.textInputStep ({} : TextInputStep),
           FlowStep.endStep]
      ∧ st1.steps.length = exampleTextInputState.steps.length
      ∧ (∀ (k : Nat) (step : FlowStep ℚ), exampleTextInputState.steps[k]? = some step →
          4 ≤ k ∨ step.isCompletedText = false → st1.steps[k]? = some step)
      ∧ (∀ (k : Nat) (titleStep : TitleStep),
          exampleTextInputState.steps[k]? = some (FlowStep.titleStep titleStep) →
          ∃ title subtitle : String, st1.steps[k]? = some (FlowStep.titleStep
            { titleStep with title := title, subtitle := subtitle }))
      ∧ (∀ (k : Nat) (textStep : TextStep),
          exampleTextInputState.steps[k]? = some (FlowStep.textStep textStep) →
          ∃ title text : String, st1.steps[k]? = some (FlowStep.textStep
            { textStep with title := title, text := text }))
      ∧ st1.fs = exampleTextInputState.fs
      ∧ st1.outputData = exampleTextInputState.outputData
      ∧ st1.thrown = exampleTextInputState.thrown := by
  have hsteps : (executeTextInputStep exampleRuntime 4 exampleTextInputState).map
      (fun st => st.steps)
      = some
          [FlowStep.titleStep { title := "Report", subtitle := "Week 1", complete := true },
           FlowStep.titleStep { complete := false },
           FlowStep.textStep
             { title := "Notes", text := "All well", complete := true, stepNumber := some 2 },
           FlowStep.numberInputStep { description := "Input a number", userInput := (7 : ℚ) },
           FlowStep.textInputStep ({} : TextInputStep),
           FlowStep.endStep] := by decide
  cases h : executeTextInputStep exampleRuntime 4 exampleTextInputState with
  | none => rw [h] at hsteps; cases hsteps
  | some st1 =>
    rw [h] at hsteps
    simp only [Option.map_some', Option.some.injEq] at hsteps
    exact ⟨st1, rfl, hsteps,
      C26_text_input_changes_only_completed_texts exampleRuntime 4 exampleTextInputState st1
        'y' "\n Report\nWeek 1\n Notes\nAll well\n".data (by decide) (by decide) h⟩

/-- C27 (what the code does): in a round of the TextInput loop at a completed Title
or Text step, `cin.ignore()` first discards one character of the input, whatever it
is, although the completion question has left no line end behind. The operator has
typed the character `first` and the text `line1` as the first line and `line2` as
the second: the title stored is `line1`, without `first`, and the subtitle, or the
text of a Text step, is `line2`. -/
theorem C27_first_typed_character_is_dropped (n j : Nat) (steps : List (FlowStep T))
    (verify : Bool) (first : Char) (line1 line2 rest : List Char)
    (h1 : '\n' ∉ line1) (h2 : '\n' ∉ line2) :
    (∀ titleStep : TitleStep, steps[j]? = some (FlowStep.titleStep titleStep) →
      titleStep.complete = true →
      textInputLoop (n + 1) j steps verify (first :: (line1 ++ '\n' :: (line2 ++ '\n' :: rest)))
        = textInputLoop n (j + 1)
            (steps.set j (FlowStep.titleStep
              { titleStep with title := String.mk line1, subtitle := String.mk line2 }))
            true rest)
    ∧ (∀ textStep : TextStep, steps[j]? = some (FlowStep.textStep textStep) →
      textStep.complete = true →
      textInputLoop (n + 1) j steps verify (first :: (line1 ++ '\n' :: (line2 ++ '\n' :: rest)))
        = textInputLoop n (j + 1)
            (steps.set j (FlowStep.textStep
              { textStep with title := String.mk line1, text := String.mk line2 }))
            true rest) := by
  have hdrop : ignoreOne (first :: (line1 ++ '\n' :: (line2 ++ '\n' :: rest)))
      = line1 ++ '\n' :: (line2 ++ '\n' :: rest) := rfl
  have hg1 := getline_field '\n' line1 (line2 ++ '\n' :: rest) h1
  have hg2 := getline_field '\n' line2 rest h2
  constructor
  · intro titleStep hstep hcomplete
    rw [textInputLoop]
    simp only [hstep, hcomplete, if_true, hdrop, hg1, hg2]
  · intro textStep hstep hcomplete
    rw [textInputLoop]
    simp only [hstep, hcomplete, if_true, hdrop, hg1, hg2]

/-- Witness of C27: the operator types `My title` and `Sub` for a completed Title
step; the title stored is `y title`. -/
theorem C27_first_typed_character_is_dropped_witness :
    textInputLoop (0 + 1) 0
        [FlowStep.titleStep { complete := true }, (FlowStep.textInputStep {} : FlowStep ℚ)]
        false ('M' :: ("y title".data ++ '\n' :: ("Sub".data ++ '\n' :: [])))
      = textInputLoop 0 (0 + 1)
          ([FlowStep.titleStep { complete := true },
            (FlowStep.textInputStep {} : FlowStep ℚ)].set 0
            (FlowStep.titleStep { title := "y title", subtitle := "Sub", complete := true }))
          true [] :=
  (C27_first_typed_character_is_dropped 0 0
    [FlowStep.titleStep { complete := true }, (FlowStep.textInputStep {} : FlowStep ℚ)]
    false 'M' "y title".data "Sub".data [] (by decide) (by decide)).1
    { complete := true } rfl rfl

/-- C27 (as stated, refuted): in the flow `[Title, TextInput, Display, End]` the
operator completes the Title step, accepts the TextInput step, types the lines
`My title` and `Sub`, and accepts the Display step, which prints the title the
step holds: `y title`. The first character typed is lost. -/
theorem C27_counterexample_typed_title :
    (executeFlow exampleRuntime exampleTitleFlow "y\ny\nMy title\nSub\ny\n".data noFiles).map
        (fun st => (st.thrown, st.out))
      = some
          (none,
           ["1. TitleStep: Step with a title and subtitle.",
            "2. TextInputStep: Step to input the text.\nDescription of the user that created the step: Default Description",
            "The text you need to complete:",
            "3. DisplayStep: Displaying the flow.",
            "Display of the input so far:",
            "Title 1: y title",
            "Subtitle 1: Sub",
            "4. EndStep: End of the flow.",
            "Flow Completed!"]) := by
  decide

end TextInputClaims

section DisplayLabels

variable {T : Type} [LinearOrderedField T]

theorem kindCounters_append (before : List (FlowStep T)) (step : FlowStep T) :
    kindCounters (before ++ [step])
      = match step with
        | .titleStep _ => { kindCounters before with title := (kindCounters before).title + 1 }
        | .textStep _ => { kindCounters before with text := (kindCounters before).text + 1 }
        | .numberInputStep _ =>
          { kindCounters before with number := (kindCounters before).number + 1 }
        | .calculusStep _ =>
          { kindCounters before with calculus := (kindCounters before).calculus + 1 }
        | .textFileInputStep _ =>
          { kindCounters before with textFile := (kindCounters before).textFile + 1 }
        | .csvFileInputStep _ =>
          { kindCounters before with csvFile := (kindCounters before).csvFile + 1 }
        | _ => kindCounters before := by
  cases step <;> simp [kindCounters, List.countP_append, FlowStep.getType]

theorem sameKindBefore_eq (before : List (FlowStep T)) (step : FlowStep T) :
    sameKindBefore before step
      = match step with
        | .titleStep _ => (kindCounters before).title
        | .textStep _ => (kindCounters before).text
        | .numberInputStep _ => (kindCounters before).number
        | .calculusStep _ => (kindCounters before).calculus
        | .textFileInputStep _ => (kindCounters before).textFile
        | .csvFileInputStep _ => (kindCounters before).csvFile
        | _ => sameKindBefore before step := by
  cases step <;> rfl

/-- One round of the scan of the Display branch, the counters being the numbers of
steps of each kind met so far: it writes the lines of the step under the label of
its kind and goes on with the counters of the longer list, or ends at a Calculus
step that throws. -/
theorem displayLoop_cons (rt : Runtime T) (steps before : List (FlowStep T))
    (step : FlowStep T) (rest : List (FlowStep T)) (verify : Bool) (out : List String) :
    match displayStepLines rt steps (sameKindBefore before step) step with
    | some lines =>
      ∃ verify1 : Bool,
        displayLoop rt steps (step :: rest) (kindCounters before) verify out
          = displayLoop rt steps rest (kindCounters (before ++ [step])) verify1 (out ++ lines)
    | none =>
      (displayLoop rt steps (step :: rest) (kindCounters before) verify out).out = out
      ∧ (displayLoop rt steps (step :: rest) (kindCounters before) verify out).thrown ≠ none := by
  rw [kindCounters_append, sameKindBefore_eq]
  cases step with
  | titleStep s => exact ⟨true, rfl⟩
  | textStep s => exact ⟨true, rfl⟩
  | numberInputStep s => exact ⟨true, rfl⟩
  | calculusStep s =>
    simp only [displayStepLines, displayLoop]
    cases performCalculation s.operation (derefNumberInputs steps s.numberInputs) with
    | ok result => exact ⟨true, rfl⟩
    | error what => exact ⟨rfl, by simp⟩
  | textFileInputStep s =>
    simp only [displayStepLines, displayLoop]
    cases s.fileImported with
    | true => exact ⟨true, rfl⟩
    | false => exact ⟨true, rfl⟩
  | csvFileInputStep s =>
    simp only [displayStepLines, displayLoop]
    cases s.fileImported with
    | true => exact ⟨true, by simp⟩
    | false => exact ⟨true, rfl⟩
  | textInputStep s => exact ⟨verify, by simp [displayLoop]⟩
  | displayStep => exact ⟨verify, by simp [displayLoop]⟩
  | outputStep s => exact ⟨verify, by simp [displayLoop]⟩
  | endStep => exact ⟨verify, by simp [displayLoop]⟩

/-- The lines the scan of the Display branch adds are the labelled lines of the steps
it goes over. -/
theorem displayLoop_out (rt : Runtime T) (steps : List (FlowStep T)) :
    ∀ (prior before : List (FlowStep T)) (verify : Bool) (out : List String),
      (displayLoop rt steps prior (kindCounters before) verify out).out
        = out ++ displayedLines rt steps before prior := by
  intro prior
  induction prior with
  | nil => intro before verify out; simp [displayLoop, displayedLines]
  | cons step rest ih =>
    intro before verify out
    have h := displayLoop_cons rt steps before step rest verify out
    rw [displayedLines]
    cases hl : displayStepLines rt steps (sameKindBefore before step) step with
    | none =>
      rw [hl] at h
      simp only [List.append_nil]
      exact h.1
    | some lines =>
      rw [hl] at h
      obtain ⟨verify1, h⟩ := h
      simp only
      rw [h, ih, List.append_assoc]

/-- The labelled lines of a list that is cut after steps none of which is a Calculus
step that throws. -/
theorem displayedLines_append (rt : Runtime T) (steps : List (FlowStep T)) :
    ∀ (pre before rest : List (FlowStep T)),
      (∀ c : CalculusStep, FlowStep.calculusStep c ∈ pre →
        ∃ result : T, performCalculation c.operation (derefNumberInputs steps c.numberInputs)
          = Except.ok result) →
      displayedLines rt steps before (pre ++ rest)
        = displayedLines rt steps before pre ++ displayedLines rt steps (before ++ pre) rest := by
  intro pre
  induction pre with
  | nil => intro before rest _; simp [displayedLines]
  | cons step pre ih =>
    intro before rest hok
    have hpre : ∀ c : CalculusStep, FlowStep.calculusStep c ∈ pre →
        ∃ result : T, performCalculation c.operation (derefNumberInputs steps c.numberInputs)
          = Except.ok result :=
      fun c hc => hok c (List.mem_cons_of_mem _ hc)
    rw [List.cons_append, displayedLines, displayedLines]
    cases hl : displayStepLines rt steps (sameKindBefore before step) step with
    | none =>
      cases step with
      | calculusStep s =>
        obtain ⟨result, hr⟩ := hok s (List.mem_cons_self _ _)
        simp [displayStepLines, hr] at hl
      | textFileInputStep s =>
        simp only [displayStepLines] at hl
        split at hl <;> cases hl
      | csvFileInputStep s =>
        simp only [displayStepLines] at hl
        split at hl <;> cases hl
      | _ => cases hl
    | some lines =>
      simp only
      rw [ih (before ++ [step]) rest hpre]
      simp [List.append_assoc]

theorem displayStepLines_some (rt : Runtime T) (steps : List (FlowStep T)) (counter : Nat)
    (step : FlowStep T)
    (hok : ∀ c : CalculusStep, step = FlowStep.calculusStep c →
      ∃ result : T, performCalculation c.operation (derefNumberInputs steps c.numberInputs)
        = Except.ok result) :
    ∃ lines : List String, displayStepLines rt steps counter step = some lines := by
  cases step with
  | calculusStep s =>
    obtain ⟨result, hr⟩ := hok s rfl
    simp only [displayStepLines, hr]
    exact ⟨_, rfl⟩
  | textFileInputStep s =>
    simp only [displayStepLines]
    split
    · exact ⟨_, rfl⟩
    · exact ⟨_, rfl⟩
  | csvFileInputStep s =>
    simp only [displayStepLines]
    split
    · exact ⟨_, rfl⟩
    · exact ⟨_, rfl⟩
  | _ => exact ⟨_, rfl⟩

/-- C24 (what the code does): the operator accepts a Display step at index `i`;
`step` is one of the steps before it, after the steps `pre`, and no Calculus step up
to it divides by zero, so that the scan reaches it. The lines written for `step` come
right after those of the steps before it and carry as label one more than the number
of steps of its own type in `pre`: the `k`-th step of a kind is labelled `k`, however
many steps of other kinds are in `pre`; the labels of the lines before are formed in
the same way. -/
theorem C24_display_labels_count_per_kind (rt : Runtime T) (i : Nat) (st : ExecutorState T)
    (completeStep : Char) (cin0 : List Char) (pre : List (FlowStep T)) (step : FlowStep T)
    (post : List (FlowStep T))
    (hgate : cinChar st.cin = some (completeStep, cin0))
    (hyes : isYes completeStep = true)
    (hsplit : st.steps.take i = pre ++ step :: post)
    (hok : ∀ c : CalculusStep, FlowStep.calculusStep c ∈ pre ++ [step] →
      ∃ result : T, performCalculation c.operation (derefNumberInputs st.steps c.numberInputs)
        = Except.ok result) :
    ∃ (st1 : ExecutorState T) (lines after : List String),
      executeDisplayStep rt i st = some st1
      ∧ displayStepLines rt st.steps (sameKindBefore pre step) step = some lines
      ∧ st1.out = st.out ++ ["Display of the input so far:"]
          ++ displayedLines rt st.steps [] pre ++ lines ++ after := by
  obtain ⟨lines, hlines⟩ := displayStepLines_some rt st.steps (sameKindBefore pre step) step
    (fun c hc => hok c (by simp [hc]))
  have hpre : ∀ c : CalculusStep, FlowStep.calculusStep c ∈ pre →
      ∃ result : T, performCalculation c.operation (derefNumberInputs st.steps c.numberInputs)
        = Except.ok result :=
    fun c hc => hok c (List.mem_append_left _ hc)
  have hout := displayLoop_out rt st.steps (st.steps.take i) [] false
    (st.out ++ ["Display of the input so far:"])
  have hzero : kindCounters ([] : List (FlowStep T)) = StepCounters.zero := rfl
  rw [hzero, hsplit, displayedLines_append rt st.steps pre [] (step :: post) hpre,
    List.nil_append, displayedLines, hlines, ← hsplit] at hout
  simp only at hout
  cases hrun : displayLoop rt st.steps (st.steps.take i) StepCounters.zero false
      (st.out ++ ["Display of the input so far:"]) with
  | mk out verify thrown =>
    rw [hrun] at hout
    simp only at hout
    cases thrown with
    | some what =>
      refine ⟨{ st with cin := ignoreLine cin0, out := out, thrown := some what }, lines,
        displayedLines rt st.steps (pre ++ [step]) post, ?_, hlines, ?_⟩
      · simp only [executeDisplayStep, hgate, hyes, if_true, hrun]
      · simp only [hout, List.append_assoc]
    | none =>
      refine ⟨{ st with cin := ignoreLine cin0,
                        out := out ++ (if verify then [] else ["Nothing to display."]) },
        lines,
        displayedLines rt st.steps (pre ++ [step]) post
          ++ (if verify then [] else ["Nothing to display."]), ?_, hlines, ?_⟩
      · simp only [executeDisplayStep, hgate, hyes, if_true, hrun]
      · simp only [hout, List.append_assoc]

/-- Witness of C24: a Display step at index 5 after `[Title, NumberInput, Text,
NumberInput, Title]`. The second Title step, the fifth step of the flow, is labelled
2, right after the lines `Title 1`, `Number Input 1`, `Text 1` and `Number Input 2`
of the steps before it. -/
theorem C24_display_labels_count_per_kind_witness :
    ∃ (st1 : ExecutorState ℚ) (lines after : List String),
      executeDisplayStep exampleRuntime 5 exampleLabelState = some st1
      ∧ displayStepLines exampleRuntime exampleLabelState.steps
          (sameKindBefore (exampleLabelState.steps.take 4)
            (FlowStep.titleStep { title := "B", subtitle := "b", complete := true }))
          (FlowStep.titleStep { title := "B", subtitle := "b", complete := true }) = some lines
      ∧ st1.out = exampleLabelState.out ++ ["Display of the input so far:"]
          ++ displayedLines exampleRuntime exampleLabelState.steps []
              (exampleLabelState.steps.take 4) ++ lines ++ after
      ∧ lines = ["Title 2: B", "Subtitle 2: b"]
      ∧ displayedLines exampleRuntime exampleLabelState.steps []
            (exampleLabelState.steps.take 4)
          = ["Title 1: A", "Subtitle 1: a", "Number Input 1: 5", "Text title 1: T",
             "Text 1: t", "Number Input 2: 3"] := by
  obtain ⟨st1, lines, after, h1, h2, h3⟩ :=
    C24_display_labels_count_per_kind exampleRuntime 5 exampleLabelState 'y' "\n".data
      (exampleLabelState.steps.take 4)
      (FlowStep.titleStep { title := "B", subtitle := "b", complete := true }) []
      (by decide) (by decide) (by decide) (by
        intro c hc
        simp [exampleLabelState] at hc)
  have hdec : displayStepLines exampleRuntime exampleLabelState.steps
      (sameKindBefore (exampleLabelState.steps.take 4)
        (FlowStep.titleStep { title := "B", subtitle := "b", complete := true }))
      (FlowStep.titleStep { title := "B", subtitle := "b", complete := true })
      = some ["Title 2: B", "Subtitle 2: b"] := by decide
  refine ⟨st1, lines, after, h1, h2, h3, ?_, by decide⟩
  rw [hdec] at h2
  exact (Option.some.inj h2).symm

end DisplayLabels

section OutputRendering

variable {T : Type} [LinearOrderedField T]

/-- C25 (what the code does): for a Calculus step with the operands `a` and `b`, the
line the Output branch collects has between the operands, for the symbol `+`, the
text ` 43 `, the number of the character `+` as `to_string(operationSymbol)` gives
it, and for `m` it ends `min(a, b)` with `)` and the result right after it, without
` = `. The Display branch writes ` + ` and `) = `. -/
theorem C25_output_calculus_rendering (rt : Runtime T) (k : Nat)
    (operation : ArithmeticOperation) (numberInputs : List Nat) (a b : NumberInputStep T)
    (result : T) :
    outputCalculusText rt k
        { operation := operation, numberInputs := numberInputs, operationSymbol := '+' } [a, b]
        ++ rt.toStringNumber result
      = "Calculus Result " ++ toString (k + 1) ++ ": " ++ rt.toStringNumber a.getUserInput
          ++ " 43 " ++ rt.toStringNumber b.getUserInput ++ " = " ++ rt.toStringNumber result
    ∧ displayCalculusText rt k
        { operation := operation, numberInputs := numberInputs, operationSymbol := '+' } [a, b]
        ++ rt.showNumber result
      = "Calculus Step " ++ toString (k + 1) ++ ": " ++ rt.showNumber a.getUserInput
          ++ " + " ++ rt.showNumber b.getUserInput ++ " = " ++ rt.showNumber result
    ∧ outputCalculusText rt k
        { operation := operation, numberInputs := numberInputs, operationSymbol := 'm' } [a, b]
        ++ rt.toStringNumber result
      = "Calculus Result " ++ toString (k + 1) ++ ": min(" ++ rt.toStringNumber a.getUserInput
          ++ ", " ++ rt.toStringNumber b.getUserInput ++ ")" ++ rt.toStringNumber result
    ∧ displayCalculusText rt k
        { operation := operation, numberInputs := numberInputs, operationSymbol := 'm' } [a, b]
        ++ rt.showNumber result
      = "Calculus Step " ++ toString (k + 1) ++ ": min(" ++ rt.showNumber a.getUserInput
          ++ ", " ++ rt.showNumber b.getUserInput ++ ") = " ++ rt.showNumber result := by
  have h43 : " " ++ toString '+'.toNat ++ " " = " 43 " := by decide
  have hplus : " " ++ String.singleton '+' ++ " " = " + " := by decide
  have hp : isMinMaxSymbol '+' = false := by decide
  have hm : isMinMaxSymbol 'm' = true := by decide
  refine ⟨?_, ?_, ?_, ?_⟩
  · simp only [outputCalculusText, renderOperands, hp, h43, Bool.false_eq_true, if_false,
      String.append_assoc, String.append_empty, String.empty_append]
  · simp only [displayCalculusText, renderOperands, hp, hplus, Bool.false_eq_true, if_false,
      String.append_assoc, String.append_empty, String.empty_append]
  · simp only [outputCalculusText, renderOperands, hm, if_true, String.append_assoc]
    rfl
  · simp only [displayCalculusText, renderOperands, hm, if_true, String.append_assoc]
    rfl

/-- C25 (as stated, refuted): in `[NumberInput, NumberInput, Calculus, Calculus,
Display, Output, End]` the operator enters 5 and 3, has the first Calculus step add
them and the second take their minimum, accepts the Display step and has the Output
step write the two calculations. The Display step prints `5 + 3 = 8` and
`min(5, 3) = 3`; the file holds `5.000000 43 3.000000 = 8.000000` and
`min(5.000000, 3.000000)3.000000`. -/
theorem C25_counterexample_output_file :
    (executeFlow exampleRuntime exampleOutputFlow
        "y\n5\ny\n3\ny\ny\nn\ny\n+\ny\ny\nn\ny\nm\ny\ny\nreport\nSums\nOf two numbers\nn\nn\ny\ny\n".data
        noFiles).map
        (fun st => (st.thrown, (st.out.drop 14).take 2, (st.fs.read "report.txt").map String.mk))
      = some
          (none,
           ["Calculus Step 1: 5 + 3 = 8", "Calculus Step 2: min(5, 3) = 3"],
           some "Title of the output file: Sums\nDescription of the output file: Of two numbers\n\n\nCalculus Result 1: 5.000000 43 3.000000 = 8.000000\nCalculus Result 2: min(5.000000, 3.000000)3.000000\n") := by
  decide!

end OutputRendering

section DisplayCutShort

/-- C24 (as stated, refuted): in `[NumberInput, NumberInput, Calculus, Title, Display,
End]` the operator enters 6 and 0, has the Calculus step divide them, completes the
Title step and accepts the Display step. The scan writes `Number Input 1` and
`Number Input 2`; at the Calculus step `performCalculation` throws, outside any `try`
of the branch, and the run ends in the outer `catch`. The Title step, the first of
its kind before the Display step, is written under no label at all. -/
theorem C24_counterexample_scan_ended_by_exception :
    (executeFlow exampleRuntime exampleCutDisplayFlow "y\n6\ny\n0\ny\ny\nn\ny\n/\ny\ny\n".data
        noFiles).map (fun st => (st.thrown, st.out.drop 7))
      = some
          (some "Division by zero detected. Skipping.",
           ["4. TitleStep: Step with a title and subtitle.",
            "5. DisplayStep: Displaying the flow.",
            "Display of the input so far:",
            "Number Input 1: 6",
            "Number Input 2: 0",
            "Error: Division by zero detected. Skipping."]) := by
  decide

end DisplayCutShort

end FlowMaker
